import Mathlib

/-!
# godepi: a lazy, memoizing dependency-injection container

A shallow embedding of `container.go`, `utils.go` and `types.go`.

* Go's `reflect.Type` descriptors are the values of `GoType`; Go values are the
  values of `Value`, pointers being addresses into an object heap.
* `*Container` pointers are indices into the list of allocated containers of a
  `State`; the Go maps `factories` and `instances` are functions from keys whose
  value at an absent key is Go's zero value `nil`, which is all that the indexing
  expressions of the source can observe.
* A Go function that can panic returns an `Outcome`: a normal return, a panic
  (with the state at the time of the panic) or no return at all.
* The watcher goroutine of `callFunc` only reports on real time and is left out.
-/

namespace Godepi

/-! ## Types and values as package `reflect` shows them -/

/-- The `reflect.Kind` of a type, as far as the container tells kinds apart. -/
inductive Kind where
  | Struct
  | Ptr
  | Interface
  | Other
deriving DecidableEq, Repr

/-- A `reflect.Type` descriptor: package path, name and method names of the type;
a pointer type also has its element type. An unnamed type has the empty package
path and the empty name, a predeclared type (`string`, `error`) the empty package
path. -/
inductive GoType where
  | struct (pkgPath name : String) (methods : List String)
  | iface (pkgPath name : String) (methods : List String)
  | other (pkgPath name : String) (methods : List String)
  | ptr (pkgPath name : String) (methods : List String) (elem : GoType)
deriving DecidableEq, Repr

/-- The kind of a type: `t.Kind()`. -/
def GoType.Kind : GoType → Kind
  | .struct _ _ _ => .Struct
  | .iface _ _ _ => .Interface
  | .other _ _ _ => .Other
  | .ptr _ _ _ _ => .Ptr

/-- The package path of a type: `t.PkgPath()`. -/
def GoType.PkgPath : GoType → String
  | .struct p _ _ => p
  | .iface p _ _ => p
  | .other p _ _ => p
  | .ptr p _ _ _ => p

/-- The name of a type: `t.Name()`. -/
def GoType.Name : GoType → String
  | .struct _ n _ => n
  | .iface _ n _ => n
  | .other _ n _ => n
  | .ptr _ n _ _ => n

/-- The method names of a type. -/
def GoType.Methods : GoType → List String
  | .struct _ _ m => m
  | .iface _ _ m => m
  | .other _ _ m => m
  | .ptr _ _ m _ => m

/-- The last element of a slash-separated path, read from a list of characters;
`seg` is the element read so far. -/
def lastElem : List Char → List Char → List Char
  | [], seg => seg
  | ch :: rest, seg => if ch = '/' then lastElem rest [] else lastElem rest (seg ++ [ch])

/-- A name qualified by the package name, the last element of the package path;
a predeclared or unnamed type has no package. -/
def qualified (pkgPath name : String) : String :=
  if pkgPath = "" then name else String.mk (lastElem pkgPath.data []) ++ "." ++ name

/-- The text of `t.String()` for a named or predeclared type and for an unnamed
pointer to one. -/
def GoType.TypeString : GoType → String
  | .struct p n _ => qualified p n
  | .iface p n _ => qualified p n
  | .other p n _ => qualified p n
  | .ptr p n _ e => if n = "" then "*" ++ e.TypeString else qualified p n

/-- The predeclared type `string`. -/
def stringType : GoType := .other "" "string" []

mutual
/-- A Go value, as an `interface{}` can hold it. `nil` is the nil interface, `str`
a value of the predeclared type `string`, `scalar` a value of any other type that
is neither a pointer nor a struct (its content is given as a text), `pointer` a
pointer of type `t` to the cell `addr` of the object heap (a nil pointer has no
cell), `struct` a struct value with its fields in declaration order. -/
inductive Value where
  | nil
  | str (s : String)
  | scalar (t : GoType) (text : String)
  | pointer (t : GoType) (addr : Option Nat)
  | struct (t : GoType) (fields : List StructField)
/-- A field of a struct value together with its `reflect.StructField` data:
whether the field is exported, the value of the `di` key of its tag, its declared
type, and its content (for a field of interface type, the value it holds). -/
inductive StructField where
  | mk (exported : Bool) (tag : String) (typ : GoType) (val : Value)
end

/-- Whether the field is exported. -/
def StructField.exported : StructField → Bool
  | .mk e _ _ _ => e

/-- The `di` tag of the field: `Tag.Get("di")`. -/
def StructField.tag : StructField → String
  | .mk _ t _ _ => t

/-- The declared type of the field. -/
def StructField.typ : StructField → GoType
  | .mk _ _ t _ => t

/-- The content of the field. -/
def StructField.val : StructField → Value
  | .mk _ _ _ v => v

/-- The test `v == nil` on an `interface{}`. -/
def Value.isNil : Value → Bool
  | .nil => true
  | _ => false

/-- The dynamic type of a value: `reflect.TypeOf(v)`, absent for the nil interface. -/
def Value.TypeOf : Value → Option GoType
  | .nil => none
  | .str _ => some stringType
  | .scalar t _ => some t
  | .pointer t _ => some t
  | .struct t _ => some t

/-- The object heap: the cells that pointers point to. -/
abbrev ObjHeap := List Value

/-- A Go function value seen through `reflect`: the types of its parameters and of
its results, and its body, which maps the arguments and the object heap to the
results and the new object heap, or panics with a message. The body has no access
to the containers. `errorText objs v` is what the verb `%s` prints for a result
`v` of the function that is an error: the text that the method `Error` of the
dynamic type of `v` returns. That method is code of the program, like the body;
a function without a result of type `error` does not need it. -/
structure Func where
  ins : List GoType
  outs : List GoType
  call : List Value → ObjHeap → Except String (List Value × ObjHeap)
  errorText : ObjHeap → Value → String := fun _ _ => ""

/-- The type `FactoryFunc` of `types.go` is `interface{}`: a function value, or
`none` for the nil interface. -/
abbrev FactoryFunc := Option Func

/-- The tag value `INJECT`. -/
def INJECT : String := "inject"

/-- The tag value `NESTED`. -/
def NESTED : String := "nested"

/-- The struct `ProviderName`. -/
structure ProviderName where
  Name : String
  Factory : FactoryFunc

/-- The struct `ProviderInterface`. -/
structure ProviderInterface where
  Provide : Value
  Factory : FactoryFunc

/-! ## Dependency keys (`utils.go`) -/

/-- The function `getFullDepPath`: one level of pointer is stripped when the kind
of the type is `Ptr`, and the key is package path, a dot, and the name. -/
def getFullDepPath (t : GoType) : String :=
  let t := match t with
    | .ptr _ _ _ e => e
    | t => t
  t.PkgPath ++ "." ++ t.Name

/-- The runtime error of a method call through a nil pointer or nil interface. -/
def nilDeref : String := "runtime error: invalid memory address or nil pointer dereference"

/-- The function `getDepName`: a `string` is the key itself; for any other value
the key is that of the type of the first field of its type, and `Field(0)` panics
when the type is not a struct type or has no field. -/
def getDepName (dep : Value) : Except String String :=
  match dep with
  | .str s => .ok s
  | .nil => .error nilDeref
  | .struct _ (f :: _) => .ok (getFullDepPath f.typ)
  | .struct _ [] => .error "reflect: Field index out of bounds"
  | .scalar _ _ => .error "reflect: Field of non-struct type"
  | .pointer _ _ => .error "reflect: Field of non-struct type"

/-- The function `getFactoryReturnDepName`: the key of the type of the first
result of the factory; `Out(0)` panics when there is none. -/
def getFactoryReturnDepName (f : FactoryFunc) : Except String String :=
  match f with
  | none => .error nilDeref
  | some fn =>
    match fn.outs with
    | [] => .error "reflect: Func index out of bounds"
    | retType :: _ => .ok (getFullDepPath retType)

/-- The message of the panic of `checkFactory`. -/
def wrongReturnType (want got : String) : String :=
  "wrong return type in factory for \"" ++ want ++ "\" dependency, got \"" ++ got ++ "\""

/-- The function `checkFactory`: panics unless the key of the factory's first
result is the key of `dep`. -/
def checkFactory (dep : Value) (f : FactoryFunc) : Except String Unit :=
  match getFactoryReturnDepName f with
  | .error e => .error e
  | .ok got =>
    match getDepName dep with
    | .error e => .error e
    | .ok want => if got != want then .error (wrongReturnType want got) else .ok ()

/-! ## Containers and program state -/

/-- The struct `Container`; `imports` holds pointers to containers. -/
structure Container where
  imports : List Nat
  factories : String → FactoryFunc
  instances : String → Value
  timeout : Nat
  running : Bool

/-- The struct `ContainerOpts`; an element of `Imports` may be the nil pointer. -/
structure ContainerOpts where
  Imports : List (Option Nat)
  ByName : List ProviderName
  ByInterface : List ProviderInterface
  ByFactories : List FactoryFunc

/-- The program state: the allocated containers (a `*Container` is an index), the
object heap, and the log of the keys for which `callFunc` has called a factory,
oldest first. The log is not in the source; it is what counts invocations. -/
structure State where
  containers : List Container
  objs : ObjHeap
  calls : List String

/-- The result of running a Go function from a state: it returns a value, or it
panics, or it does not return by itself (`diverge`: the recursion has no end). What
ends the process from outside such a call, the timeout watcher of `callFunc` or
the limit of the stack, is not part of the outcome. -/
inductive Outcome (α : Type) where
  | ret (a : α) (s : State)
  | panic (msg : String) (s : State)
  | diverge

/-- A map with the entry for `k` set to `v`: the assignment `m[k] = v`. -/
def setKey {β : Type} (m : String → β) (k : String) (v : β) : String → β :=
  fun k' => if k' = k then v else m k'

/-- The state with container `c` replaced. -/
def State.setContainer (s : State) (c : Nat) (cont : Container) : State :=
  { s with containers := s.containers.set c cont }

/-- The message of the duplicate-key panic of `Provide`. -/
def alreadyProvided (depName : String) : String :=
  "\"" ++ depName ++ "\" already provided"

/-- The method `Provide`. -/
def Provide (c : Nat) (dep : Value) (factory : FactoryFunc) (s : State) : Outcome Unit :=
  match s.containers[c]? with
  | none => .panic nilDeref s
  | some cont =>
    if cont.running then .panic "cannot provide new factory in a running container" s
    else
      match checkFactory dep factory with
      | .error msg => .panic msg s
      | .ok _ =>
        match getDepName dep with
        | .error msg => .panic msg s
        | .ok depName =>
          if (cont.factories depName).isSome then .panic (alreadyProvided depName) s
          else .ret () (s.setContainer c { cont with factories := setKey cont.factories depName factory })

/-- The method `ProvideByName`. -/
def ProvideByName (c : Nat) (depName : String) (factory : FactoryFunc) (s : State) : Outcome Unit :=
  Provide c (.str depName) factory s

/-- The method `ProvideByInterface`. -/
def ProvideByInterface (c : Nat) (dep : Value) (factory : FactoryFunc) (s : State) : Outcome Unit :=
  Provide c dep factory s

/-- The method `ProvideByFactory`; the argument `getFactoryReturnDepName(factory)`
is evaluated before `Provide` is entered. -/
def ProvideByFactory (c : Nat) (factory : FactoryFunc) (s : State) : Outcome Unit :=
  match getFactoryReturnDepName factory with
  | .error msg => .panic msg s
  | .ok depName => Provide c (.str depName) factory s

/-- The method `Run`. -/
def Run (c : Nat) (s : State) : Outcome Unit :=
  match s.containers[c]? with
  | none => .panic nilDeref s
  | some cont =>
    if cont.running then .panic "container is already initialized" s
    else .ret () (s.setContainer c { cont with running := true })

/-- A `for ... range` loop whose body can panic. -/
def forEach {α : Type} (body : α → State → Outcome Unit) : List α → State → Outcome Unit
  | [], s => .ret () s
  | a :: rest, s =>
    match body a s with
    | .ret _ s1 => forEach body rest s1
    | .panic msg s1 => .panic msg s1
    | .diverge => .diverge

/-- The body of the loop of `NewContainer` over `opts.Imports`. -/
def appendImport (c : Nat) (importedContainer : Option Nat) (s : State) : Outcome Unit :=
  match importedContainer with
  | none => .panic "imported container has nil value" s
  | some i =>
    match s.containers[c]? with
    | none => .panic nilDeref s
    | some cont => .ret () (s.setContainer c { cont with imports := cont.imports ++ [i] })

/-- The default timeout, `10 * time.Second`, in nanoseconds. -/
def defaultTimeout : Nat := 10 * 1000000000

/-- The function `NewContainer`: the new container is allocated first, then the
imports are appended and the three lists of providers registered, in this order. -/
def NewContainer (opts : Option ContainerOpts) (s : State) : Outcome Nat :=
  let c := s.containers.length
  let s0 : State := { s with containers := s.containers ++
    [{ imports := [], factories := fun _ => none, instances := fun _ => Value.nil,
       timeout := defaultTimeout, running := false }] }
  match opts with
  | none => .ret c s0
  | some o =>
    match forEach (appendImport c) o.Imports s0 with
    | .panic msg s1 => .panic msg s1
    | .diverge => .diverge
    | .ret _ s1 =>
      match forEach (fun p => Provide c (.str p.Name) p.Factory) o.ByName s1 with
      | .panic msg s2 => .panic msg s2
      | .diverge => .diverge
      | .ret _ s2 =>
        match forEach (fun p => Provide c p.Provide p.Factory) o.ByInterface s2 with
        | .panic msg s3 => .panic msg s3
        | .diverge => .diverge
        | .ret _ s3 =>
          match forEach (fun f => ProvideByFactory c f) o.ByFactories s3 with
          | .panic msg s4 => .panic msg s4
          | .diverge => .diverge
          | .ret _ s4 => .ret c s4

/-! ## Searches along the import chain

The three recursive methods take the number of nested calls they may make; without
a result within that number there is none. `GetInstance`, `GetFactory` and
`SetInstance` allow one more nested call than there are containers: a chain of
imports that long visits some container twice, and from there the Go recursion
repeats itself without end. -/

/-- The loop of `GetInstance` over the imports: the first instance that is not nil. -/
def firstInstance (rec : Nat → Option Value) : List Nat → Option Value
  | [] => some .nil
  | i :: rest =>
    match rec i with
    | none => none
    | some v => if v.isNil then firstInstance rec rest else some v

/-- The method `GetInstance` with a bound on the depth of the recursion. -/
def GetInstanceAux : Nat → List Container → Nat → String → Option Value
  | 0, _, _, _ => none
  | fuel + 1, h, c, depName =>
    match h[c]? with
    | none => none
    | some cont =>
      if !(cont.instances depName).isNil then some (cont.instances depName)
      else if (cont.factories depName).isSome then some .nil
      else firstInstance (fun i => GetInstanceAux fuel h i depName) cont.imports

/-- The method `GetInstance`. -/
def GetInstance (h : List Container) (c : Nat) (depName : String) : Option Value :=
  GetInstanceAux (h.length + 1) h c depName

/-- The loop of `GetFactory` over the imports: the first factory that is not nil. -/
def firstFactory (rec : Nat → Option FactoryFunc) : List Nat → Option FactoryFunc
  | [] => some none
  | i :: rest =>
    match rec i with
    | none => none
    | some f => if f.isSome then some f else firstFactory rec rest

/-- The method `GetFactory` with a bound on the depth of the recursion. -/
def GetFactoryAux : Nat → List Container → Nat → String → Option FactoryFunc
  | 0, _, _, _ => none
  | fuel + 1, h, c, depName =>
    match h[c]? with
    | none => none
    | some cont =>
      if (cont.factories depName).isSome then some (cont.factories depName)
      else firstFactory (fun i => GetFactoryAux fuel h i depName) cont.imports

/-- The method `GetFactory`. -/
def GetFactory (h : List Container) (c : Nat) (depName : String) : Option FactoryFunc :=
  GetFactoryAux (h.length + 1) h c depName

/-- The error of `SetInstance`. -/
def failedToSet : String := "failed to set instance"

/-- The loop of `SetInstance` over the imports: it stops at the first import that
returns no error; the containers are threaded through the attempts. -/
def tryImports (rec : List Container → Nat → Option (List Container × Option String)) :
    List Nat → List Container → Option (List Container × Option String)
  | [], h => some (h, some failedToSet)
  | i :: rest, h =>
    match rec h i with
    | none => none
    | some (h1, none) => some (h1, none)
    | some (h1, some _) => tryImports rec rest h1

/-- The method `SetInstance` with a bound on the depth of the recursion: the
containers after the call and the error returned (`none` for a nil error). -/
def SetInstanceAux : Nat → List Container → Nat → String → Value →
    Option (List Container × Option String)
  | 0, _, _, _, _ => none
  | fuel + 1, h, c, depName, inst =>
    match h[c]? with
    | none => none
    | some cont =>
      if (cont.factories depName).isSome then
        some (h.set c { cont with instances := setKey cont.instances depName inst }, none)
      else tryImports (fun h1 i => SetInstanceAux fuel h1 i depName inst) cont.imports h

/-- The method `SetInstance`. -/
def SetInstance (h : List Container) (c : Nat) (depName : String) (inst : Value) :
    Option (List Container × Option String) :=
  SetInstanceAux (h.length + 1) h c depName inst

/-! ## Package `reflect`: values, calls and assignments

Where a message of package `reflect` names a type or a kind, the message is given
here without that name. -/

/-- A `reflect.Value` that is not the zero Value: its static type, its content when
it was made, the place it stands for when it is addressable (a cell of the object
heap and a path of field indices into it), and the read-only flag of a value
reached through an unexported field. -/
structure RValue where
  typ : GoType
  val : Value
  loc : Option (Nat × List Nat)
  ro : Bool

/-- The kind of a value, `v.Kind()`, is the kind of its static type. -/
def RValue.Kind (v : RValue) : Kind := v.typ.Kind

/-- The value as an `interface{}`: `v.Interface()`; for a value of interface type it
is the value held, nil included. -/
def RValue.Interface (v : RValue) : Value := v.val

/-- The message for a value whose shape is not that of its type; the Go type system
excludes it. -/
def illTyped : String := "value does not have the shape of its type"

/-- The method `v.Elem()`: the value inside an interface or behind a pointer; it is
the zero Value (`none`) for a nil interface and a nil pointer, and it panics for
a value of any other kind. -/
def RValue.Elem (objs : ObjHeap) (v : RValue) : Except String (Option RValue) :=
  match v.typ with
  | .iface _ _ _ =>
    match v.val.TypeOf with
    | none => .ok none
    | some t => .ok (some { typ := t, val := v.val, loc := none, ro := v.ro })
  | .ptr _ _ _ e =>
    match v.val with
    | .pointer _ none => .ok none
    | .pointer _ (some a) =>
      match objs[a]? with
      | some cell => .ok (some { typ := e, val := cell, loc := some (a, []), ro := v.ro })
      | none => .error nilDeref
    | _ => .error illTyped
  | _ => .error "reflect: call of reflect.Value.Elem on a value that is neither interface nor pointer"

/-- The value at a path of field indices inside a value. -/
def getPath : Value → List Nat → Option Value
  | v, [] => some v
  | .struct _ fs, i :: p =>
    match fs[i]? with
    | some f => getPath f.val p
    | none => none
  | _, _ :: _ => none

/-- The value with the content at a path of field indices replaced. -/
def setPath : Value → List Nat → Value → Option Value
  | _, [], new => some new
  | .struct t fs, i :: p, new =>
    match fs[i]? with
    | some (.mk e tag ty v) =>
      match setPath v p new with
      | some v1 => some (.struct t (fs.set i (.mk e tag ty v1)))
      | none => none
    | none => none
  | _, _ :: _, _ => none

/-- The method `v.Field(i)` for the field `f` of the struct value `v`: an
addressable struct gives an addressable field whose content is read from the
object heap; an unexported field gives a read-only value. -/
def RValue.Field (objs : ObjHeap) (v : RValue) (i : Nat) (f : StructField) : Except String RValue :=
  match v.loc with
  | none => .ok { typ := f.typ, val := f.val, loc := none, ro := v.ro || !f.exported }
  | some (a, p) =>
    match objs[a]? with
    | none => .error nilDeref
    | some cell =>
      match getPath cell (p ++ [i]) with
      | none => .error illTyped
      | some cur => .ok { typ := f.typ, val := cur, loc := some (a, p ++ [i]), ro := v.ro || !f.exported }

/-- Assignability of a value of dynamic type `src` to a place of type `dst`: the
types are identical, or `dst` is an interface type all of whose methods `src` has. -/
def assignableTo (src dst : GoType) : Bool :=
  src == dst || (dst.Kind == Kind.Interface && dst.Methods.all (fun m => src.Methods.contains m))

/-- The statement `v.Field(i).Set(reflect.ValueOf(dep))` for the field `f` of the
struct value `v`: it panics when the field is read-only or not addressable, when
`dep` is nil (its `reflect.ValueOf` is the zero Value), and when the type of `dep`
is not assignable to the type of the field; otherwise the field is overwritten in
the object heap. -/
def setField (objs : ObjHeap) (v : RValue) (i : Nat) (f : StructField) (dep : Value) :
    Except String ObjHeap :=
  if v.ro || !f.exported then
    .error "reflect: reflect.Value.Set using value obtained using unexported field"
  else
    match v.loc with
    | none => .error "reflect: reflect.Value.Set using unaddressable value"
    | some (a, p) =>
      match dep.TypeOf with
      | none => .error "reflect: call of reflect.Value.Set on zero Value"
      | some dt =>
        if !assignableTo dt f.typ then .error "reflect.Set: value is not assignable to the type of the field"
        else
          match objs[a]? with
          | none => .error nilDeref
          | some cell =>
            match setPath cell (p ++ [i]) dep with
            | none => .error illTyped
            | some cell1 => .ok (objs.set a cell1)

/-- Whether a value may stand where the type `t` is declared: the nil interface
only for an interface type, any other value when its type is assignable to `t`. -/
def conforms (v : Value) (t : GoType) : Bool :=
  match v.TypeOf with
  | none => t.Kind == Kind.Interface
  | some d => assignableTo d t

/-- Whether a value may be passed to `Call` for a parameter of type `t`: the zero
Value of a nil `interface{}` may not. -/
def argOk (v : Value) (t : GoType) : Bool :=
  match v.TypeOf with
  | none => false
  | some d => assignableTo d t

/-- The checks that `fVal.Call(args)` makes before it enters the function: the
message of its panic when the number of the arguments or the type of one of them
does not fit the parameters. -/
def callCheck (fn : Func) (args : List Value) : Option String :=
  if args.length != fn.ins.length then some "reflect: Call with wrong number of input arguments"
  else if !(args.zip fn.ins).all (fun p => argOk p.1 p.2) then
    some "reflect: Call using an argument that is not assignable to the parameter type"
  else none

/-- The method `fVal.Call(args)`: it panics when the number of arguments or the type
of one of them does not fit, and when the body panics. The results of a Go
function have its declared result types; a body that breaks this is stopped
with a panic. -/
def reflectCall (fn : Func) (args : List Value) (objs : ObjHeap) :
    Except String (List Value × ObjHeap) :=
  match callCheck fn args with
  | some e => .error e
  | none =>
    match fn.call args objs with
    | .error e => .error e
    | .ok (res, objs1) =>
      if res.length == fn.outs.length && (res.zip fn.outs).all (fun p => conforms p.1 p.2) then
        .ok (res, objs1)
      else .error illTyped

/-! ## Resolution (`container.go`) -/

/-- The message of the panic of `get` for a key without factory. -/
def notProvided (depName : String) : String :=
  "\"" ++ depName ++ "\" dependency not provided"

/-- The message of the panic of `callFunc` for a factory that returns an error. -/
def returnedError (depName cause : String) : String :=
  "\"" ++ depName ++ "\" returned error: \"" ++ cause ++ "\""

/-- The first loop of `callFunc`: each parameter type is resolved with `get`, in
order; the result is the list of arguments. -/
def resolveArgs (getF : Value → State → Outcome Value) : List GoType → State → Outcome (List Value)
  | [], s => .ret [] s
  | fDepType :: rest, s =>
    match getF (.str (getFullDepPath fDepType)) s with
    | .panic msg s1 => .panic msg s1
    | .diverge => .diverge
    | .ret fDep s1 =>
      match resolveArgs getF rest s1 with
      | .panic msg s2 => .panic msg s2
      | .diverge => .diverge
      | .ret vals s2 => .ret (fDep :: vals) s2

/-- The second loop of `callFunc`: the first result of static type `error` that is
not nil. -/
def firstError : List RValue → Option Value
  | [] => none
  | resV :: rest =>
    if resV.typ.TypeString = "error" && !resV.Interface.isNil then some resV.Interface
    else firstError rest

/-- The method `callFunc`, with `getF` for the method `get` of the same container.
When `Call` enters the factory, the call is entered in the log of the state; a
`Call` that panics on its arguments has not entered it. The goroutine that
`callFunc` starts first, which panics with `depName + " call: " + ctx.Err().Error()`
when the deadline of the context passes before `callFunc` is through, acts in
real time and is not part of this definition: here a call that does not return
is `diverge`, where the program is ended by that goroutine. -/
def callFunc (getF : Value → State → Outcome Value) (f : FactoryFunc) (depName : String)
    (s : State) : Outcome (List RValue) :=
  match f with
  | none => .panic nilDeref s
  | some fn =>
    match resolveArgs getF fn.ins s with
    | .panic msg s1 => .panic msg s1
    | .diverge => .diverge
    | .ret fDepsVals s1 =>
      match callCheck fn fDepsVals with
      | some msg => .panic msg s1
      | none =>
        let s2 : State := { s1 with calls := s1.calls ++ [depName] }
        match reflectCall fn fDepsVals s2.objs with
        | .error msg => .panic msg s2
        | .ok (res, objs1) =>
          let s3 : State := { s2 with objs := objs1 }
          let fCallRes := (res.zip fn.outs).map
            (fun p => ({ typ := p.2, val := p.1, loc := none, ro := false } : RValue))
          match firstError fCallRes with
          | some e => .panic (returnedError depName (fn.errorText s3.objs e)) s3
          | none => .ret fCallRes s3

/-- The head of `injectFields`: the struct value whose fields are visited, if any.
A struct is taken as it is, a pointer to a struct is dereferenced, and for a value
of interface type `v.Elem().Elem()` is taken, which panics unless the interface
holds a pointer that is not nil; nothing is visited for any other value. -/
def injectTarget (objs : ObjHeap) (v : RValue) : Except String (Option RValue) :=
  match v.Kind with
  | .Interface =>
    match v.Elem objs with
    | .error e => .error e
    | .ok none => .error "reflect: call of reflect.Value.Elem on zero Value"
    | .ok (some x) =>
      match x.Elem objs with
      | .error e => .error e
      | .ok none => .error "reflect: call of reflect.Value.Type on zero Value"
      | .ok (some y) => .ok (some y)
  | .Ptr =>
    match v.Elem objs with
    | .error e => .error e
    | .ok none => .ok none
    | .ok (some x) => if x.Kind = Kind.Struct then .ok (some x) else .ok none
  | .Struct => .ok (some v)
  | .Other => .ok none

/-- The fields of the type of a struct value: `NumField` panics when the type is not
a struct type. -/
def RValue.fields (v : RValue) : Except String (List StructField) :=
  match v.typ.Kind with
  | .Struct =>
    match v.val with
    | .struct _ fs => .ok fs
    | _ => .error illTyped
  | _ => .error "reflect: NumField of non-struct type"

/-- The body of the loop of `injectFields` for field `i`: a field tagged `inject` is
set to `get` of the key of its type; a field tagged `nested` is visited in turn. -/
def injectField (getF : Value → State → Outcome Value) (nested : RValue → State → Outcome Unit)
    (v : RValue) (i : Nat) (f : StructField) (s : State) : Outcome Unit :=
  let afterInject : Outcome Unit :=
    if f.tag = INJECT then
      match getF (.str (getFullDepPath f.typ)) s with
      | .panic msg s1 => .panic msg s1
      | .diverge => .diverge
      | .ret dep s1 =>
        match setField s1.objs v i f dep with
        | .error msg => .panic msg s1
        | .ok objs1 => .ret () { s1 with objs := objs1 }
    else .ret () s
  match afterInject with
  | .panic msg s1 => .panic msg s1
  | .diverge => .diverge
  | .ret _ s1 =>
    if f.tag = NESTED then
      match v.Field s1.objs i f with
      | .error msg => .panic msg s1
      | .ok fv => nested fv s1
    else .ret () s1

/-- The loop of `injectFields` over the fields, from index `i` on. -/
def fieldsLoop (body : Nat → StructField → State → Outcome Unit) :
    Nat → List StructField → State → Outcome Unit
  | _, [], s => .ret () s
  | i, f :: rest, s =>
    match body i f s with
    | .panic msg s1 => .panic msg s1
    | .diverge => .diverge
    | .ret _ s1 => fieldsLoop body (i + 1) rest s1

/-- The method `injectFields`, with `getF` for the method `get` of the same
container and a bound on the depth of the recursion into nested fields. -/
def injectFields : Nat → (Value → State → Outcome Value) → RValue → State → Outcome Unit
  | 0, _, _, _ => .diverge
  | fuel + 1, getF, v, s =>
    match injectTarget s.objs v with
    | .error msg => .panic msg s
    | .ok none => .ret () s
    | .ok (some target) =>
      match target.fields with
      | .error msg => .panic msg s
      | .ok fs => fieldsLoop (injectField getF (injectFields fuel getF) target) 0 fs s

/-- The method `get` of container `c`, with a bound on the depth of the recursion
(through the arguments of factories and through injected fields). -/
def get : Nat → Nat → Value → State → Outcome Value
  | 0, _, _, _ => .diverge
  | fuel + 1, c, dep, s =>
    match getDepName dep with
    | .error msg => .panic msg s
    | .ok depName =>
      match GetInstance s.containers c depName with
      | none => .diverge
      | some inst =>
        if inst.isNil then
          match GetFactory s.containers c depName with
          | none => .diverge
          | some none => .panic (notProvided depName) s
          | some (some fn) =>
            match callFunc (get fuel c) (some fn) depName s with
            | .panic msg s1 => .panic msg s1
            | .diverge => .diverge
            | .ret fCallRes s1 =>
              match fCallRes with
              | [] => .panic "runtime error: index out of range [0] with length 0" s1
              | r0 :: _ =>
                match SetInstance s1.containers c depName r0.Interface with
                | none => .diverge
                | some (h1, some err) => .panic err { s1 with containers := h1 }
                | some (h1, none) =>
                  match injectFields fuel (get fuel c) r0 { s1 with containers := h1 } with
                  | .panic msg s2 => .panic msg s2
                  | .diverge => .diverge
                  | .ret _ s2 => .ret r0.Interface s2
        else .ret inst s

/-! ## Notions used to state the properties -/

/-- The loop over the imports of the search for the owner of a key. -/
def firstOwner (rec : Nat → Option (Option Nat)) : List Nat → Option (Option Nat)
  | [] => some none
  | i :: rest =>
    match rec i with
    | none => none
    | some o => if o.isSome then some o else firstOwner rec rest

/-- The container that owns a key for container `c`: `c` itself when its registry
has a factory for the key, otherwise the first owner found in the imports, in
order and depth first. This is the traversal of `GetFactory` and `SetInstance`,
returning the container at which they stop. -/
def findOwnerAux : Nat → List Container → Nat → String → Option (Option Nat)
  | 0, _, _, _ => none
  | fuel + 1, h, c, depName =>
    match h[c]? with
    | none => none
    | some cont =>
      if (cont.factories depName).isSome then some (some c)
      else firstOwner (fun i => findOwnerAux fuel h i depName) cont.imports

/-- The owner of a key for container `c`, with the depth bound of the searches. -/
def findOwner (h : List Container) (c : Nat) (depName : String) : Option (Option Nat) :=
  findOwnerAux (h.length + 1) h c depName

/-- The containers with the instance for `depName` of container `o` set to `inst`. -/
def storeAt (h : List Container) (o : Nat) (depName : String) (inst : Value) : List Container :=
  match h[o]? with
  | none => h
  | some cont => h.set o { cont with instances := setKey cont.instances depName inst }

/-- What it means for the results of the three searches to agree: none of them
returns, or there is no owner, no factory and the error of `SetInstance` with the
containers unchanged, or there is an owner `o`, the factory is the one in the
registry of `o`, and `SetInstance` writes into the store of `o` only. -/
def OwnerAgrees (h : List Container) (k : String) (ro : Option (Option Nat))
    (rf : Option FactoryFunc) (rs : Value → Option (List Container × Option String)) : Prop :=
  match ro with
  | none => rf = none ∧ ∀ v, rs v = none
  | some none => rf = some none ∧ ∀ v, rs v = some (h, some failedToSet)
  | some (some o) => ∃ cont, h[o]? = some cont ∧ (cont.factories k).isSome = true ∧
      rf = some (cont.factories k) ∧ ∀ v, rs v = some (storeAt h o k v, none)

/-- A property of the state in which an outcome leaves the program, whether the
function returned or panicked. -/
def Outcome.All {α : Type} (Q : State → Prop) : Outcome α → Prop
  | .ret _ s => Q s
  | .panic _ s => Q s
  | .diverge => True

/-- A property of the state that `get` on container `c` keeps: it does not depend
on the object heap, and whenever `get` finds no instance for a key in a state
with the property, the entry of that key in the log and a later `SetInstance`
for that key keep the property. -/
def Closed (c : Nat) (Q : State → Prop) : Prop :=
  (∀ (s : State) (objs : ObjHeap), Q s → Q { s with objs := objs }) ∧
  ∀ s0 k, Q s0 → (∃ inst, GetInstance s0.containers c k = some inst ∧ inst.isNil = true) →
    (∀ s : State, Q s → Q { s with calls := s.calls ++ [k] }) ∧
    (∀ (s : State) v h1 err, Q s → SetInstance s.containers c k v = some (h1, err) →
      Q { s with containers := h1 })

/-- Two lists of containers with the same containers up to the instance stores,
whose stores agree at the key `K` in every container except `ex`. -/
def ColRel (K : String) (ex : Option Nat) (h h1 : List Container) : Prop :=
  h1.length = h.length ∧
  ∀ (i : Nat) (cont : Container), h[i]? = some cont →
    ∃ cont1, h1[i]? = some cont1 ∧ cont1.imports = cont.imports ∧
      cont1.factories = cont.factories ∧ cont1.running = cont.running ∧
      (some i ≠ ex → cont1.instances K = cont.instances K)

/-- The store of every container holds an instance for `K` only if the registry of
the same container has a factory for `K`. -/
def OwnedAt (K : String) (h : List Container) : Prop :=
  ∀ (i : Nat) (cont : Container), h[i]? = some cont →
    (cont.instances K).isNil = false → (cont.factories K).isSome = true

/-- No container other than `P` registers `K`. -/
def OnlyOwner (h : List Container) (P : Nat) (K : String) : Prop :=
  ∀ (i : Nat) (cont : Container), h[i]? = some cont → i ≠ P → cont.factories K = none

/-- The state in which a function leaves the program when it returns or panics; a
caller can recover from a panic and go on from the state of the panic. -/
def Outcome.state? {α : Type} : Outcome α → Option State
  | .ret _ s => some s
  | .panic _ s => some s
  | .diverge => none

/-- The operations of the package. -/
inductive Op where
  | newContainer (opts : Option ContainerOpts)
  | provide (c : Nat) (dep : Value) (factory : FactoryFunc)
  | provideByName (c : Nat) (depName : String) (factory : FactoryFunc)
  | provideByInterface (c : Nat) (dep : Value) (factory : FactoryFunc)
  | provideByFactory (c : Nat) (factory : FactoryFunc)
  | run (c : Nat)
  | get (fuel c : Nat) (dep : Value)

/-- The state after an operation, if it returns or panics. -/
def Op.exec : Op → State → Option State
  | .newContainer opts, s => (NewContainer opts s).state?
  | .provide c dep f, s => (Provide c dep f s).state?
  | .provideByName c depName f, s => (ProvideByName c depName f s).state?
  | .provideByInterface c dep f, s => (ProvideByInterface c dep f s).state?
  | .provideByFactory c f, s => (ProvideByFactory c f s).state?
  | .run c, s => (Run c s).state?
  | .get fuel c dep, s => (Godepi.get fuel c dep s).state?

/-- What a Go program can pass to an operation: a pointer to a container points to
a container that exists, so the containers that `NewContainer` is given as
imports have been allocated before. -/
def Op.valid : Op → State → Prop
  | .newContainer (some o), s => ∀ i, some i ∈ o.Imports → i < s.containers.length
  | _, _ => True

/-- The states that a program reaches from a state by operations of the package. -/
inductive Reach : State → State → Prop where
  | refl (s : State) : Reach s s
  | step (s s1 s2 : State) (op : Op) :
      Reach s s1 → op.valid s1 → op.exec s1 = some s2 → Reach s s2

/-- The containers of `h` are still there in `h1`, a running container is still
running, and a key that is registered is still registered with the same factory. -/
def Extends (h h1 : List Container) : Prop :=
  ∀ (c : Nat) (cont : Container), h[c]? = some cont →
    ∃ cont1, h1[c]? = some cont1 ∧ (cont.running = true → cont1.running = true) ∧
      ∀ k, (cont.factories k).isSome = true → cont1.factories k = cont.factories k

/-- Every import of a container was allocated before the container: `NewContainer`
can only be given containers that exist already. -/
def WellFormed (h : List Container) : Prop :=
  ∀ (c : Nat) (cont : Container), h[c]? = some cont → ∀ i ∈ cont.imports, i < c

/-- The import closure of a container: the container itself and every container
reached from it along imports. -/
inductive InClosure (h : List Container) : Nat → Nat → Prop where
  | self (c : Nat) : InClosure h c c
  | step (c i j : Nat) (cont : Container) :
      h[c]? = some cont → i ∈ cont.imports → InClosure h i j → InClosure h c j

/-- The two properties of the containers that every operation keeps: imports point
to earlier containers, and a store holds an instance only for a key that the
registry of the same container has a factory for. -/
def StateOk (h : List Container) : Prop :=
  WellFormed h ∧ ∀ K, OwnedAt K h

/-! ## Example programs -/

/-- The state of a program that has allocated nothing. -/
def emptyState : State := { containers := [], objs := [], calls := [] }

/-- The options of a container without imports and providers. -/
def noOpts : ContainerOpts := { Imports := [], ByName := [], ByInterface := [], ByFactories := [] }

/-- The state of an outcome, with the empty state for an outcome without one. -/
def Outcome.stateD {α : Type} : Outcome α → State
  | .ret _ s => s
  | .panic _ s => s
  | .diverge => emptyState

/-- A defined pointer type: `type P *int` in package `app`. -/
def namedPtrT : GoType := .ptr "app" "P" [] (.other "" "int" [])

/-- A defined type: `type Clock int64` in package `app`. -/
def clockT : GoType := .other "app" "Clock" []

/-- The struct type `Logger` of package `app`. -/
def loggerT : GoType := .struct "app" "Logger" []

/-- The type `*Logger`. -/
def loggerPtrT : GoType := .ptr "" "" [] loggerT

/-- A factory `func() Clock` that returns the fixed value `V`. -/
def clockFactory (V : String) : Func where
  ins := []
  outs := [clockT]
  call := fun _ objs => .ok ([.scalar clockT V], objs)

/-- A factory `func(c Clock) *Logger` that returns a new `Logger` wrapping `c`. -/
def loggerFactory : Func where
  ins := [clockT]
  outs := [loggerPtrT]
  call := fun args objs => .ok ([.pointer loggerPtrT (some objs.length)],
    objs ++ [.struct loggerT [.mk false "" clockT (args.headD .nil)]])

/-- The options of the container C1 of the scenario: the key of the type `Clock`
with the factory that returns `V`. -/
def clockOpts (V : String) : ContainerOpts :=
  { noOpts with ByName := [⟨"app.Clock", some (clockFactory V)⟩] }

/-- The options of the container C2 of the scenario: it imports C1, the first
container allocated, and registers the key of the type `Logger`. -/
def loggerOpts : ContainerOpts :=
  { noOpts with Imports := [some 0], ByName := [⟨"app.Logger", some loggerFactory⟩] }

/-- The state after C1 and C2 of the scenario have been made, in this order. -/
def scenarioState (V : String) : State :=
  (NewContainer (some loggerOpts) (NewContainer (some (clockOpts V)) emptyState).stateD).stateD

/-- The struct type `K` of package `app`: `type K struct { l *L }`. -/
def kT : GoType := .struct "app" "K" []

/-- The struct type `L` of package `app`, with an injected field of type `*K`. -/
def lT : GoType := .struct "app" "L" []

/-- The type `*K`. -/
def kPtrT : GoType := .ptr "" "" [] kT

/-- The type `*L`. -/
def lPtrT : GoType := .ptr "" "" [] lT

/-- A factory `func() *L` that returns a new `L` whose exported field `K *K` is
tagged `di:"inject"` and is nil. -/
def newL : Func where
  ins := []
  outs := [lPtrT]
  call := fun _ objs => .ok ([.pointer lPtrT (some objs.length)],
    objs ++ [.struct lT [.mk true "inject" kPtrT (.pointer kPtrT none)]])

/-- A factory `func(l *L) *K` that returns a new `K` holding `l`. -/
def newK : Func where
  ins := [lPtrT]
  outs := [kPtrT]
  call := fun args objs => .ok ([.pointer kPtrT (some objs.length)],
    objs ++ [.struct kT [.mk false "" lPtrT (args.headD .nil)]])

/-- The state after one container with the factories `newL` and `newK` has been made. -/
def cycleState : State :=
  (NewContainer (some { noOpts with ByFactories := [some newL, some newK] }) emptyState).stateD

/-- The options of a child container that imports the first container allocated and
registers the key of the type `Clock` itself, with a factory that returns `V`. -/
def childClockOpts (V : String) : ContainerOpts :=
  { noOpts with Imports := [some 0], ByName := [⟨"app.Clock", some (clockFactory V)⟩] }

/-- The state in which a parent and a child that imports it both register the key
`app.Clock`, the parent's factory returning `"parent"` and the child's `"child"`,
and the parent has resolved the key already. -/
def overrideState : State :=
  (get 2 0 (.str "app.Clock")
    (NewContainer (some (childClockOpts "child"))
      (NewContainer (some (clockOpts "parent")) emptyState).stateD).stateD).stateD

/-- The options of a child container that imports the first container allocated and
registers nothing. -/
def childOpts : ContainerOpts := { noOpts with Imports := [some 0] }

/-- The state after a parent that registers `app.Clock` and two children of it, which
both have it as their only imported container, have been made. -/
def sharedState : State :=
  (NewContainer (some childOpts) (NewContainer (some childOpts)
    (NewContainer (some (clockOpts "V")) emptyState).stateD).stateD).stateD

/-- The state after a parent with the factories `newL` and `newK` and two children
of it have been made. -/
def sharedCycleState : State :=
  (NewContainer (some childOpts) (NewContainer (some childOpts) cycleState).stateD).stateD

/-- The state after one container without imports and providers has been made. -/
def freshState : State := (NewContainer none emptyState).stateD

/-- The container that `NewContainer` allocates, before imports and providers. -/
def newContainer : Container :=
  { imports := [], factories := fun _ => none, instances := fun _ => Value.nil,
    timeout := defaultTimeout, running := false }

/-- The state of the scenario with the names of the specification: a container and
a second one that imports it, on which the names `clock` and `logger` are then
registered with `ProvideByName`; both registrations panic. -/
def namedScenarioState (V : String) : State :=
  (ProvideByName 1 "logger" (some loggerFactory)
    (ProvideByName 0 "clock" (some (clockFactory V))
      (NewContainer (some childOpts) (NewContainer none emptyState).stateD).stateD).stateD).stateD

/-- The state of the scenario after `get` of the logger on C2: C1 holds the clock, C2
the logger, the object heap the `Logger` that wraps the clock, and the log the
two calls. -/
def scenarioAfter (V : String) : State :=
  { containers :=
      [{ imports := [],
         factories := setKey (fun _ => none) "app.Clock" (some (clockFactory V)),
         instances := setKey (fun _ => Value.nil) "app.Clock" (.scalar clockT V),
         timeout := defaultTimeout, running := false },
       { imports := [0],
         factories := setKey (fun _ => none) "app.Logger" (some loggerFactory),
         instances := setKey (fun _ => Value.nil) "app.Logger" (.pointer loggerPtrT (some 0)),
         timeout := defaultTimeout, running := false }],
    objs := [.struct loggerT [.mk false "" clockT (.scalar clockT V)]],
    calls := ["app.Clock", "app.Logger"] }

/-- The containers of `h` are still there in `h1`, each with the list of imports it
had. -/
def KeepsImports (h h1 : List Container) : Prop :=
  ∀ (c : Nat) (cont : Container), h[c]? = some cont →
    ∃ cont1, h1[c]? = some cont1 ∧ cont1.imports = cont.imports

/-- The state of a program that made two containers which both register `app.Clock`,
then a third container with the two as its imports, in this order, and then
resolved `app.Clock` on the second container. -/
def twoOwnersState : State :=
  (get 2 1 (.str "app.Clock")
    (NewContainer (some { noOpts with Imports := [some 0, some 1] })
      (NewContainer (some (clockOpts "two"))
        (NewContainer (some (clockOpts "one")) emptyState).stateD).stateD).stateD).stateD

/-- The struct type `M` of package `app`: `type M struct { n *N }`. -/
def mT : GoType := .struct "app" "M" []

/-- The struct type `N` of package `app`: `type N struct { m *M }`. -/
def nT : GoType := .struct "app" "N" []

/-- The type `*M`. -/
def mPtrT : GoType := .ptr "" "" [] mT

/-- The type `*N`. -/
def nPtrT : GoType := .ptr "" "" [] nT

/-- A defined type `X` of package `app`: `type X int`. -/
def xT : GoType := .other "app" "X" []

/-- A factory `func(m *M) *N` that returns a new `N` holding `m`. -/
def newN : Func where
  ins := [mPtrT]
  outs := [nPtrT]
  call := fun args objs => .ok ([.pointer nPtrT (some objs.length)],
    objs ++ [.struct nT [.mk false "" mPtrT (args.headD .nil)]])

/-- A factory `func(x X, n *N) *M` that returns a new `M` holding `n`. -/
def newMofX : Func where
  ins := [xT, nPtrT]
  outs := [mPtrT]
  call := fun args objs => .ok ([.pointer mPtrT (some objs.length)],
    objs ++ [.struct mT [.mk false "" nPtrT ((args.drop 1).headD .nil)]])

/-- The state after one container with the factories `newMofX` and `newN` has been
made; nobody registers `app.X`. -/
def paramCycleAfterXState : State :=
  (NewContainer (some { noOpts with ByFactories := [some newMofX, some newN] })
    emptyState).stateD

/-- The struct type `A` of package `app`: `type A struct { B *B "di:inject" }`. -/
def aT : GoType := .struct "app" "A" []

/-- The struct type `B` of package `app`: `type B struct { A *A "di:inject" }`. -/
def bT : GoType := .struct "app" "B" []

/-- A factory `func() *A` that returns a new `A` whose field `B` is nil. -/
def newA : Func where
  ins := []
  outs := [.ptr "" "" [] aT]
  call := fun _ objs => .ok ([.pointer (.ptr "" "" [] aT) (some objs.length)],
    objs ++ [.struct aT [.mk true INJECT (.ptr "" "" [] bT) (.pointer (.ptr "" "" [] bT) none)]])

/-- A factory `func() *B` that returns a new `B` whose field `A` is nil. -/
def newB : Func where
  ins := []
  outs := [.ptr "" "" [] bT]
  call := fun _ objs => .ok ([.pointer (.ptr "" "" [] bT) (some objs.length)],
    objs ++ [.struct bT [.mk true INJECT (.ptr "" "" [] aT) (.pointer (.ptr "" "" [] aT) none)]])

/-- The state after one container with the factories `newA` and `newB` and a second
container that imports it have been made. -/
def mutualState : State :=
  (NewContainer (some { noOpts with Imports := [some 0] })
    (NewContainer (some { noOpts with ByFactories := [some newA, some newB] })
      emptyState).stateD).stateD

/-- The struct type `Inner` of package `app`:
`type Inner struct { Clock Clock "di:inject" }`. -/
def innerT : GoType := .struct "app" "Inner" []

/-- The struct type `Holder` of package `app`, with the method `Serve` on `*Holder`:
`type Holder struct { Clock Clock "di:inject"; Inner Inner "di:nested" }`. -/
def holderT : GoType := .struct "app" "Holder" []

/-- The type `*Holder`, which has the method `Serve`. -/
def holderPtrT : GoType := .ptr "" "" ["Serve"] holderT

/-- The interface type `Service` of package `app`, with the method `Serve`. -/
def serviceT : GoType := .iface "app" "Service" ["Serve"]

/-- A new `Holder`: both fields of type `Clock` hold the zero value. -/
def newHolderCell : Value :=
  .struct holderT [.mk true INJECT clockT (.scalar clockT "0"),
    .mk true NESTED innerT (.struct innerT [.mk true INJECT clockT (.scalar clockT "0")])]

/-- A factory `func() Holder` that returns a `Holder` by value. -/
def newHolderByValue : Func where
  ins := []
  outs := [holderT]
  call := fun _ objs => .ok ([newHolderCell], objs)

/-- A factory `func() *Holder` that returns a pointer to a new `Holder`. -/
def newHolderPtr : Func where
  ins := []
  outs := [holderPtrT]
  call := fun _ objs => .ok ([.pointer holderPtrT (some objs.length)], objs ++ [newHolderCell])

/-- A factory `func() Service` that returns a pointer to a new `Holder` as a
`Service`. -/
def newService : Func where
  ins := []
  outs := [serviceT]
  call := fun _ objs => .ok ([.pointer holderPtrT (some objs.length)], objs ++ [newHolderCell])

/-- The state after one container with the clock factory that returns `"V"` and the
factory `f` has been made. -/
def holderState (f : Func) : State :=
  (NewContainer (some { noOpts with ByFactories := [some (clockFactory "V"), some f] })
    emptyState).stateD

/-- The struct type `Wrap` of package `app`:
`type Wrap struct { Inner Inner "di:nested" }`. -/
def wrapT : GoType := .struct "app" "Wrap" []

/-- A factory `func() Wrap` that returns a `Wrap` by value. -/
def newWrapByValue : Func where
  ins := []
  outs := [wrapT]
  call := fun _ objs => .ok ([.struct wrapT [.mk true NESTED innerT
    (.struct innerT [.mk true INJECT clockT (.scalar clockT "0")])]], objs)

/-- A factory `func() *Wrap` that returns a pointer to a new `Wrap`. -/
def newWrapPtr : Func where
  ins := []
  outs := [.ptr "" "" [] wrapT]
  call := fun _ objs => .ok ([.pointer (.ptr "" "" [] wrapT) (some objs.length)],
    objs ++ [.struct wrapT [.mk true NESTED innerT
      (.struct innerT [.mk true INJECT clockT (.scalar clockT "0")])]])

/-- The struct `Holder` with the value `V` in the top-level field and in the field
of the nested struct. -/
def injectedHolderCell (V : String) : Value :=
  .struct holderT [.mk true INJECT clockT (.scalar clockT V),
    .mk true NESTED innerT (.struct innerT [.mk true INJECT clockT (.scalar clockT V)])]

/-- A struct value of type `tS` with an exported field of type `tD` tagged `inject`
that holds `x` and, after it, an exported field tagged `nested` that holds a
struct of type `tN`, which has an exported field of type `tD` tagged `inject`
that holds `y`. The outer struct has the further fields `pre0`, `mid0` and
`post0` before, between and after the two, the inner struct the further fields
`pre1` and `post1`. -/
def holderCell (tS tN tD : GoType) (pre0 mid0 post0 pre1 post1 : List StructField)
    (x y : Value) : Value :=
  .struct tS (pre0 ++ .mk true INJECT tD x ::
    (mid0 ++ .mk true NESTED tN (.struct tN (pre1 ++ .mk true INJECT tD y :: post1)) :: post0))

/-- A property of the message of a panic. -/
def Outcome.Msg {α : Type} (P : String → Prop) : Outcome α → Prop
  | .panic msg _ => P msg
  | _ => True

/-- A message that does not start with a quotation mark: the fixed messages of
package `reflect`, of the runtime and of `SetInstance` are such. -/
@[reducible] def LibMsg (m : String) : Prop := m.data.head? ≠ some '"'

/-! ## Keys -/

/-- For a type that is not of pointer kind, `getFullDepPath` is package path, dot,
name, also through one pointer. -/
theorem getFullDepPath_of_not_ptr (T : GoType) (hT : T.Kind ≠ Kind.Ptr) :
    getFullDepPath T = T.PkgPath ++ "." ++ T.Name := by
  cases T <;> simp [getFullDepPath, GoType.Kind] at hT ⊢

/-- Claim C6, as the code has it: for every type `T` whose kind is not `Ptr`, the
marker struct with a first field of type `T`, every factory whose first result
type is `T` or a pointer to `T`, and the string `PkgPath(T) + "." + Name(T)` all
give the same key, and `getFullDepPath` of a pointer to `T` is that of `T`. -/
theorem key_canonical_of_not_ptr (T : GoType) (hT : T.Kind ≠ Kind.Ptr) :
    (∀ t e tag v rest, getDepName (.struct t (.mk e tag T v :: rest))
        = .ok (T.PkgPath ++ "." ++ T.Name)) ∧
    (∀ fn : Func, ∀ rest, fn.outs = T :: rest →
        getFactoryReturnDepName (some fn) = .ok (T.PkgPath ++ "." ++ T.Name)) ∧
    (∀ fn : Func, ∀ p n m rest, fn.outs = GoType.ptr p n m T :: rest →
        getFactoryReturnDepName (some fn) = .ok (T.PkgPath ++ "." ++ T.Name)) ∧
    getDepName (.str (T.PkgPath ++ "." ++ T.Name)) = .ok (T.PkgPath ++ "." ++ T.Name) ∧
    (∀ p n m, getFullDepPath (GoType.ptr p n m T) = getFullDepPath T) := by
  have hk := getFullDepPath_of_not_ptr T hT
  refine ⟨?_, ?_, ?_, rfl, ?_⟩
  · intro t e tag v rest
    simp [getDepName, StructField.typ, hk]
  · intro fn rest hf
    simp [getFactoryReturnDepName, hf, hk]
  · intro fn p n m rest hf
    simp [getFactoryReturnDepName, hf, getFullDepPath]
  · intro p n m
    rw [hk]
    simp [getFullDepPath]

/-- Witness of `key_canonical_of_not_ptr` at the type `Clock`. -/
theorem key_canonical_of_not_ptr_witness :
    clockT.Kind ≠ Kind.Ptr ∧
    getFullDepPath (GoType.ptr "" "" [] clockT) = getFullDepPath clockT :=
  ⟨by decide, (key_canonical_of_not_ptr clockT (by decide)).2.2.2.2 "" "" []⟩

/-- Claim C6 fails for a defined pointer type: for `type P *int` the key of
pointer-to-`P` is `app.P`, the key of `P` itself is `.int`, and the marker struct
with a first field of type `P` does not give the key `PkgPath(P) + "." + Name(P)`. -/
theorem key_canonical_fails_for_named_pointer :
    getFullDepPath (GoType.ptr "" "" [] namedPtrT) ≠ getFullDepPath namedPtrT ∧
    getFullDepPath namedPtrT = ".int" ∧
    getDepName (.struct (.struct "app" "Marker" []) [.mk true "" namedPtrT (.pointer namedPtrT none)])
      = .ok ".int" ∧
    getDepName (.str (namedPtrT.PkgPath ++ "." ++ namedPtrT.Name)) = .ok "app.P" := by
  refine ⟨by decide, rfl, rfl, rfl⟩

/-! ## The owner of a key -/

/-- The loops of the three searches agree when their bodies do. -/
theorem ownerAgrees_loop (h : List Container) (k : String)
    (ro : Nat → Option (Option Nat)) (rf : Nat → Option FactoryFunc)
    (rs : Value → List Container → Nat → Option (List Container × Option String))
    (hrec : ∀ i, OwnerAgrees h k (ro i) (rf i) (fun v => rs v h i)) (l : List Nat) :
    OwnerAgrees h k (firstOwner ro l) (firstFactory rf l) (fun v => tryImports (rs v) l h) := by
  induction l with
  | nil => simp [firstOwner, firstFactory, tryImports, OwnerAgrees]
  | cons i rest ih =>
    have hi := hrec i
    cases hro : ro i with
    | none =>
      simp only [hro, OwnerAgrees] at hi
      simp [firstOwner, firstFactory, tryImports, OwnerAgrees, hro, hi.1, hi.2]
    | some o =>
      cases o with
      | none =>
        simp only [hro, OwnerAgrees] at hi
        simpa [firstOwner, firstFactory, tryImports, hro, hi.1, hi.2] using ih
      | some o =>
        simp only [hro, OwnerAgrees] at hi
        obtain ⟨cont, hc, hf, hrf, hrs⟩ := hi
        simp only [firstOwner, firstFactory, tryImports, hro, hrf, hrs, hf, OwnerAgrees,
          Option.isSome_some, if_true]
        exact ⟨cont, hc, hf, rfl, fun v => trivial⟩

/-- At every depth bound, `GetFactory` and `SetInstance` stop at the owner of the key:
the factory returned is the one in the owner's registry, and the instance is
written into the owner's store and nowhere else. -/
theorem ownerAgrees_aux (h : List Container) (k : String) (fuel c : Nat) :
    OwnerAgrees h k (findOwnerAux fuel h c k) (GetFactoryAux fuel h c k)
      (fun v => SetInstanceAux fuel h c k v) := by
  induction fuel generalizing c with
  | zero => simp [findOwnerAux, GetFactoryAux, SetInstanceAux, OwnerAgrees]
  | succ n ih =>
    cases hc : h[c]? with
    | none => simp [findOwnerAux, GetFactoryAux, SetInstanceAux, OwnerAgrees, hc]
    | some cont =>
      by_cases hf : (cont.factories k).isSome = true
      · simp only [findOwnerAux, GetFactoryAux, SetInstanceAux, hc, hf, if_true]
        exact ⟨cont, hc, hf, rfl, fun v => by simp [storeAt, hc]⟩
      · simp only [findOwnerAux, GetFactoryAux, SetInstanceAux, hc, hf]
        exact ownerAgrees_loop h k _ _ (fun v h1 i => SetInstanceAux n h1 i k v) (fun i => ih i) cont.imports
/-- The owner search returns `some none` only when the search of every import does. -/
theorem firstOwner_eq_none (ro : Nat → Option (Option Nat)) (l : List Nat)
    (hl : firstOwner ro l = some none) : ∀ i ∈ l, ro i = some none := by
  induction l with
  | nil => intro i hi; cases hi
  | cons a rest ih =>
    intro i hi
    simp only [firstOwner] at hl
    cases ha : ro a with
    | none => simp [ha] at hl
    | some o =>
      cases o with
      | some o => simp [ha] at hl
      | none =>
        simp only [ha, Option.isSome_none] at hl
        rcases List.mem_cons.mp hi with rfl | hmem
        · exact ha
        · exact ih (by simpa using hl) i hmem

/-- An owner found by the loop was found by the search of one of the imports. -/
theorem firstOwner_eq_some (ro : Nat → Option (Option Nat)) (l : List Nat) (o : Nat)
    (hl : firstOwner ro l = some (some o)) : ∃ i ∈ l, ro i = some (some o) := by
  induction l with
  | nil => simp [firstOwner] at hl
  | cons a rest ih =>
    simp only [firstOwner] at hl
    cases ha : ro a with
    | none => simp [ha] at hl
    | some x =>
      cases x with
      | some x =>
        simp only [ha, Option.isSome_some, if_true] at hl
        exact ⟨a, List.mem_cons_self _ _, by rw [ha, hl]⟩
      | none =>
        simp only [ha, Option.isSome_none] at hl
        obtain ⟨i, hi, hr⟩ := ih (by simpa using hl)
        exact ⟨i, List.mem_cons_of_mem _ hi, hr⟩

/-- The loop of the owner search returns when the search of every import does. -/
theorem firstOwner_ne_none (ro : Nat → Option (Option Nat)) (l : List Nat)
    (hl : ∀ i ∈ l, ro i ≠ none) : firstOwner ro l ≠ none := by
  induction l with
  | nil => simp [firstOwner]
  | cons a rest ih =>
    have ha := hl a (List.mem_cons_self _ _)
    have hr := ih (fun i hi => hl i (List.mem_cons_of_mem _ hi))
    simp only [firstOwner]
    cases hx : ro a with
    | none => exact absurd hx ha
    | some x =>
      cases x with
      | some x => simp
      | none => simpa using hr

/-- When imports point to earlier containers, the owner search of container `c`
returns within `c + 1` nested calls. -/
theorem findOwnerAux_returns (h : List Container) (hwf : WellFormed h) (k : String)
    (fuel c : Nat) (hc : c < fuel) (hlen : c < h.length) : findOwnerAux fuel h c k ≠ none := by
  induction fuel generalizing c with
  | zero => omega
  | succ n ih =>
    have hget : h[c]? = some h[c] := List.getElem?_eq_getElem hlen
    simp only [findOwnerAux, hget]
    split
    · simp
    · apply firstOwner_ne_none
      intro i hi
      have hic : i < c := hwf c h[c] hget i hi
      exact ih i (by omega) (by omega)

/-- Without an owner, no container of the import closure has a factory for the key. -/
theorem findOwnerAux_none_closure (h : List Container) (k : String) (fuel c : Nat)
    (hno : findOwnerAux fuel h c k = some none) :
    ∀ j, InClosure h c j → ∀ cont, h[j]? = some cont → cont.factories k = none := by
  induction fuel generalizing c with
  | zero => simp [findOwnerAux] at hno
  | succ n ih =>
    intro j hj
    cases hc : h[c]? with
    | none => simp [findOwnerAux, hc] at hno
    | some cc =>
      simp only [findOwnerAux, hc] at hno
      by_cases hf : (cc.factories k).isSome = true
      · simp [hf] at hno
      · simp only [hf] at hno
        have himp := firstOwner_eq_none _ _ hno
        cases hj with
        | self =>
          intro cont hcont
          rw [hc] at hcont
          cases hcont
          simpa using hf
        | step _ i _ cont hcc hi hij =>
          rw [hc] at hcc
          cases hcc
          exact ih i (himp i hi) j hij

/-- An owner is in the import closure. -/
theorem findOwnerAux_some_closure (h : List Container) (k : String) (fuel c o : Nat)
    (ho : findOwnerAux fuel h c k = some (some o)) : InClosure h c o := by
  induction fuel generalizing c with
  | zero => simp [findOwnerAux] at ho
  | succ n ih =>
    cases hc : h[c]? with
    | none => simp [findOwnerAux, hc] at ho
    | some cc =>
      simp only [findOwnerAux, hc] at ho
      by_cases hf : (cc.factories k).isSome = true
      · simp only [hf, if_true, Option.some.injEq] at ho
        subst ho
        exact InClosure.self c
      · simp only [hf] at ho
        obtain ⟨i, hi, hr⟩ := firstOwner_eq_some _ _ _ ho
        exact InClosure.step c i o cc hc hi (ih i hr)

/-! ## Writing an instance (`SetInstance`) -/

/-- Claim C2: when `GetFactory(K)` on `C` returns a factory, `SetInstance(K, v)` on `C`
returns no error and writes `v` into the store of the owner, the container from
whose registry `GetFactory` took the factory; the containers are otherwise as
before, and the owner is not `C` when `C` has no factory for `K`. -/
theorem SetInstance_writes_owner (h : List Container) (c : Nat) (k : String) (fn : Func)
    (v : Value) (hg : GetFactory h c k = some (some fn)) :
    ∃ o cont, findOwner h c k = some (some o) ∧ InClosure h c o ∧
      h[o]? = some cont ∧ cont.factories k = some fn ∧
      SetInstance h c k v
        = some (h.set o { cont with instances := setKey cont.instances k v }, none) ∧
      (∀ i, i ≠ o → (h.set o { cont with instances := setKey cont.instances k v })[i]? = h[i]?) ∧
      (∀ cc, h[c]? = some cc → cc.factories k = none → o ≠ c) := by
  have hag := ownerAgrees_aux h k (h.length + 1) c
  unfold GetFactory at hg
  cases ho : findOwnerAux (h.length + 1) h c k with
  | none => simp [ho, OwnerAgrees, hg] at hag
  | some x =>
    cases x with
    | none => simp [ho, OwnerAgrees, hg] at hag
    | some o =>
      simp only [ho, OwnerAgrees] at hag
      obtain ⟨cont, hc, hf, hrf, hrs⟩ := hag
      rw [hg] at hrf
      refine ⟨o, cont, ho, findOwnerAux_some_closure h k _ c o ho, hc, ?_, ?_, ?_, ?_⟩
      · exact (Option.some.inj hrf).symm
      · simpa [SetInstance, storeAt, hc] using hrs v
      · intro i hi
        exact List.getElem?_set_ne (Ne.symm hi)
      · intro cc hcc hnone hoc
        subst hoc
        rw [hcc] at hc
        cases hc
        simp [hnone] at hf

/-- On containers whose imports point to earlier containers, `SetInstance` returns; it
returns an error exactly when no container of the import closure of `c` has a
factory for `k`, and then the containers are unchanged. -/
theorem SetInstance_error_iff_wf (h : List Container) (hwf : WellFormed h) (c : Nat)
    (hc : c < h.length) (k : String) (v : Value) :
    ∃ h1 err, SetInstance h c k v = some (h1, err) ∧
      (err ≠ none ↔ ∀ j cont, InClosure h c j → h[j]? = some cont → cont.factories k = none) ∧
      (err ≠ none → h1 = h) := by
  have hag := ownerAgrees_aux h k (h.length + 1) c
  have hret := findOwnerAux_returns h hwf k (h.length + 1) c (by omega) hc
  cases ho : findOwnerAux (h.length + 1) h c k with
  | none => exact absurd ho hret
  | some x =>
    cases x with
    | none =>
      simp only [ho, OwnerAgrees] at hag
      refine ⟨h, some failedToSet, hag.2 v, ?_, fun _ => rfl⟩
      simp only [ne_eq, not_false_eq_true, true_iff, reduceCtorEq]
      intro j cont hj hcont
      exact findOwnerAux_none_closure h k _ c ho j hj cont hcont
    | some o =>
      simp only [ho, OwnerAgrees] at hag
      obtain ⟨cont, hoc, hf, _, hrs⟩ := hag
      refine ⟨storeAt h o k v, none, hrs v, ?_, fun hne => absurd rfl hne⟩
      simp only [ne_eq, not_true_eq_false, false_iff]
      intro hall
      have := hall o cont (findOwnerAux_some_closure h k _ c o ho) hoc
      simp [this] at hf

/-! ## What every `get` keeps -/

/-- The argument loop of `callFunc` keeps what `get` keeps. -/
theorem resolveArgs_all (Q : State → Prop) (getF : Value → State → Outcome Value)
    (hget : ∀ d s, Q s → (getF d s).All Q) (l : List GoType) (s : State) (hs : Q s) :
    (resolveArgs getF l s).All Q := by
  induction l generalizing s with
  | nil => exact hs
  | cons t rest ih =>
    have h1 := hget (.str (getFullDepPath t)) s hs
    simp only [resolveArgs]
    cases hg : getF (.str (getFullDepPath t)) s with
    | diverge => trivial
    | panic msg s1 => rw [hg] at h1; exact h1
    | ret fDep s1 =>
      rw [hg] at h1
      have h2 := ih s1 h1
      dsimp only
      cases hr : resolveArgs getF rest s1 with
      | diverge => trivial
      | panic msg s2 => rw [hr] at h2; exact h2
      | ret vals s2 => rw [hr] at h2; exact h2

/-- The method `callFunc` keeps a property that `get`, the entry in the log and a
change of the object heap keep. -/
theorem callFunc_all (Q : State → Prop) (getF : Value → State → Outcome Value)
    (hget : ∀ d s, Q s → (getF d s).All Q) (k : String)
    (hobjs : ∀ (s : State) (objs : ObjHeap), Q s → Q { s with objs := objs })
    (hcall : ∀ s : State, Q s → Q { s with calls := s.calls ++ [k] })
    (f : FactoryFunc) (s : State) (hs : Q s) : (callFunc getF f k s).All Q := by
  cases f with
  | none => exact hs
  | some fn =>
    have h1 := resolveArgs_all Q getF hget fn.ins s hs
    simp only [callFunc]
    cases hr : resolveArgs getF fn.ins s with
    | diverge => trivial
    | panic msg s1 => rw [hr] at h1; exact h1
    | ret vals s1 =>
      rw [hr] at h1
      simp only [Outcome.All] at h1
      have h2 := hcall s1 h1
      dsimp only
      cases hck : callCheck fn vals with
      | some e => exact h1
      | none =>
        dsimp only
        cases hc : reflectCall fn vals s1.objs with
        | error e => exact h2
        | ok p =>
          obtain ⟨res, objs1⟩ := p
          have h3 := hobjs _ objs1 h2
          dsimp only
          split
          · exact h3
          · exact h3

/-- The body of the loop of `injectFields` keeps a property that `get`, the visit of
a nested field and a change of the object heap keep. -/
theorem injectField_all (Q : State → Prop) (getF : Value → State → Outcome Value)
    (nested : RValue → State → Outcome Unit)
    (hget : ∀ d s, Q s → (getF d s).All Q)
    (hnest : ∀ v s, Q s → (nested v s).All Q)
    (hobjs : ∀ (s : State) (objs : ObjHeap), Q s → Q { s with objs := objs })
    (v : RValue) (i : Nat) (f : StructField) (s : State) (hs : Q s) :
    (injectField getF nested v i f s).All Q := by
  have key : ∀ o : Outcome Unit, o.All Q →
      (match o with
        | .panic msg s1 => Outcome.panic msg s1
        | .diverge => Outcome.diverge
        | .ret _ s1 =>
          if f.tag = NESTED then
            match v.Field s1.objs i f with
            | .error msg => Outcome.panic msg s1
            | .ok fv => nested fv s1
          else Outcome.ret () s1).All Q := by
    intro o ho
    cases o with
    | diverge => trivial
    | panic msg s1 => exact ho
    | ret u s1 =>
      simp only [Outcome.All] at ho
      dsimp only
      split
      · split
        · exact ho
        · exact hnest _ s1 ho
      · exact ho
  unfold injectField
  apply key
  split
  · have h1 := hget (.str (getFullDepPath f.typ)) s hs
    cases hg : getF (.str (getFullDepPath f.typ)) s with
    | diverge => trivial
    | panic msg s1 => rw [hg] at h1; exact h1
    | ret dep s1 =>
      rw [hg] at h1
      dsimp only
      split
      · exact h1
      · exact hobjs _ _ h1
  · exact hs

/-- The loop of `injectFields` keeps what its body keeps. -/
theorem fieldsLoop_all (Q : State → Prop) (body : Nat → StructField → State → Outcome Unit)
    (hbody : ∀ i f s, Q s → (body i f s).All Q) (i : Nat) (fs : List StructField) (s : State)
    (hs : Q s) : (fieldsLoop body i fs s).All Q := by
  induction fs generalizing i s with
  | nil => exact hs
  | cons f rest ih =>
    have h1 := hbody i f s hs
    simp only [fieldsLoop]
    cases hb : body i f s with
    | diverge => trivial
    | panic msg s1 => rw [hb] at h1; exact h1
    | ret u s1 => rw [hb] at h1; exact ih (i + 1) s1 h1

/-- The method `injectFields` keeps a property that `get` and a change of the
object heap keep. -/
theorem injectFields_all (Q : State → Prop) (getF : Value → State → Outcome Value)
    (hget : ∀ d s, Q s → (getF d s).All Q)
    (hobjs : ∀ (s : State) (objs : ObjHeap), Q s → Q { s with objs := objs })
    (fuel : Nat) (v : RValue) (s : State) (hs : Q s) :
    (injectFields fuel getF v s).All Q := by
  induction fuel generalizing v s with
  | zero => trivial
  | succ n ih =>
    simp only [injectFields]
    split
    · exact hs
    · exact hs
    · split
      · exact hs
      · exact fieldsLoop_all _ _
          (fun i f s1 h1 =>
            injectField_all Q getF _ hget (fun v1 s2 h2 => ih v1 s2 h2) hobjs _ i f s1 h1)
          0 _ s hs

/-- Every `get` on container `c` keeps a property of the state that is closed under
its writes, in the state it returns and in the state of a panic. -/
theorem get_all (c : Nat) (Q : State → Prop) (hQ : Closed c Q)
    (fuel : Nat) (dep : Value) (s : State) (hs : Q s) : (get fuel c dep s).All Q := by
  induction fuel generalizing dep s with
  | zero => trivial
  | succ n ih =>
    simp only [get]
    cases hd : getDepName dep with
    | error e => exact hs
    | ok depName =>
      dsimp only
      cases hi : GetInstance s.containers c depName with
      | none => trivial
      | some inst =>
        dsimp only
        by_cases hnil : inst.isNil = true
        · simp only [hnil, if_true]
          cases hf : GetFactory s.containers c depName with
          | none => trivial
          | some ff =>
            cases ff with
            | none => exact hs
            | some fn =>
              dsimp only
              obtain ⟨hcall, hset⟩ := hQ.2 s depName hs ⟨inst, hi, hnil⟩
              have h1 := callFunc_all Q (get n c) (fun d s1 h1 => ih d s1 h1) depName hQ.1 hcall
                (some fn) s hs
              cases hc : callFunc (get n c) (some fn) depName s with
              | diverge => trivial
              | panic msg s1 => rw [hc] at h1; exact h1
              | ret fCallRes s1 =>
                rw [hc] at h1
                simp only [Outcome.All] at h1
                cases fCallRes with
                | nil => exact h1
                | cons r0 rest =>
                  dsimp only
                  cases hs1 : SetInstance s1.containers c depName r0.Interface with
                  | none => trivial
                  | some p =>
                    obtain ⟨h1c, err⟩ := p
                    have h2 := hset s1 _ h1c err h1 hs1
                    cases err with
                    | some e => exact h2
                    | none =>
                      dsimp only
                      have h3 := injectFields_all Q (get n c) (fun d s1 h1 => ih d s1 h1) hQ.1 n r0
                        { s1 with containers := h1c } h2
                      cases hinj : injectFields n (get n c) r0 { s1 with containers := h1c } with
                      | diverge => trivial
                      | panic msg s2 => rw [hinj] at h3; exact h3
                      | ret u s2 => rw [hinj] at h3; exact h3
        · simp only [hnil]
          exact hs
/-! ## Containers that differ in instance stores only -/

/-- Related lists of containers have entries at the same indices. -/
theorem ColRel.lookup {K : String} {ex : Option Nat} {h h1 : List Container}
    (hrel : ColRel K ex h h1) (i : Nat) :
    (h[i]? = none ∧ h1[i]? = none) ∨
    (∃ cont cont1, h[i]? = some cont ∧ h1[i]? = some cont1 ∧ cont1.imports = cont.imports ∧
      cont1.factories = cont.factories ∧ cont1.running = cont.running ∧
      (some i ≠ ex → cont1.instances K = cont.instances K)) := by
  cases hi : h[i]? with
  | none =>
    left
    refine ⟨rfl, ?_⟩
    rw [List.getElem?_eq_none_iff] at hi ⊢
    rw [hrel.1]
    exact hi
  | some cont =>
    right
    obtain ⟨cont1, h1i, hrest⟩ := hrel.2 i cont hi
    exact ⟨cont, cont1, rfl, h1i, hrest⟩

/-- The relation holds between a list of containers and itself. -/
theorem ColRel.refl (K : String) (ex : Option Nat) (h : List Container) : ColRel K ex h h :=
  ⟨rfl, fun _ cont hi => ⟨cont, hi, rfl, rfl, rfl, fun _ => rfl⟩⟩

/-- The relation is transitive. -/
theorem ColRel.trans {K : String} {ex : Option Nat} {h h1 h2 : List Container}
    (h01 : ColRel K ex h h1) (h12 : ColRel K ex h1 h2) : ColRel K ex h h2 := by
  refine ⟨h12.1.trans h01.1, fun i cont hi => ?_⟩
  obtain ⟨cont1, h1i, a1, b1, r1, c1⟩ := h01.2 i cont hi
  obtain ⟨cont2, h2i, a2, b2, r2, c2⟩ := h12.2 i cont1 h1i
  exact ⟨cont2, h2i, a2.trans a1, b2.trans b1, r2.trans r1, fun hne => (c2 hne).trans (c1 hne)⟩

/-- Agreement everywhere gives agreement outside one container. -/
theorem ColRel.weaken {K : String} {ex : Option Nat} {h h1 : List Container}
    (hrel : ColRel K none h h1) : ColRel K ex h h1 := by
  refine ⟨hrel.1, fun i cont hi => ?_⟩
  obtain ⟨cont1, h1i, a1, b1, r1, c1⟩ := hrel.2 i cont hi
  exact ⟨cont1, h1i, a1, b1, r1, fun _ => c1 (by simp)⟩

/-- Writing an instance for a key other than `K` keeps the relation. -/
theorem ColRel.storeAt_other (K : String) (ex : Option Nat) (h : List Container) (o : Nat)
    (k : String) (v : Value) (hk : k ≠ K) : ColRel K ex h (storeAt h o k v) := by
  unfold storeAt
  cases ho : h[o]? with
  | none => exact ColRel.refl K ex h
  | some co =>
    refine ⟨by simp, fun i cont hi => ?_⟩
    by_cases hio : i = o
    · subst hio
      rw [ho] at hi
      cases hi
      have hlt : i < h.length := by
        by_contra hge
        rw [List.getElem?_eq_none (by omega)] at ho
        cases ho
      refine ⟨_, List.getElem?_set_self hlt, rfl, rfl, rfl, fun _ => ?_⟩
      simp [setKey, Ne.symm hk]
    · exact ⟨cont, by rw [List.getElem?_set_ne (Ne.symm hio)]; exact hi, rfl, rfl, rfl, fun _ => rfl⟩

/-- Writing an instance into the excepted container keeps the relation. -/
theorem ColRel.storeAt_ex (K : String) (h : List Container) (o : Nat)
    (k : String) (v : Value) : ColRel K (some o) h (storeAt h o k v) := by
  unfold storeAt
  cases ho : h[o]? with
  | none => exact ColRel.refl K (some o) h
  | some co =>
    refine ⟨by simp, fun i cont hi => ?_⟩
    by_cases hio : i = o
    · subst hio
      rw [ho] at hi
      cases hi
      have hlt : i < h.length := by
        by_contra hge
        rw [List.getElem?_eq_none (by omega)] at ho
        cases ho
      exact ⟨_, List.getElem?_set_self hlt, rfl, rfl, rfl, fun hne => absurd rfl hne⟩
    · exact ⟨cont, by rw [List.getElem?_set_ne (Ne.symm hio)]; exact hi, rfl, rfl, rfl, fun _ => rfl⟩

/-- The owner of a key depends on imports and registries only. -/
theorem findOwnerAux_colRel {K : String} {ex : Option Nat} {h h1 : List Container}
    (hrel : ColRel K ex h h1) (k : String) (fuel c : Nat) :
    findOwnerAux fuel h1 c k = findOwnerAux fuel h c k := by
  induction fuel generalizing c with
  | zero => rfl
  | succ n ih =>
    rcases hrel.lookup c with ⟨h0c, h1c⟩ | ⟨cont, cont1, h0c, h1c, himp, hfac, _, _⟩
    · simp [findOwnerAux, h0c, h1c]
    · have hfun : (fun i => findOwnerAux n h1 i k) = (fun i => findOwnerAux n h i k) :=
        funext (fun i => ih i)
      simp only [findOwnerAux, h0c, h1c, himp, hfac, hfun]

/-- The owner of a key depends on imports and registries only. -/
theorem findOwner_colRel {K : String} {ex : Option Nat} {h h1 : List Container}
    (hrel : ColRel K ex h h1) (k : String) (c : Nat) : findOwner h1 c k = findOwner h c k := by
  unfold findOwner
  rw [hrel.1]
  exact findOwnerAux_colRel hrel k _ c

/-- The factory search depends on imports and registries only. -/
theorem GetFactory_colRel {K : String} {ex : Option Nat} {h h1 : List Container}
    (hrel : ColRel K ex h h1) (k : String) (c : Nat) : GetFactory h1 c k = GetFactory h c k := by
  have a0 := ownerAgrees_aux h k (h.length + 1) c
  have a1 := ownerAgrees_aux h1 k (h1.length + 1) c
  have ho : findOwnerAux (h1.length + 1) h1 c k = findOwnerAux (h.length + 1) h c k := by
    rw [hrel.1]
    exact findOwnerAux_colRel hrel k _ c
  rw [ho] at a1
  unfold GetFactory
  cases hx : findOwnerAux (h.length + 1) h c k with
  | none =>
    simp only [hx, OwnerAgrees] at a0 a1
    rw [a0.1, a1.1]
  | some x =>
    cases x with
    | none =>
      simp only [hx, OwnerAgrees] at a0 a1
      rw [a0.1, a1.1]
    | some o =>
      simp only [hx, OwnerAgrees] at a0 a1
      obtain ⟨cont, hc, _, hrf, _⟩ := a0
      obtain ⟨cont1, hc1, _, hrf1, _⟩ := a1
      obtain ⟨cont1', hc1', _, hfac, _⟩ := hrel.2 o cont hc
      rw [hc1] at hc1'
      cases hc1'
      rw [hrf, hrf1, hfac]

/-- The instance search for `K` depends on imports, registries and the stores at `K`. -/
theorem GetInstanceAux_colRel {K : String} {h h1 : List Container}
    (hrel : ColRel K none h h1) (fuel c : Nat) :
    GetInstanceAux fuel h1 c K = GetInstanceAux fuel h c K := by
  induction fuel generalizing c with
  | zero => rfl
  | succ n ih =>
    rcases hrel.lookup c with ⟨h0c, h1c⟩ | ⟨cont, cont1, h0c, h1c, himp, hfac, _, hinst⟩
    · simp [GetInstanceAux, h0c, h1c]
    · have hfun : (fun i => GetInstanceAux n h1 i K) = (fun i => GetInstanceAux n h i K) :=
        funext (fun i => ih i)
      simp only [GetInstanceAux, h0c, h1c, himp, hfac, hfun, hinst (by simp)]

/-- The instance search for `K` depends on imports, registries and the stores at `K`. -/
theorem GetInstance_colRel {K : String} {h h1 : List Container}
    (hrel : ColRel K none h h1) (c : Nat) : GetInstance h1 c K = GetInstance h c K := by
  unfold GetInstance
  rw [hrel.1]
  exact GetInstanceAux_colRel hrel _ c

/-- The loop of `GetInstance` after an instance was written into the owner `o`: the
imports before the one that leads to `o` still give nil, and that one gives the
instance written. -/
theorem firstInstance_after_store (o : Nat) (v : Value) (hv : v.isNil = false)
    (ro : Nat → Option (Option Nat)) (gi0 gi1 : Nat → Option Value) (l : List Nat)
    (hsame : ∀ i ∈ l, ro i = some none → gi1 i = gi0 i)
    (hnew : ∀ i ∈ l, ro i = some (some o) → ∀ inst, gi0 i = some inst → inst.isNil = true →
      gi1 i = some v)
    (hown : firstOwner ro l = some (some o))
    (inst : Value) (h0 : firstInstance gi0 l = some inst) (hnil : inst.isNil = true) :
    firstInstance gi1 l = some v := by
  induction l with
  | nil => simp [firstOwner] at hown
  | cons a rest ih =>
    simp only [firstOwner] at hown
    simp only [firstInstance] at h0 ⊢
    cases hga : gi0 a with
    | none => simp [hga] at h0
    | some va =>
      simp only [hga] at h0
      by_cases hva : va.isNil = true
      · simp only [hva, if_true] at h0
        cases hra : ro a with
        | none => simp [hra] at hown
        | some x =>
          cases x with
          | none =>
            simp only [hra, Option.isSome_none] at hown
            rw [hsame a (List.mem_cons_self _ _) hra, hga]
            simp only [hva, if_true]
            exact ih (fun i hi => hsame i (List.mem_cons_of_mem _ hi))
              (fun i hi => hnew i (List.mem_cons_of_mem _ hi)) (by simpa using hown) h0
          | some o1 =>
            simp only [hra, Option.isSome_some, if_true, Option.some.injEq] at hown
            subst hown
            rw [hnew a (List.mem_cons_self _ _) hra va hga hva]
            simp [hv]
      · simp only [hva] at h0
        simp only [Bool.false_eq_true, if_false, Option.some.injEq] at h0
        subst h0
        exact absurd hnil hva

/-- The loop of `GetInstance` gives the same result for two bodies that agree on the
containers visited. -/
theorem firstInstance_congr (gi0 gi1 : Nat → Option Value) (l : List Nat)
    (hsame : ∀ i ∈ l, gi1 i = gi0 i) : firstInstance gi1 l = firstInstance gi0 l := by
  induction l with
  | nil => rfl
  | cons a rest ih =>
    simp only [firstInstance, hsame a (List.mem_cons_self _ _),
      ih (fun i hi => hsame i (List.mem_cons_of_mem _ hi))]

/-- After an instance that is not nil was written into the owner `o` of `K`, the
instance search is unchanged from a container without owner, and from a
container whose owner is `o` and whose search gave nil it gives the new instance. -/
theorem GetInstanceAux_after_store {K : String} {h h1 : List Container} {o : Nat}
    (hrel : ColRel K (some o) h h1) (co co1 : Container) (ho : h[o]? = some co)
    (hfo : (co.factories K).isSome = true) (ho1 : h1[o]? = some co1) (v : Value)
    (hv1 : co1.instances K = v) (hv : v.isNil = false) (fuel : Nat) :
    ∀ c, (findOwnerAux fuel h c K = some none →
            GetInstanceAux fuel h1 c K = GetInstanceAux fuel h c K) ∧
         (findOwnerAux fuel h c K = some (some o) → ∀ inst,
            GetInstanceAux fuel h c K = some inst → inst.isNil = true →
            GetInstanceAux fuel h1 c K = some v) := by
  induction fuel with
  | zero => intro c; simp [findOwnerAux]
  | succ n ih =>
    intro c
    rcases hrel.lookup c with ⟨h0c, h1c⟩ | ⟨cont, cont1, h0c, h1c, himp, hfac, _, hinst⟩
    · simp [findOwnerAux, h0c]
    · by_cases hf : (cont.factories K).isSome = true
      · -- the container has a factory: it is the owner
        simp only [findOwnerAux, h0c, hf, if_true]
        refine ⟨by simp, ?_⟩
        intro hco inst hg hnil
        simp only [Option.some.injEq] at hco
        subst hco
        rw [ho1] at h1c
        cases h1c
        simp [GetInstanceAux, ho1, hv1, hv]
      · have hco : c ≠ o := by
          intro hco
          subst hco
          rw [ho] at h0c
          cases h0c
          exact hf hfo
        have hi := hinst (by simpa using hco)
        simp only [findOwnerAux, h0c, hf]
        constructor
        · intro hno
          have himps := firstOwner_eq_none _ _ hno
          simp only [GetInstanceAux, h0c, h1c, hi, hfac, himp]
          rw [firstInstance_congr _ _ _ (fun i hi => (ih i).1 (himps i hi))]
        · intro hown inst hg hnil
          simp only [GetInstanceAux, h0c, hf] at hg
          simp only [GetInstanceAux, h1c, hi, hfac, hf, himp]
          by_cases hci : (cont.instances K).isNil = true
          · simp only [hci, Bool.not_true, Bool.false_eq_true, if_false] at hg ⊢
            exact firstInstance_after_store o v hv _ _ _ cont.imports
              (fun i _ hr => (ih i).1 hr) (fun i _ hr => (ih i).2 hr) hown inst hg hnil
          · simp only [hci, Bool.not_false, if_true, Option.some.injEq] at hg
            subst hg
            exact absurd hnil hci

/-- After `get` found no instance for `K` and an instance that is not nil is written
into the owner of `K`, the instance search gives that instance, whatever was
written into the owner in between. -/
theorem GetInstance_after_store {K : String} {h h1 : List Container} {o c : Nat}
    (hrel : ColRel K (some o) h h1) (hown : findOwner h c K = some (some o))
    (inst : Value) (hg : GetInstance h c K = some inst) (hnil : inst.isNil = true)
    (co1 : Container) (ho1 : h1[o]? = some co1) (hv : (co1.instances K).isNil = false) :
    GetInstance h1 c K = some (co1.instances K) := by
  have hag := ownerAgrees_aux h K (h.length + 1) c
  unfold findOwner at hown
  simp only [hown, OwnerAgrees] at hag
  obtain ⟨co, ho, hfo, _, _⟩ := hag
  unfold GetInstance at hg ⊢
  rw [hrel.1]
  exact ((GetInstanceAux_after_store hrel co co1 ho hfo ho1 _ rfl hv (h.length + 1)) c).2
    hown inst hg hnil


/-! ## The steps of one `get` -/

/-- What `SetInstance` does to the containers: nothing, or a write into the store of
the owner of the key. -/
theorem SetInstance_cases (h : List Container) (c : Nat) (k : String) (v : Value)
    (h1 : List Container) (err : Option String) (hset : SetInstance h c k v = some (h1, err)) :
    (h1 = h ∧ err = some failedToSet ∧ findOwner h c k = some none) ∨
    (∃ o, findOwner h c k = some (some o) ∧ h1 = storeAt h o k v ∧ err = none) := by
  have hag := ownerAgrees_aux h k (h.length + 1) c
  unfold SetInstance at hset
  unfold findOwner
  cases hx : findOwnerAux (h.length + 1) h c k with
  | none =>
    simp only [hx, OwnerAgrees] at hag
    rw [hag.2 v] at hset
    cases hset
  | some x =>
    cases x with
    | none =>
      simp only [hx, OwnerAgrees] at hag
      rw [hag.2 v] at hset
      simp only [Option.some.injEq, Prod.mk.injEq] at hset
      exact Or.inl ⟨hset.1.symm, hset.2.symm, rfl⟩
    | some o =>
      simp only [hx, OwnerAgrees] at hag
      obtain ⟨_, _, _, _, hrs⟩ := hag
      rw [hrs v] at hset
      simp only [Option.some.injEq, Prod.mk.injEq] at hset
      exact Or.inr ⟨o, rfl, hset.1.symm, hset.2.symm⟩

/-- The containers after a store at `o`: the entry of `o` holds the instance. -/
theorem storeAt_lookup (h : List Container) (o : Nat) (k : String) (v : Value)
    (co : Container) (ho : h[o]? = some co) :
    (storeAt h o k v)[o]? = some { co with instances := setKey co.instances k v } := by
  have hlt : o < h.length := by
    by_contra hge
    rw [List.getElem?_eq_none (by omega)] at ho
    cases ho
  simp only [storeAt, ho]
  exact List.getElem?_set_self hlt

/-- While `get` on `c` runs, the stores at `K` change in the owner of `K` only. -/
theorem closed_outside_owner (c : Nat) (K : String) (o : Nat) (hb : List Container)
    (hown : findOwner hb c K = some (some o)) :
    Closed c (fun s => ColRel K (some o) hb s.containers) := by
  refine ⟨fun s objs hs => hs, fun s0 k _ _ => ⟨fun s hs => hs, ?_⟩⟩
  intro s v h1 err hs hset
  rcases SetInstance_cases _ _ _ _ _ _ hset with ⟨rfl, _, _⟩ | ⟨o1, ho1, rfl, _⟩
  · exact hs
  · by_cases hk : k = K
    · subst hk
      rw [findOwner_colRel hs, hown] at ho1
      simp only [Option.some.injEq] at ho1
      subst ho1
      exact hs.trans (ColRel.storeAt_ex k _ o k v)
    · exact hs.trans (ColRel.storeAt_other K _ _ o1 k v hk)

/-- While `get` on `c` runs in a state where `c` finds an instance for `K`, the stores
at `K` do not change and no factory is called for `K`. -/
theorem closed_cached (c : Nat) (K : String) (hb : List Container) (v : Value)
    (hg : GetInstance hb c K = some v) (hv : v.isNil = false) (n : Nat) :
    Closed c (fun s => ColRel K none hb s.containers ∧ s.calls.count K = n) := by
  refine ⟨fun s objs hs => hs, fun s0 k hs0 hmiss => ?_⟩
  have hk : k ≠ K := by
    intro hk
    subst hk
    obtain ⟨inst, hi, hnil⟩ := hmiss
    rw [GetInstance_colRel hs0.1, hg] at hi
    cases hi
    rw [hv] at hnil
    cases hnil
  refine ⟨fun s hs => ⟨hs.1, ?_⟩, ?_⟩
  · rw [List.count_append, hs.2]
    simp [List.count_cons, hk]
  · intro s v1 h1 err hs hset
    refine ⟨?_, hs.2⟩
    rcases SetInstance_cases _ _ _ _ _ _ hset with ⟨rfl, _, _⟩ | ⟨o1, _, rfl, _⟩
    · exact hs.1
    · exact hs.1.trans (ColRel.storeAt_other K _ _ o1 k v1 hk)

/-- The results of a `Call` that returned have the declared result types. -/
theorem reflectCall_conforms (fn : Func) (args : List Value) (objs : ObjHeap)
    (res : List Value) (objs1 : ObjHeap) (hc : reflectCall fn args objs = .ok (res, objs1)) :
    res.length = fn.outs.length ∧
    ∀ p ∈ res.zip fn.outs, conforms p.1 p.2 = true := by
  unfold reflectCall at hc
  split at hc
  · cases hc
  · split at hc
    · cases hc
    · rename_i res1 objs2 _
      split at hc
      · rename_i hcond
        simp only [Except.ok.injEq, Prod.mk.injEq] at hc
        obtain ⟨rfl, rfl⟩ := hc
        simp only [Bool.and_eq_true, beq_iff_eq, List.all_eq_true] at hcond
        exact ⟨hcond.1, hcond.2⟩
      · cases hc

/-- What a `callFunc` that returned did: it resolved the arguments, entered the call
in the log, called the factory, and wrapped the results, which have the declared
result types. -/
theorem callFunc_ret (getF : Value → State → Outcome Value) (fn : Func) (k : String)
    (s s1 : State) (fCallRes : List RValue)
    (hc : callFunc getF (some fn) k s = .ret fCallRes s1) :
    ∃ vals sA res,
      resolveArgs getF fn.ins s = .ret vals sA ∧
      reflectCall fn vals sA.objs = .ok (res, s1.objs) ∧
      s1.containers = sA.containers ∧ s1.calls = sA.calls ++ [k] ∧
      fCallRes = (res.zip fn.outs).map
        (fun p => ({ typ := p.2, val := p.1, loc := none, ro := false } : RValue)) := by
  simp only [callFunc] at hc
  cases hr : resolveArgs getF fn.ins s with
  | diverge => simp [hr] at hc
  | panic msg s2 => simp [hr] at hc
  | ret vals sA =>
    simp only [hr] at hc
    cases hck : callCheck fn vals with
    | some e => simp [hck] at hc
    | none =>
      simp only [hck] at hc
      cases hcall : reflectCall fn vals sA.objs with
      | error e => simp [hcall] at hc
      | ok p =>
        obtain ⟨res, objs1⟩ := p
        simp only [hcall] at hc
        split at hc
        · cases hc
        · simp only [Outcome.ret.injEq] at hc
          obtain ⟨rfl, rfl⟩ := hc
          exact ⟨vals, sA, res, rfl, hcall, rfl, rfl, rfl⟩

/-- For a nil value of interface type `injectFields` does not return: `v.Elem().Elem()`
panics on the zero Value. -/
theorem injectFields_nil_not_ret (fuel : Nat) (getF : Value → State → Outcome Value)
    (r : RValue) (s : State) (hnil : r.val.isNil = true) (hconf : conforms r.val r.typ = true)
    (u : Unit) (s1 : State) : injectFields fuel getF r s ≠ .ret u s1 := by
  cases fuel with
  | zero => simp [injectFields]
  | succ n =>
    have hval : r.val = Value.nil := by
      cases hv : r.val <;> simp [hv, Value.isNil] at hnil
      rfl
    have hkind : r.typ.Kind = Kind.Interface := by
      simpa [conforms, hval, Value.TypeOf] using hconf
    have htarget : injectTarget s.objs r
        = .error "reflect: call of reflect.Value.Elem on zero Value" := by
      cases ht : r.typ with
      | iface p nm ms =>
        simp [injectTarget, RValue.Kind, RValue.Elem, ht, GoType.Kind, hval, Value.TypeOf]
      | struct p nm ms => simp [ht, GoType.Kind] at hkind
      | other p nm ms => simp [ht, GoType.Kind] at hkind
      | ptr p nm ms e => simp [ht, GoType.Kind] at hkind
    simp [injectFields, htarget]

/-- A factory found by `GetFactory` has an owner. -/
theorem GetFactory_some_owner (h : List Container) (c : Nat) (k : String) (fn : Func)
    (hg : GetFactory h c k = some (some fn)) :
    ∃ o co, findOwner h c k = some (some o) ∧ h[o]? = some co ∧ co.factories k = some fn := by
  have hag := ownerAgrees_aux h k (h.length + 1) c
  unfold GetFactory at hg
  unfold findOwner
  cases ho : findOwnerAux (h.length + 1) h c k with
  | none => simp [ho, OwnerAgrees, hg] at hag
  | some x =>
    cases x with
    | none => simp [ho, OwnerAgrees, hg] at hag
    | some o =>
      simp only [ho, OwnerAgrees] at hag
      obtain ⟨cont, hc, _, hrf, _⟩ := hag
      rw [hg] at hrf
      exact ⟨o, cont, rfl, hc, (Option.some.inj hrf).symm⟩

/-- What a `get` that found no instance and returned has done: it took the factory
`fn` of the owner `o` of the key, resolved the arguments of `fn`, called `fn` once
after that, and stored the first result `v`, which is not nil, in `o`; in the
state it returns, `o` holds `v` for the key, the instance search of `c` finds `v`,
and no other container has changed at this key. -/
theorem get_miss (n c : Nat) (dep : Value) (K : String) (s s1 : State) (v : Value)
    (hK : getDepName dep = .ok K) (inst : Value)
    (hi : GetInstance s.containers c K = some inst) (hnil : inst.isNil = true)
    (hget : get (n + 1) c dep s = .ret v s1) :
    ∃ fn o co1 vals sA,
      GetFactory s.containers c K = some (some fn) ∧
      findOwner s.containers c K = some (some o) ∧
      ColRel K (some o) s.containers s1.containers ∧
      s1.containers[o]? = some co1 ∧ co1.instances K = v ∧ v.isNil = false ∧
      GetInstance s1.containers c K = some v ∧
      resolveArgs (get n c) fn.ins s = .ret vals sA ∧
      (∃ rest objs1, reflectCall fn vals sA.objs = .ok (v :: rest, objs1)) ∧
      s1.calls.count K = sA.calls.count K + 1 := by
  simp only [get, hK, hi, hnil, if_true] at hget
  cases hf : GetFactory s.containers c K with
  | none => simp [hf] at hget
  | some ff =>
  cases ff with
  | none => simp [hf] at hget
  | some fn =>
  simp only [hf] at hget
  obtain ⟨o, co, hown, hco, _⟩ := GetFactory_some_owner _ _ _ _ hf
  have hQ1 := closed_outside_owner c K o s.containers hown
  obtain ⟨hcall1, _⟩ := hQ1.2 s K (ColRel.refl _ _ _) ⟨inst, hi, hnil⟩
  have hC := callFunc_all _ (get n c) (fun d s2 h2 => get_all c _ hQ1 n d s2 h2) K hQ1.1 hcall1
    (some fn) s (ColRel.refl _ _ _)
  cases hc : callFunc (get n c) (some fn) K s with
  | diverge => simp [hc] at hget
  | panic msg s2 => simp [hc] at hget
  | ret fCallRes sC =>
  rw [hc] at hC
  simp only [Outcome.All] at hC
  simp only [hc] at hget
  obtain ⟨vals, sA, res, hargs, hcallr, hcont, hcalls, hres⟩ := callFunc_ret _ _ _ _ _ _ hc
  cases fCallRes with
  | nil => simp at hget
  | cons r0 rest0 =>
  simp only [] at hget
  cases hset : SetInstance sC.containers c K r0.Interface with
  | none => simp [hset] at hget
  | some p =>
  obtain ⟨h1, err⟩ := p
  cases err with
  | some e => simp [hset] at hget
  | none =>
  simp only [hset] at hget
  cases hinj : injectFields n (get n c) r0 { sC with containers := h1 } with
  | diverge => simp [hinj] at hget
  | panic msg s2 => simp [hinj] at hget
  | ret u s2 =>
  simp only [hinj, Outcome.ret.injEq] at hget
  obtain ⟨hv0, rfl⟩ := hget
  -- the first result and its type
  obtain ⟨hlen, hconf⟩ := reflectCall_conforms _ _ _ _ _ hcallr
  have hr0 : ∃ v0 t0 restv restt, res = v0 :: restv ∧ fn.outs = t0 :: restt ∧
      r0 = { typ := t0, val := v0, loc := none, ro := false } := by
    cases hresl : res with
    | nil => simp [hresl] at hres
    | cons v0 restv =>
      cases houts : fn.outs with
      | nil => simp [hresl, houts] at hres
      | cons t0 restt =>
        simp only [hresl, houts, List.zip_cons_cons, List.map_cons, List.cons.injEq] at hres
        exact ⟨v0, t0, restv, restt, rfl, rfl, hres.1⟩
  obtain ⟨v0, t0, restv, restt, hresl, houts, hr0eq⟩ := hr0
  have hv0' : v0 = v := by rw [← hv0, hr0eq]; rfl
  have hconf0 : conforms r0.val r0.typ = true := by
    have := hconf (v0, t0) (by simp [hresl, houts])
    rw [hr0eq]
    exact this
  have hvnn : v.isNil = false := by
    cases hvn : v.isNil with
    | false => rfl
    | true =>
      exfalso
      refine injectFields_nil_not_ret n (get n c) r0 { sC with containers := h1 } ?_ hconf0 u s2 hinj
      rw [← hvn, ← hv0]
      rfl
  -- the store
  have hownC : findOwner sC.containers c K = some (some o) := by
    rw [findOwner_colRel hC, hown]
  rcases SetInstance_cases _ _ _ _ _ _ hset with ⟨_, herr, _⟩ | ⟨o1, ho1, hh1, _⟩
  · cases herr
  rw [hownC] at ho1
  simp only [Option.some.injEq] at ho1
  subst ho1
  obtain ⟨coC, hcoC, _, _, _, _⟩ := hC.2 o co hco
  have hval : r0.Interface = v := by rw [← hv0]
  rw [hval] at hh1
  have hh1o : h1[o]? = some { coC with instances := setKey coC.instances K v } := by
    rw [hh1]
    exact storeAt_lookup _ _ _ _ _ hcoC
  have hrel1 : ColRel K (some o) s.containers h1 := by
    rw [hh1]
    exact hC.trans (ColRel.storeAt_ex K _ o K v)
  have hinstK : ({ coC with instances := setKey coC.instances K v } : Container).instances K = v := by
    simp [setKey]
  have hg1 : GetInstance h1 c K = some v := by
    have := GetInstance_after_store hrel1 hown inst hi hnil _ hh1o (by rw [hinstK]; exact hvnn)
    rw [hinstK] at this
    exact this
  -- the injection of fields
  have hQ2 := closed_cached c K h1 v hg1 hvnn (sC.calls.count K)
  have hI := injectFields_all _ (get n c) (fun d s3 h3 => get_all c _ hQ2 n d s3 h3) hQ2.1 n r0
    { sC with containers := h1 } ⟨ColRel.refl _ _ _, rfl⟩
  rw [hinj] at hI
  simp only [Outcome.All] at hI
  obtain ⟨hrel2, hcount⟩ := hI
  obtain ⟨co2, hco2, _, _, _, hi2⟩ := hrel2.2 o _ hh1o
  refine ⟨fn, o, co2, vals, sA, rfl, hown, hrel1.trans hrel2.weaken, hco2, ?_, hvnn, ?_, hargs, ?_, ?_⟩
  · rw [hi2 (by simp), hinstK]
  · rw [GetInstance_colRel hrel2, hg1]
  · exact ⟨restv, sC.objs, by rw [hcallr, hresl, hv0']⟩
  · rw [hcount, hcalls, List.count_append]
    simp

/-! ## Resolution twice -/

/-- A `get` that finds an instance returns it and changes nothing. -/
theorem get_cached (n c : Nat) (dep : Value) (K : String) (s : State) (v : Value)
    (hK : getDepName dep = .ok K) (hi : GetInstance s.containers c K = some v)
    (hv : v.isNil = false) : get (n + 1) c dep s = .ret v s := by
  simp [get, hK, hi, hv]

/-- Claim C1, as the code has it: when `get(K)` on `C` returns, a second `get(K)` on
`C` returns the identical instance from the cache check of `GetInstance` and leaves
the state, the log of factory calls included, as it is. When the first call found
an instance it changed nothing either; when it found none and the resolution of
the arguments of the factory for `K` did not call that factory, the factory for
`K` is called exactly once. -/
theorem get_twice_same_instance (n c : Nat) (dep : Value) (K : String) (s s1 : State)
    (v : Value) (hK : getDepName dep = .ok K) (hget : get (n + 1) c dep s = .ret v s1) :
    v.isNil = false ∧ GetInstance s1.containers c K = some v ∧
    (∀ m, get (m + 1) c dep s1 = .ret v s1) ∧
    (∀ inst, GetInstance s.containers c K = some inst → inst.isNil = false → s1 = s) ∧
    (∀ inst fn vals sA, GetInstance s.containers c K = some inst → inst.isNil = true →
      GetFactory s.containers c K = some (some fn) →
      resolveArgs (get n c) fn.ins s = .ret vals sA →
      sA.calls.count K = s.calls.count K →
      s1.calls.count K = s.calls.count K + 1) := by
  cases hi : GetInstance s.containers c K with
  | none => simp [get, hK, hi] at hget
  | some inst =>
    cases hnil : inst.isNil with
    | false =>
      rw [get_cached n c dep K s inst hK hi hnil] at hget
      simp only [Outcome.ret.injEq] at hget
      obtain ⟨rfl, rfl⟩ := hget
      refine ⟨hnil, hi, fun m => get_cached m c dep K s inst hK hi hnil, fun _ _ _ => rfl, ?_⟩
      intro inst1 fn vals sA hi1 hnil1
      simp only [Option.some.injEq] at hi1
      subst hi1
      rw [hnil] at hnil1
      cases hnil1
    | true =>
      obtain ⟨fn, o, co1, vals, sA, hf, _, _, _, _, hv, hg1, hargs, _, hcount⟩ :=
        get_miss n c dep K s s1 v hK inst hi hnil hget
      refine ⟨hv, hg1, fun m => get_cached m c dep K s1 v hK hg1 hv, ?_, ?_⟩
      · intro inst1 hi1 hnil1
        simp only [Option.some.injEq] at hi1
        subst hi1
        rw [hnil] at hnil1
        cases hnil1
      · intro inst1 fn1 vals1 sA1 _ _ hf1 hargs1 hsame
        rw [hf] at hf1
        simp only [Option.some.injEq] at hf1
        subst hf1
        rw [hargs] at hargs1
        simp only [Outcome.ret.injEq] at hargs1
        obtain ⟨_, rfl⟩ := hargs1
        rw [hcount, hsame]

/-- Witness of `get_twice_same_instance`: the logger of the scenario, resolved twice
on C2. -/
theorem get_twice_same_instance_witness :
    get 3 1 (.str "app.Logger") (scenarioState "V")
      = .ret (.pointer loggerPtrT (some 0)) (get 3 1 (.str "app.Logger") (scenarioState "V")).stateD ∧
    get 3 1 (.str "app.Logger") (get 3 1 (.str "app.Logger") (scenarioState "V")).stateD
      = .ret (.pointer loggerPtrT (some 0)) (get 3 1 (.str "app.Logger") (scenarioState "V")).stateD :=
  ⟨rfl, (get_twice_same_instance 2 1 (.str "app.Logger") "app.Logger" (scenarioState "V")
    (get 3 1 (.str "app.Logger") (scenarioState "V")).stateD (.pointer loggerPtrT (some 0))
    rfl rfl).2.2.1 2⟩

/-- Claim C1 fails where it says that the factory for `K` is called exactly once: with
a factory for `K` that takes an `*L` and an `L` whose field of type `*K` is tagged
`inject`, one `get(K)` returns after calling the factory for `K` twice (the call
made for the field of `L` happens before the outer call has stored its result),
and a second `get(K)` returns the same instance without a further call. -/
theorem get_calls_factory_twice :
    cycleState.calls = [] ∧
    get 5 0 (.str "app.K") cycleState
      = .ret (.pointer kPtrT (some 2)) (get 5 0 (.str "app.K") cycleState).stateD ∧
    get 5 0 (.str "app.K") (get 5 0 (.str "app.K") cycleState).stateD
      = .ret (.pointer kPtrT (some 2)) (get 5 0 (.str "app.K") cycleState).stateD ∧
    (get 5 0 (.str "app.K") cycleState).stateD.calls = ["app.L", "app.K", "app.K"] ∧
    (get 5 0 (.str "app.K") cycleState).stateD.calls.count "app.K" = 2 := by
  refine ⟨rfl, rfl, rfl, rfl, by decide⟩

/-! ## Import precedence -/

/-- The instance search of a container that has a factory for the key looks at the
container's own store only. -/
theorem GetInstance_own_factory (h : List Container) (c : Nat) (K : String) (cont : Container)
    (hc : h[c]? = some cont) (hf : (cont.factories K).isSome = true) :
    GetInstance h c K = some (cont.instances K) := by
  unfold GetInstance
  simp only [GetInstanceAux, hc, hf, if_true]
  cases hnil : (cont.instances K).isNil with
  | false => simp
  | true =>
    have : cont.instances K = Value.nil := by
      cases hv : cont.instances K <;> simp [hv, Value.isNil] at hnil
      rfl
    simp [this]

/-- A container that has a factory for the key is the owner of the key. -/
theorem findOwner_own_factory (h : List Container) (c : Nat) (K : String) (cont : Container)
    (hc : h[c]? = some cont) (hf : (cont.factories K).isSome = true) :
    findOwner h c K = some (some c) := by
  simp [findOwner, findOwnerAux, hc, hf]

/-! ## One instance for all importers -/

/-- The loop of `GetInstance` returns when the search of every import does. -/
theorem firstInstance_returns (gi : Nat → Option Value) (l : List Nat)
    (hl : ∀ i ∈ l, ∃ x, gi i = some x) : ∃ x, firstInstance gi l = some x := by
  induction l with
  | nil => exact ⟨Value.nil, rfl⟩
  | cons a rest ih =>
    obtain ⟨x, hx⟩ := hl a (List.mem_cons_self _ _)
    simp only [firstInstance, hx]
    split
    · exact ih (fun i hi => hl i (List.mem_cons_of_mem _ hi))
    · exact ⟨x, rfl⟩

/-- When imports point to earlier containers, the instance search of container `c`
returns within `c + 1` nested calls. -/
theorem GetInstanceAux_returns (h : List Container) (hwf : WellFormed h) (K : String)
    (fuel c : Nat) (hc : c < fuel) (hlen : c < h.length) :
    ∃ x, GetInstanceAux fuel h c K = some x := by
  induction fuel generalizing c with
  | zero => omega
  | succ n ih =>
    have hget : h[c]? = some h[c] := List.getElem?_eq_getElem hlen
    simp only [GetInstanceAux, hget]
    split
    · exact ⟨_, rfl⟩
    · split
      · exact ⟨_, rfl⟩
      · apply firstInstance_returns
        intro i hi
        have hic : i < c := hwf c h[c] hget i hi
        exact ih i (by omega) (by omega)

/-- An instance found by the loop was found by the search of one of the imports. -/
theorem firstInstance_some (gi : Nat → Option Value) (l : List Nat) (x : Value)
    (hl : firstInstance gi l = some x) (hx : x.isNil = false) : ∃ i ∈ l, gi i = some x := by
  induction l with
  | nil =>
    simp only [firstInstance, Option.some.injEq] at hl
    subst hl
    simp [Value.isNil] at hx
  | cons a rest ih =>
    simp only [firstInstance] at hl
    cases ha : gi a with
    | none => simp [ha] at hl
    | some y =>
      simp only [ha] at hl
      split at hl
      · obtain ⟨i, hi, hr⟩ := ih hl
        exact ⟨i, List.mem_cons_of_mem _ hi, hr⟩
      · simp only [Option.some.injEq] at hl
        subst hl
        exact ⟨a, List.mem_cons_self _ _, ha⟩

/-- When only `P` registers `K` and instances are held by owners only, an instance
found for `K` is the one that `P` holds. -/
theorem GetInstanceAux_of_only_owner (h : List Container) (P : Nat) (K : String)
    (honly : OnlyOwner h P K) (howned : OwnedAt K h) (fuel c : Nat) (x : Value)
    (hg : GetInstanceAux fuel h c K = some x) (hx : x.isNil = false) :
    ∃ cp, h[P]? = some cp ∧ x = cp.instances K := by
  induction fuel generalizing c with
  | zero => simp [GetInstanceAux] at hg
  | succ n ih =>
    cases hc : h[c]? with
    | none => simp [GetInstanceAux, hc] at hg
    | some cont =>
      simp only [GetInstanceAux, hc] at hg
      cases hnil : (cont.instances K).isNil with
      | false =>
        simp only [hnil, Bool.not_false, if_true, Option.some.injEq] at hg
        subst hg
        have hf := howned c cont hc hnil
        have hcP : c = P := by
          by_contra hne
          rw [honly c cont hc hne] at hf
          simp at hf
        subst hcP
        exact ⟨cont, hc, rfl⟩
      | true =>
        simp only [hnil, Bool.not_true, Bool.false_eq_true, if_false] at hg
        split at hg
        · simp only [Option.some.injEq] at hg
          subst hg
          simp [Value.isNil] at hx
        · obtain ⟨i, _, hr⟩ := firstInstance_some _ _ x hg hx
          exact ih i hr

/-- The loop of `GetInstance` gives `v` when every import gives nil or `v` and one of
them gives `v`. -/
theorem firstInstance_shared (gi : Nat → Option Value) (l : List Nat) (v : Value)
    (hv : v.isNil = false)
    (hall : ∀ i ∈ l, ∃ x, gi i = some x ∧ (x.isNil = true ∨ x = v))
    (hone : ∃ i ∈ l, gi i = some v) : firstInstance gi l = some v := by
  induction l with
  | nil =>
    obtain ⟨i, hi, _⟩ := hone
    cases hi
  | cons a rest ih =>
    obtain ⟨x, hx, hor⟩ := hall a (List.mem_cons_self _ _)
    simp only [firstInstance, hx]
    rcases hor with hnil | rfl
    · simp only [hnil, if_true]
      apply ih (fun i hi => hall i (List.mem_cons_of_mem _ hi))
      obtain ⟨i, hi, hr⟩ := hone
      rcases List.mem_cons.mp hi with rfl | hmem
      · rw [hx] at hr
        simp only [Option.some.injEq] at hr
        subst hr
        rw [hv] at hnil
        cases hnil
      · exact ⟨i, hmem, hr⟩
    · simp [hv]

/-- When only `P` registers `K`, instances are held by owners only and imports point
to earlier containers, a container that imports `P` finds the instance that `P`
holds for `K`. -/
theorem GetInstance_of_importer (h : List Container) (hwf : WellFormed h) (P : Nat)
    (K : String) (honly : OnlyOwner h P K) (howned : OwnedAt K h)
    (cp : Container) (hP : h[P]? = some cp) (hv : (cp.instances K).isNil = false)
    (c : Nat) (cont : Container) (hc : h[c]? = some cont) (himp : P ∈ cont.imports) :
    GetInstance h c K = some (cp.instances K) := by
  have hPc : P < c := hwf c cont hc P himp
  have hclen : c < h.length := by
    by_contra hge
    rw [List.getElem?_eq_none (by omega)] at hc
    cases hc
  have hnf : cont.factories K = none := honly c cont hc (by omega)
  have hni : (cont.instances K).isNil = true := by
    cases hx : (cont.instances K).isNil with
    | true => rfl
    | false =>
      have := howned c cont hc hx
      simp [hnf] at this
  unfold GetInstance
  simp only [GetInstanceAux, hc, hni, hnf, Bool.not_true, Bool.false_eq_true, if_false,
    Option.isSome_none]
  apply firstInstance_shared _ _ _ hv
  · intro i hi
    have hic : i < c := hwf c cont hc i hi
    obtain ⟨x, hx⟩ := GetInstanceAux_returns h hwf K h.length i (by omega) (by omega)
    refine ⟨x, hx, ?_⟩
    cases hxn : x.isNil with
    | true => exact Or.inl rfl
    | false =>
      obtain ⟨cp1, hP1, hxe⟩ := GetInstanceAux_of_only_owner h P K honly howned _ i x hx hxn
      rw [hP] at hP1
      cases hP1
      exact Or.inr hxe
  · refine ⟨P, himp, ?_⟩
    obtain ⟨m, hm⟩ : ∃ m, h.length = m + 1 := ⟨h.length - 1, by omega⟩
    rw [hm]
    simp [GetInstanceAux, hP, hv]
/-- An entry of the second of two related lists of containers comes from an entry of
the first. -/
theorem ColRel.lookup_right {K : String} {ex : Option Nat} {h h1 : List Container}
    (hrel : ColRel K ex h h1) (i : Nat) (cont1 : Container) (h1i : h1[i]? = some cont1) :
    ∃ cont, h[i]? = some cont ∧ cont1.imports = cont.imports ∧
      cont1.factories = cont.factories ∧ cont1.running = cont.running ∧
      (some i ≠ ex → cont1.instances K = cont.instances K) := by
  rcases hrel.lookup i with ⟨_, h1n⟩ | ⟨cont, cont1', h0, h1s, a, b, r, d⟩
  · rw [h1n] at h1i
    cases h1i
  · rw [h1s] at h1i
    cases h1i
    exact ⟨cont, h0, a, b, r, d⟩

/-- Related lists of containers have the same imports. -/
theorem ColRel.wellFormed {K : String} {ex : Option Nat} {h h1 : List Container}
    (hrel : ColRel K ex h h1) (hwf : WellFormed h) : WellFormed h1 := by
  intro c cont1 hc i hi
  obtain ⟨cont, h0, himp, _, _, _⟩ := hrel.lookup_right c cont1 hc
  rw [himp] at hi
  exact hwf c cont h0 i hi

/-- Related lists of containers have the same registries. -/
theorem ColRel.onlyOwner {K : String} {ex : Option Nat} {h h1 : List Container}
    (hrel : ColRel K ex h h1) (P : Nat) (honly : OnlyOwner h P K) : OnlyOwner h1 P K := by
  intro i cont1 hi hne
  obtain ⟨cont, h0, _, hfac, _, _⟩ := hrel.lookup_right i cont1 hi
  rw [hfac]
  exact honly i cont h0 hne

/-- Instances stay with owners when the stores at `K` change in an owner only. -/
theorem ColRel.ownedAt {K : String} {P : Nat} {h h1 : List Container}
    (hrel : ColRel K (some P) h h1) (howned : OwnedAt K h) (cp : Container)
    (hP : h[P]? = some cp) (hfP : (cp.factories K).isSome = true) : OwnedAt K h1 := by
  intro i cont1 hi hnn
  obtain ⟨cont, h0, _, hfac, _, hinst⟩ := hrel.lookup_right i cont1 hi
  rw [hfac]
  by_cases hiP : i = P
  · subst hiP
    rw [hP] at h0
    cases h0
    exact hfP
  · rw [hinst (by simpa using hiP)] at hnn
    exact howned i cont h0 hnn

/-- When only `P` registers `K`, imports point to earlier containers and instances
are held by owners only, a `get(K)` on any container `c1` that returns, followed
by `get(K)` on a container `c2` that has `P` among its imports, gives the same
instance from the cache check; the instance is in the store of `P` only. -/
theorem get_shares_parent_instance_inv (n c1 c2 P : Nat) (dep : Value) (K : String)
    (s s1 : State) (v : Value) (cp cont2 : Container) (fnP : Func)
    (hK : getDepName dep = .ok K) (hwf : WellFormed s.containers)
    (howned : OwnedAt K s.containers) (honly : OnlyOwner s.containers P K)
    (hP : s.containers[P]? = some cp) (hfP : cp.factories K = some fnP)
    (hc2 : s.containers[c2]? = some cont2) (h2P : P ∈ cont2.imports)
    (hget : get (n + 1) c1 dep s = .ret v s1) :
    v.isNil = false ∧ (∀ m, get (m + 1) c2 dep s1 = .ret v s1) ∧
    (∃ cp1, s1.containers[P]? = some cp1 ∧ cp1.instances K = v) ∧
    (∀ i conti, i ≠ P → s1.containers[i]? = some conti → (conti.instances K).isNil = true) ∧
    (∀ inst vals sA, GetInstance s.containers c1 K = some inst → inst.isNil = true →
      resolveArgs (get n c1) fnP.ins s = .ret vals sA →
      sA.calls.count K = s.calls.count K →
      s1.calls.count K = s.calls.count K + 1) := by
  have hfPs : (cp.factories K).isSome = true := by simp [hfP]
  -- the first call
  have hfirst : v.isNil = false ∧ ColRel K (some P) s.containers s1.containers ∧
      (∃ cp1, s1.containers[P]? = some cp1 ∧ cp1.instances K = v) ∧
      (∀ inst vals sA, GetInstance s.containers c1 K = some inst → inst.isNil = true →
        resolveArgs (get n c1) fnP.ins s = .ret vals sA →
        sA.calls.count K = s.calls.count K →
        s1.calls.count K = s.calls.count K + 1) := by
    cases hi : GetInstance s.containers c1 K with
    | none => simp [get, hK, hi] at hget
    | some inst =>
      cases hnil : inst.isNil with
      | false =>
        rw [get_cached n c1 dep K s inst hK hi hnil] at hget
        simp only [Outcome.ret.injEq] at hget
        obtain ⟨rfl, rfl⟩ := hget
        obtain ⟨cp1, hP1, hx⟩ :=
          GetInstanceAux_of_only_owner _ P K honly howned _ c1 inst hi hnil
        refine ⟨hnil, ColRel.refl _ _ _, ⟨cp1, hP1, hx.symm⟩, ?_⟩
        intro inst1 vals sA hi1 hnil1
        simp only [Option.some.injEq] at hi1
        subst hi1
        rw [hnil] at hnil1
        cases hnil1
      | true =>
        obtain ⟨fn, o, co1, vals, sA, hgf, hown, hrel, hco1, hv1, hv, _, hargs, _, hcount⟩ :=
          get_miss n c1 dep K s s1 v hK inst hi hnil hget
        obtain ⟨o2, co2, hown2, hco2, hf2⟩ := GetFactory_some_owner _ _ _ _ hgf
        rw [hown] at hown2
        simp only [Option.some.injEq] at hown2
        subst hown2
        have hoP : o = P := by
          by_contra hne
          rw [honly o co2 hco2 hne] at hf2
          cases hf2
        subst hoP
        rw [hP] at hco2
        cases hco2
        rw [hfP] at hf2
        simp only [Option.some.injEq] at hf2
        subst hf2
        refine ⟨hv, hrel, ⟨co1, hco1, hv1⟩, ?_⟩
        intro inst1 vals1 sA1 _ _ hargs1 hsame
        rw [hargs] at hargs1
        simp only [Outcome.ret.injEq] at hargs1
        obtain ⟨_, rfl⟩ := hargs1
        rw [hcount, hsame]
  obtain ⟨hv, hrel, ⟨cp1, hP1, hcpv⟩, hcnt⟩ := hfirst
  -- the state after the first call is as the state before it, up to the store of `P`
  have hwf1 := hrel.wellFormed hwf
  have honly1 := hrel.onlyOwner P honly
  have howned1 := hrel.ownedAt howned cp hP hfPs
  obtain ⟨cont21, hc21, himp2, _, _, _⟩ := hrel.2 c2 cont2 hc2
  have hg2 : GetInstance s1.containers c2 K = some v := by
    have := GetInstance_of_importer s1.containers hwf1 P K honly1 howned1 cp1 hP1
      (by rw [hcpv]; exact hv) c2 cont21 hc21 (by rw [himp2]; exact h2P)
    rw [hcpv] at this
    exact this
  refine ⟨hv, fun m => get_cached m c2 dep K s1 v hK hg2 hv, ⟨cp1, hP1, hcpv⟩, ?_, hcnt⟩
  intro i conti hne hi
  cases hx : (conti.instances K).isNil with
  | true => rfl
  | false =>
    have := howned1 i conti hi hx
    rw [honly1 i conti hi hne] at this
    simp at this

/-- The containers of `sharedState`: the parent and the two children. -/
theorem sharedState_containers :
    sharedState.containers =
      [{ imports := [], factories := setKey (fun _ => none) "app.Clock" (some (clockFactory "V")),
         instances := fun _ => Value.nil, timeout := defaultTimeout, running := false },
       { imports := [0], factories := fun _ => none,
         instances := fun _ => Value.nil, timeout := defaultTimeout, running := false },
       { imports := [0], factories := fun _ => none,
         instances := fun _ => Value.nil, timeout := defaultTimeout, running := false }] := rfl

/-- In `sharedState` only the parent registers a key. -/
theorem sharedState_onlyOwner (K : String) : OnlyOwner sharedState.containers 0 K := by
  intro i cont hi hne
  rw [sharedState_containers] at hi
  match i with
  | 0 => exact absurd rfl hne
  | 1 =>
    simp only [List.getElem?_cons_succ, List.getElem?_cons_zero, Option.some.injEq] at hi
    subst hi
    rfl
  | 2 =>
    simp only [List.getElem?_cons_succ, List.getElem?_cons_zero, Option.some.injEq] at hi
    subst hi
    rfl
  | i + 3 => simp at hi

/-- Claim C4 fails where it says that the factory of `P` is called exactly once: only
the parent registers `app.K`, its factory takes an `*L`, and `L` has a field of
type `*K` tagged `inject`; `get` on the first child calls the factory for `app.K`
twice, and `get` on the second child then returns the same instance, which the
parent and neither child holds. -/
theorem get_on_children_calls_factory_twice :
    sharedCycleState.calls = [] ∧
    (sharedCycleState.containers.map (fun ct => (ct.factories "app.K").isSome))
      = [true, false, false] ∧
    get 5 1 (.str "app.K") sharedCycleState
      = .ret (.pointer kPtrT (some 2)) (get 5 1 (.str "app.K") sharedCycleState).stateD ∧
    get 5 2 (.str "app.K") (get 5 1 (.str "app.K") sharedCycleState).stateD
      = .ret (.pointer kPtrT (some 2)) (get 5 1 (.str "app.K") sharedCycleState).stateD ∧
    ((get 5 1 (.str "app.K") sharedCycleState).stateD.containers.map
      (fun ct => (ct.instances "app.K").isNil)) = [false, true, true] ∧
    (get 5 1 (.str "app.K") sharedCycleState).stateD.calls.count "app.K" = 2 := by
  refine ⟨rfl, rfl, rfl, rfl, rfl, by decide⟩

/-! ## Registration -/

/-- The relation holds between a list of containers and itself. -/
theorem Extends.reflexive (h : List Container) : Extends h h :=
  fun _ cont hc => ⟨cont, hc, fun hr => hr, fun _ _ => rfl⟩

/-- The relation is transitive. -/
theorem Extends.transitive {h h1 h2 : List Container} (h01 : Extends h h1) (h12 : Extends h1 h2) :
    Extends h h2 := by
  intro c cont hc
  obtain ⟨cont1, hc1, hr1, hf1⟩ := h01 c cont hc
  obtain ⟨cont2, hc2, hr2, hf2⟩ := h12 c cont1 hc1
  refine ⟨cont2, hc2, fun hr => hr2 (hr1 hr), fun k hk => ?_⟩
  have h1k := hf1 k hk
  rw [hf2 k (by rw [h1k]; exact hk), h1k]

/-- Replacing a container by one that is running if the old one was, and has the
registered keys of the old one, extends the containers. -/
theorem Extends.set (h : List Container) (c : Nat) (cont cont1 : Container)
    (hc : h[c]? = some cont) (hr : cont.running = true → cont1.running = true)
    (hf : ∀ k, (cont.factories k).isSome = true → cont1.factories k = cont.factories k) :
    Extends h (h.set c cont1) := by
  intro i conti hi
  by_cases hic : i = c
  · subst hic
    rw [hc] at hi
    cases hi
    have hlt : i < h.length := by
      by_contra hge
      rw [List.getElem?_eq_none (by omega)] at hc
      cases hc
    exact ⟨cont1, List.getElem?_set_self hlt, hr, hf⟩
  · exact ⟨conti, by rw [List.getElem?_set_ne (Ne.symm hic)]; exact hi, fun h => h, fun _ _ => rfl⟩

/-- The method `Provide` extends the containers, also when it panics. -/
theorem Provide_extends (c : Nat) (dep : Value) (f : FactoryFunc) (s : State) :
    (Provide c dep f s).All (fun s1 => Extends s.containers s1.containers) := by
  unfold Provide
  split
  · exact Extends.reflexive _
  · rename_i cont hc
    split
    · exact Extends.reflexive _
    · split
      · exact Extends.reflexive _
      · split
        · exact Extends.reflexive _
        · rename_i depName _
          split
          · exact Extends.reflexive _
          · rename_i hnone
            show Extends s.containers (s.containers.set c _)
            refine Extends.set _ _ cont { cont with factories := setKey cont.factories depName f }
              hc (fun h => h) ?_
            intro k hk
            have hkd : k ≠ depName := by
              intro hkd
              subst hkd
              exact hnone hk
            simp [setKey, hkd]

/-- The method `ProvideByFactory` extends the containers, also when it panics. -/
theorem ProvideByFactory_extends (c : Nat) (f : FactoryFunc) (s : State) :
    (ProvideByFactory c f s).All (fun s1 => Extends s.containers s1.containers) := by
  unfold ProvideByFactory
  split
  · exact Extends.reflexive _
  · exact Provide_extends _ _ _ _

/-- The method `Run` extends the containers, also when it panics. -/
theorem Run_extends (c : Nat) (s : State) :
    (Run c s).All (fun s1 => Extends s.containers s1.containers) := by
  unfold Run
  split
  · exact Extends.reflexive _
  · rename_i cont hc
    split
    · exact Extends.reflexive _
    · exact Extends.set _ _ cont _ hc (fun _ => rfl) (fun _ _ => rfl)

/-- A loop keeps what its body keeps. -/
theorem forEach_all {α : Type} (Q : State → Prop) (body : α → State → Outcome Unit)
    (hbody : ∀ a s, Q s → (body a s).All Q) (l : List α) (s : State) (hs : Q s) :
    (forEach body l s).All Q := by
  induction l generalizing s with
  | nil => exact hs
  | cons a rest ih =>
    have h1 := hbody a s hs
    simp only [forEach]
    cases hb : body a s with
    | diverge => trivial
    | panic msg s1 => rw [hb] at h1; exact h1
    | ret u s1 => rw [hb] at h1; exact ih s1 h1

/-- The body of the loop over the imports extends the containers. -/
theorem appendImport_extends (c : Nat) (i : Option Nat) (s : State) :
    (appendImport c i s).All (fun s1 => Extends s.containers s1.containers) := by
  unfold appendImport
  split
  · exact Extends.reflexive _
  · split
    · exact Extends.reflexive _
    · rename_i cont hc
      exact Extends.set _ _ cont { cont with imports := cont.imports ++ [_] } hc (fun h => h)
        (fun _ _ => rfl)

/-- A step that extends the containers keeps the property of extending `h`. -/
theorem all_extends_trans {α : Type} (h : List Container) (s : State) (o : Outcome α)
    (hs : Extends h s.containers)
    (ho : o.All (fun s1 => Extends s.containers s1.containers)) :
    o.All (fun s1 => Extends h s1.containers) := by
  cases o with
  | diverge => trivial
  | panic msg s1 => exact hs.transitive ho
  | ret a s1 => exact hs.transitive ho

/-- The function `NewContainer` extends the containers, also when it panics. -/
theorem NewContainer_extends (opts : Option ContainerOpts) (s : State) :
    (NewContainer opts s).All (fun s1 => Extends s.containers s1.containers) := by
  have h0 : Extends s.containers (s.containers ++
      [{ imports := [], factories := fun _ => none, instances := fun _ => Value.nil,
         timeout := defaultTimeout, running := false }]) := by
    intro c cont hc
    have hlt : c < s.containers.length := by
      by_contra hge
      rw [List.getElem?_eq_none (by omega)] at hc
      cases hc
    exact ⟨cont, by rw [List.getElem?_append_left hlt]; exact hc, fun h => h, fun _ _ => rfl⟩
  unfold NewContainer
  cases opts with
  | none => exact h0
  | some o =>
    dsimp only
    have h1 := forEach_all (fun s1 => Extends s.containers s1.containers)
      (appendImport s.containers.length)
      (fun a s1 hs1 => all_extends_trans _ s1 _ hs1 (appendImport_extends _ a s1)) o.Imports
      { s with containers := s.containers ++
        [{ imports := [], factories := fun _ => none, instances := fun _ => Value.nil,
           timeout := defaultTimeout, running := false }] } h0
    split
    · rename_i heq; rw [heq] at h1; exact h1
    · trivial
    · rename_i u s1 heq
      rw [heq] at h1
      have h2 := forEach_all (fun s2 => Extends s.containers s2.containers)
        (fun p => Provide s.containers.length (.str p.Name) p.Factory)
        (fun a s2 hs2 => all_extends_trans _ s2 _ hs2 (Provide_extends _ _ _ s2)) o.ByName s1 h1
      split
      · rename_i heq; rw [heq] at h2; exact h2
      · trivial
      · rename_i u2 s2 heq2
        rw [heq2] at h2
        have h3 := forEach_all (fun s3 => Extends s.containers s3.containers)
          (fun p => Provide s.containers.length p.Provide p.Factory)
          (fun a s3 hs3 => all_extends_trans _ s3 _ hs3 (Provide_extends _ _ _ s3))
          o.ByInterface s2 h2
        split
        · rename_i heq; rw [heq] at h3; exact h3
        · trivial
        · rename_i u3 s3 heq3
          rw [heq3] at h3
          have h4 := forEach_all (fun s4 => Extends s.containers s4.containers)
            (fun f => ProvideByFactory s.containers.length f)
            (fun a s4 hs4 => all_extends_trans _ s4 _ hs4 (ProvideByFactory_extends _ _ s4))
            o.ByFactories s3 h3
          split
          · rename_i heq; rw [heq] at h4; exact h4
          · trivial
          · rename_i u4 s4 heq4; rw [heq4] at h4; exact h4

/-- A write of an instance extends the containers. -/
theorem storeAt_extends (h : List Container) (o : Nat) (k : String) (v : Value) :
    Extends h (storeAt h o k v) := by
  unfold storeAt
  split
  · exact Extends.reflexive _
  · rename_i cont hc
    exact Extends.set _ _ cont { cont with instances := setKey cont.instances k v } hc
      (fun h => h) (fun _ _ => rfl)

/-- The method `get` extends the containers, also when it panics. -/
theorem get_extends (fuel c : Nat) (dep : Value) (s : State) :
    (get fuel c dep s).All (fun s1 => Extends s.containers s1.containers) := by
  apply get_all c (fun s1 => Extends s.containers s1.containers) _ fuel dep s (Extends.reflexive _)
  refine ⟨fun _ _ hs => hs, fun _ k _ _ => ⟨fun _ hs => hs, ?_⟩⟩
  intro s2 v h1 err hs hset
  rcases SetInstance_cases _ _ _ _ _ _ hset with ⟨rfl, _, _⟩ | ⟨o1, _, rfl, _⟩
  · exact hs
  · exact hs.transitive (storeAt_extends _ o1 k v)

/-- An outcome with a state has the properties of all outcomes. -/
theorem Outcome.all_of_state {α : Type} (Q : State → Prop) (o : Outcome α) (s : State)
    (ho : o.All Q) (hs : o.state? = some s) : Q s := by
  cases o with
  | diverge => cases hs
  | panic msg s1 =>
    simp only [Outcome.state?, Option.some.injEq] at hs
    subst hs
    exact ho
  | ret a s1 =>
    simp only [Outcome.state?, Option.some.injEq] at hs
    subst hs
    exact ho

/-- Every operation extends the containers. -/
theorem Op.exec_extends (op : Op) (s s1 : State) (h : op.exec s = some s1) :
    Extends s.containers s1.containers := by
  cases op with
  | newContainer opts => exact Outcome.all_of_state _ _ _ (NewContainer_extends opts s) h
  | provide c dep f => exact Outcome.all_of_state _ _ _ (Provide_extends c dep f s) h
  | provideByName c depName f =>
    exact Outcome.all_of_state _ _ _ (Provide_extends c (.str depName) f s) h
  | provideByInterface c dep f => exact Outcome.all_of_state _ _ _ (Provide_extends c dep f s) h
  | provideByFactory c f => exact Outcome.all_of_state _ _ _ (ProvideByFactory_extends c f s) h
  | run c => exact Outcome.all_of_state _ _ _ (Run_extends c s) h
  | get fuel c dep => exact Outcome.all_of_state _ _ _ (get_extends fuel c dep s) h

/-- The operations of the package extend the containers. -/
theorem Reach.extends {s s1 : State} (h : Reach s s1) : Extends s.containers s1.containers := by
  induction h with
  | refl => exact Extends.reflexive _
  | step s1 s2 op _ _ hop ih => exact ih.transitive (Op.exec_extends op s1 s2 hop)

/-- What a `Provide` that returned has done. -/
theorem Provide_ret (c : Nat) (dep : Value) (f : FactoryFunc) (s s1 : State)
    (hp : Provide c dep f s = .ret () s1) :
    ∃ cont K fn, s.containers[c]? = some cont ∧ cont.running = false ∧
      getDepName dep = .ok K ∧ f = some fn ∧ getFactoryReturnDepName f = .ok K ∧
      cont.factories K = none ∧
      s1 = s.setContainer c { cont with factories := setKey cont.factories K f } := by
  unfold Provide at hp
  split at hp
  · cases hp
  · rename_i cont hc
    split at hp
    · cases hp
    · rename_i hr
      split at hp
      · cases hp
      · rename_i u hchk
        split at hp
        · cases hp
        · rename_i K hd
          split at hp
          · cases hp
          · rename_i hnone
            simp only [Outcome.ret.injEq, true_and] at hp
            cases f with
            | none => simp [checkFactory, getFactoryReturnDepName] at hchk
            | some fn =>
              refine ⟨cont, K, fn, hc, by simpa using hr, hd, rfl, ?_, by simpa using hnone, hp.symm⟩
              unfold checkFactory at hchk
              cases hgf : getFactoryReturnDepName (some fn) with
              | error e => simp [hgf] at hchk
              | ok got =>
                simp only [hgf, hd] at hchk
                split at hchk
                · cases hchk
                · rename_i hne
                  simp only [bne_iff_ne, ne_eq, not_not] at hne
                  rw [hne]

/-- A `Provide` for a key that the container has registered panics and changes
nothing. -/
theorem Provide_registered_panics (c : Nat) (dep : Value) (f : FactoryFunc) (s : State)
    (cont : Container) (K : String) (hc : s.containers[c]? = some cont)
    (hf : (cont.factories K).isSome = true) (hd : getDepName dep = .ok K) :
    ∃ msg, Provide c dep f s = .panic msg s := by
  unfold Provide
  simp only [hc]
  split
  · exact ⟨_, rfl⟩
  · split
    · exact ⟨_, rfl⟩
    · simp only [hd, hf, if_true]
      exact ⟨_, rfl⟩

/-- A `Provide` on a running container panics and changes nothing. -/
theorem Provide_running_panics (c : Nat) (dep : Value) (f : FactoryFunc) (s : State)
    (cont : Container) (hc : s.containers[c]? = some cont) (hr : cont.running = true) :
    Provide c dep f s = .panic "cannot provide new factory in a running container" s := by
  simp [Provide, hc, hr]

/-- Claim C7: once `Provide` has returned for a key `K` on a container, the registry of
the container maps `K` to that factory in every state reached afterwards, and
there every `Provide`, `ProvideByInterface`, `ProvideByName` and `ProvideByFactory`
whose key is `K` panics and leaves the state as it is; no `get` is needed. -/
theorem Provide_rejects_duplicate (c : Nat) (dep : Value) (f : FactoryFunc) (s s1 s2 : State)
    (hp : Provide c dep f s = .ret () s1) (hreach : Reach s1 s2) :
    ∃ K fn cont2, getDepName dep = .ok K ∧ f = some fn ∧
      s2.containers[c]? = some cont2 ∧ cont2.factories K = some fn ∧
      ∀ f2 : FactoryFunc,
        (∀ dep2, getDepName dep2 = .ok K →
          ∃ msg, Provide c dep2 f2 s2 = .panic msg s2 ∧
            ProvideByInterface c dep2 f2 s2 = .panic msg s2) ∧
        (∃ msg, ProvideByName c K f2 s2 = .panic msg s2) ∧
        (getFactoryReturnDepName f2 = .ok K → ∃ msg, ProvideByFactory c f2 s2 = .panic msg s2) := by
  obtain ⟨cont, K, fn, hc, _, hd, hfn, _, _, hs1⟩ := Provide_ret c dep f s s1 hp
  have hlt : c < s.containers.length := by
    by_contra hge
    rw [List.getElem?_eq_none (by omega)] at hc
    cases hc
  have hc1 : s1.containers[c]? = some { cont with factories := setKey cont.factories K f } := by
    rw [hs1]
    exact List.getElem?_set_self hlt
  obtain ⟨cont2, hc2, _, hf2⟩ := hreach.extends c _ hc1
  have hfK : cont2.factories K = some fn := by
    rw [hf2 K (by simp [setKey, hfn])]
    simp [setKey, hfn]
  have hsome : (cont2.factories K).isSome = true := by simp [hfK]
  refine ⟨K, fn, cont2, hd, hfn, hc2, hfK, fun f2 => ⟨?_, ?_, ?_⟩⟩
  · intro dep2 hd2
    obtain ⟨msg, hm⟩ := Provide_registered_panics c dep2 f2 s2 cont2 K hc2 hsome hd2
    exact ⟨msg, hm, hm⟩
  · exact Provide_registered_panics c (.str K) f2 s2 cont2 K hc2 hsome rfl
  · intro hk
    simp only [ProvideByFactory, hk]
    exact Provide_registered_panics c (.str K) f2 s2 cont2 K hc2 hsome rfl

/-- Witness of `Provide_rejects_duplicate`: `app.Clock` is registered in a fresh
container, which is not running, and right after that a second factory for
`app.Clock` is refused with the message of the duplicate check. -/
theorem Provide_rejects_duplicate_witness :
    Provide 0 (.str "app.Clock") (some (clockFactory "V")) freshState
      = .ret () (Provide 0 (.str "app.Clock") (some (clockFactory "V")) freshState).stateD ∧
    ((Provide 0 (.str "app.Clock") (some (clockFactory "V")) freshState).stateD.containers.map
      (fun p => p.running)) = [false] ∧
    (∃ msg, ProvideByName 0 "app.Clock" (some (clockFactory "W"))
        (Provide 0 (.str "app.Clock") (some (clockFactory "V")) freshState).stateD
      = .panic msg (Provide 0 (.str "app.Clock") (some (clockFactory "V")) freshState).stateD) ∧
    ProvideByName 0 "app.Clock" (some (clockFactory "W"))
        (Provide 0 (.str "app.Clock") (some (clockFactory "V")) freshState).stateD
      = .panic "\"app.Clock\" already provided"
          (Provide 0 (.str "app.Clock") (some (clockFactory "V")) freshState).stateD := by
  refine ⟨rfl, rfl, ?_, rfl⟩
  obtain ⟨K, fn, cont2, hK, _, _, _, hall⟩ :=
    Provide_rejects_duplicate 0 (.str "app.Clock") (some (clockFactory "V")) freshState
      (Provide 0 (.str "app.Clock") (some (clockFactory "V")) freshState).stateD
      (Provide 0 (.str "app.Clock") (some (clockFactory "V")) freshState).stateD
      rfl (Reach.refl _)
  cases hK
  exact (hall (some (clockFactory "W"))).2.1

/-- Claim C8: after `Run` has returned for a container, in every state reached
afterwards every `Provide`, `ProvideByName`, `ProvideByInterface` and
`ProvideByFactory` on that container panics, for every key source and factory,
and leaves the state, registry and instance store included, as it is. -/
theorem Run_locks_registry (c : Nat) (s s1 s2 : State) (hrun : Run c s = .ret () s1)
    (hreach : Reach s1 s2) (dep : Value) (depName : String) (f : FactoryFunc) :
    Provide c dep f s2 = .panic "cannot provide new factory in a running container" s2 ∧
    ProvideByName c depName f s2
      = .panic "cannot provide new factory in a running container" s2 ∧
    ProvideByInterface c dep f s2
      = .panic "cannot provide new factory in a running container" s2 ∧
    ∃ msg, ProvideByFactory c f s2 = .panic msg s2 := by
  have h1 : ∃ cont1, s1.containers[c]? = some cont1 ∧ cont1.running = true := by
    unfold Run at hrun
    cases hc : s.containers[c]? with
    | none => simp [hc] at hrun
    | some cont =>
      simp only [hc] at hrun
      split at hrun
      · cases hrun
      · simp only [Outcome.ret.injEq, true_and] at hrun
        have hlt : c < s.containers.length := by
          by_contra hge
          rw [List.getElem?_eq_none (by omega)] at hc
          cases hc
        refine ⟨{ cont with running := true }, ?_, rfl⟩
        rw [← hrun]
        exact List.getElem?_set_self hlt
  obtain ⟨cont1, hc1, hr1⟩ := h1
  obtain ⟨cont2, hc2, hr2, _⟩ := hreach.extends c cont1 hc1
  have hr := hr2 hr1
  refine ⟨Provide_running_panics c dep f s2 cont2 hc2 hr,
    Provide_running_panics c (.str depName) f s2 cont2 hc2 hr,
    Provide_running_panics c dep f s2 cont2 hc2 hr, ?_⟩
  unfold ProvideByFactory
  split
  · exact ⟨_, rfl⟩
  · exact ⟨_, Provide_running_panics c _ f s2 cont2 hc2 hr⟩

/-- Witness of `Run_locks_registry`: a fresh container is run, a `get` fails, and a
registration by name is refused afterwards. -/
theorem Run_locks_registry_witness :
    Run 0 freshState = .ret () (Run 0 freshState).stateD ∧
    ProvideByName 0 "app.Clock" (some (clockFactory "V"))
        (get 1 0 (.str "app.Clock") (Run 0 freshState).stateD).stateD
      = .panic "cannot provide new factory in a running container"
        (get 1 0 (.str "app.Clock") (Run 0 freshState).stateD).stateD :=
  ⟨rfl, (Run_locks_registry 0 freshState (Run 0 freshState).stateD
    (get 1 0 (.str "app.Clock") (Run 0 freshState).stateD).stateD rfl
    (Reach.step _ _ _ (.get 1 0 (.str "app.Clock")) (Reach.refl _) trivial rfl)
    (.str "app.Clock") "app.Clock" (some (clockFactory "V"))).2.1⟩

/-- Claim C9: on a container that is not running, `Provide(dep, f)` panics with a
message that names the key of `dep` and the key of the first result type of `f`
when the two differ, and changes nothing; when they are equal and the key is not
registered, it returns, and the state differs only in that the registry of this
container maps the key to `f`. -/
theorem Provide_checks_return_type (c : Nat) (dep : Value) (f : FactoryFunc) (s : State)
    (cont : Container) (kf kd : String) (hc : s.containers[c]? = some cont)
    (hrun : cont.running = false) (hkf : getFactoryReturnDepName f = .ok kf)
    (hkd : getDepName dep = .ok kd) :
    (kf ≠ kd → Provide c dep f s
      = .panic ("wrong return type in factory for \"" ++ kd ++ "\" dependency, got \""
          ++ kf ++ "\"") s) ∧
    (kf = kd → cont.factories kd = none →
      Provide c dep f s
        = .ret () { containers := s.containers.set c
                      { imports := cont.imports,
                        factories := fun k => if k = kd then f else cont.factories k,
                        instances := cont.instances, timeout := cont.timeout,
                        running := cont.running },
                    objs := s.objs, calls := s.calls } ∧
      ∀ i, i ≠ c → (s.containers.set c
                      { imports := cont.imports,
                        factories := fun k => if k = kd then f else cont.factories k,
                        instances := cont.instances, timeout := cont.timeout,
                        running := cont.running })[i]? = s.containers[i]?) := by
  constructor
  · intro hne
    simp [Provide, hc, hrun, checkFactory, hkf, hkd, hne, wrongReturnType]
  · intro heq hnone
    subst heq
    refine ⟨?_, fun i hi => List.getElem?_set_ne (Ne.symm hi)⟩
    simp [Provide, hc, hrun, checkFactory, hkf, hkd, hnone, State.setContainer]
    rfl

/-- Witness of `Provide_checks_return_type`: on a fresh container the name `clock` is
refused for a factory that returns a `Clock`, whose key is `app.Clock`. -/
theorem Provide_checks_return_type_witness :
    Provide 0 (.str "clock") (some (clockFactory "V")) freshState
      = .panic ("wrong return type in factory for \"" ++ "clock" ++ "\" dependency, got \""
          ++ "app.Clock" ++ "\"") freshState :=
  (Provide_checks_return_type 0 (.str "clock") (some (clockFactory "V")) freshState
    newContainer "app.Clock" "clock" rfl rfl rfl rfl).1 (by decide)

/-! ## The scenario of the clock and the logger -/

set_option maxHeartbeats 1000000 in
/-- In the scenario, `get` of the logger on C2 returns the new logger and leaves the
state `scenarioAfter`. -/
theorem scenario_get_logger (V : String) :
    get 3 1 (.str "app.Logger") (scenarioState V)
      = .ret (.pointer loggerPtrT (some 0)) (scenarioAfter V) := rfl

set_option maxHeartbeats 1000000 in
/-- In the state `scenarioAfter`, `get` of the clock on C2 returns `V` and changes
nothing. -/
theorem scenario_get_clock (V : String) :
    get 3 1 (.str "app.Clock") (scenarioAfter V) = .ret (.scalar clockT V) (scenarioAfter V) :=
  rfl

/-- Claim C5, as the code has it: C1 registers the clock under the key of its type,
`app.Clock` (a name is accepted only when it is the key of the first result type
of the factory), and C2, which imports C1, registers the logger under
`app.Logger`. Then `get` of the logger on C2 returns a new logger that wraps `V`,
the clock is stored in C1 and not in C2, and a later `get` of the clock on C2
returns `V` from the cache: the clock factory has been called exactly once. -/
theorem scenario_clock_logger (V : String) :
    ∃ s1 : State,
      (scenarioState V).calls = [] ∧
      get 3 1 (.str "app.Logger") (scenarioState V) = .ret (.pointer loggerPtrT (some 0)) s1 ∧
      s1.objs = [.struct loggerT [.mk false "" clockT (.scalar clockT V)]] ∧
      s1.containers.map (fun ct => ct.instances "app.Clock") = [.scalar clockT V, .nil] ∧
      s1.containers.map (fun ct => ct.instances "app.Logger")
        = [.nil, .pointer loggerPtrT (some 0)] ∧
      s1.calls = ["app.Clock", "app.Logger"] ∧
      get 3 1 (.str "app.Clock") s1 = .ret (.scalar clockT V) s1 ∧
      s1.calls.count "app.Clock" = 1 :=
  ⟨scenarioAfter V, rfl, scenario_get_logger V, rfl, rfl, rfl, rfl, scenario_get_clock V,
    by simp [scenarioAfter]⟩

/-- Claim C5 fails as it is stated: the names `clock` and `logger` are refused by
`checkFactory`, because the key of a result type has the form `package.Name`; the
registries stay empty and `get("logger")` on C2 panics. -/
theorem scenario_names_are_refused :
    ProvideByName 0 "clock" (some (clockFactory "V"))
        (NewContainer (some childOpts) (NewContainer none emptyState).stateD).stateD
      = .panic "wrong return type in factory for \"clock\" dependency, got \"app.Clock\""
        (NewContainer (some childOpts) (NewContainer none emptyState).stateD).stateD ∧
    ProvideByName 1 "logger" (some loggerFactory)
        (NewContainer (some childOpts) (NewContainer none emptyState).stateD).stateD
      = .panic "wrong return type in factory for \"logger\" dependency, got \"app.Logger\""
        (NewContainer (some childOpts) (NewContainer none emptyState).stateD).stateD ∧
    get 3 1 (.str "logger") (namedScenarioState "V")
      = .panic "\"logger\" dependency not provided" (namedScenarioState "V") := by
  refine ⟨rfl, rfl, rfl⟩

/-! ## Witnesses for `SetInstance` -/

/-- Witness of `SetInstance_writes_owner`: in the scenario, an instance set for
`app.Clock` on C2 is written into C1. -/
theorem SetInstance_writes_owner_witness :
    GetFactory (scenarioState "V").containers 1 "app.Clock" = some (some (clockFactory "V")) ∧
    ∃ o cont, findOwner (scenarioState "V").containers 1 "app.Clock" = some (some o) ∧
      InClosure (scenarioState "V").containers 1 o ∧
      (scenarioState "V").containers[o]? = some cont ∧
      cont.factories "app.Clock" = some (clockFactory "V") ∧
      SetInstance (scenarioState "V").containers 1 "app.Clock" (.scalar clockT "V")
        = some ((scenarioState "V").containers.set o
            { cont with instances := setKey cont.instances "app.Clock" (.scalar clockT "V") },
            none) ∧
      (∀ i, i ≠ o → ((scenarioState "V").containers.set o
          { cont with instances := setKey cont.instances "app.Clock" (.scalar clockT "V") })[i]?
        = (scenarioState "V").containers[i]?) ∧
      (∀ cc, (scenarioState "V").containers[1]? = some cc →
        cc.factories "app.Clock" = none → o ≠ 1) :=
  ⟨rfl, SetInstance_writes_owner (scenarioState "V").containers 1 "app.Clock" (clockFactory "V")
    (.scalar clockT "V") rfl⟩

/-! ## What every reachable state has -/

/-- A loop keeps what its body keeps for the elements of the list. -/
theorem forEach_all_mem {α : Type} (Q : State → Prop) (body : α → State → Outcome Unit)
    (l : List α) (hbody : ∀ a ∈ l, ∀ s, Q s → (body a s).All Q) (s : State) (hs : Q s) :
    (forEach body l s).All Q := by
  induction l generalizing s with
  | nil => exact hs
  | cons a rest ih =>
    have h1 := hbody a (List.mem_cons_self _ _) s hs
    simp only [forEach]
    cases hb : body a s with
    | diverge => trivial
    | panic msg s1 => rw [hb] at h1; exact h1
    | ret u s1 =>
      rw [hb] at h1
      exact ih (fun b hb1 => hbody b (List.mem_cons_of_mem _ hb1)) s1 h1

/-- Replacing a container by one whose imports are earlier containers and whose
instances have factories keeps the two properties. -/
theorem stateOk_of_set (h : List Container) (hok : StateOk h) (c : Nat) (cont1 : Container)
    (himp : ∀ i ∈ cont1.imports, i < c)
    (hinst : ∀ K, (cont1.instances K).isNil = false → (cont1.factories K).isSome = true) :
    StateOk (h.set c cont1) := by
  have hlook : ∀ i conti, (h.set c cont1)[i]? = some conti →
      (i = c ∧ conti = cont1) ∨ (i ≠ c ∧ h[i]? = some conti) := by
    intro i conti hi
    by_cases hic : i = c
    · subst hic
      left
      by_cases hlt : i < h.length
      · rw [List.getElem?_set_self hlt] at hi
        exact ⟨rfl, (Option.some.inj hi).symm⟩
      · rw [List.getElem?_eq_none (by simp; omega)] at hi
        cases hi
    · right
      rw [List.getElem?_set_ne (Ne.symm hic)] at hi
      exact ⟨hic, hi⟩
  constructor
  · intro i conti hi j hj
    rcases hlook i conti hi with ⟨rfl, rfl⟩ | ⟨_, h0⟩
    · exact himp j hj
    · exact hok.1 i conti h0 j hj
  · intro K i conti hi hnn
    rcases hlook i conti hi with ⟨rfl, rfl⟩ | ⟨_, h0⟩
    · exact hinst K hnn
    · exact hok.2 K i conti h0 hnn

/-- The method `Provide` keeps the two properties, also when it panics. -/
theorem Provide_ok (c : Nat) (dep : Value) (f : FactoryFunc) (s : State)
    (hs : StateOk s.containers) : (Provide c dep f s).All (fun s1 => StateOk s1.containers) := by
  unfold Provide
  split
  · exact hs
  · rename_i cont hc
    split
    · exact hs
    · split
      · exact hs
      · split
        · exact hs
        · rename_i depName _
          split
          · exact hs
          · rename_i hnone
            show StateOk (s.containers.set c _)
            apply stateOk_of_set _ hs
            · exact hs.1 c cont hc
            · intro K hnn
              have hK := hs.2 K c cont hc hnn
              have hkd : K ≠ depName := by
                intro hkd
                subst hkd
                exact hnone hK
              simpa [setKey, hkd] using hK

/-- The method `ProvideByFactory` keeps the two properties, also when it panics. -/
theorem ProvideByFactory_ok (c : Nat) (f : FactoryFunc) (s : State)
    (hs : StateOk s.containers) :
    (ProvideByFactory c f s).All (fun s1 => StateOk s1.containers) := by
  unfold ProvideByFactory
  split
  · exact hs
  · exact Provide_ok _ _ _ _ hs

/-- The method `Run` keeps the two properties, also when it panics. -/
theorem Run_ok (c : Nat) (s : State) (hs : StateOk s.containers) :
    (Run c s).All (fun s1 => StateOk s1.containers) := by
  unfold Run
  split
  · exact hs
  · rename_i cont hc
    split
    · exact hs
    · show StateOk (s.containers.set c _)
      exact stateOk_of_set _ hs c _ (hs.1 c cont hc) (fun K hnn => hs.2 K c cont hc hnn)

/-- The body of the loop over the imports keeps the two properties when the imported
container was allocated before container `c`. -/
theorem appendImport_ok (c : Nat) (a : Option Nat) (s : State) (ha : ∀ i, a = some i → i < c)
    (hs : StateOk s.containers) :
    (appendImport c a s).All (fun s1 => StateOk s1.containers) := by
  unfold appendImport
  split
  · exact hs
  · rename_i i
    split
    · exact hs
    · rename_i cont hc
      show StateOk (s.containers.set c _)
      apply stateOk_of_set _ hs
      · intro j hj
        rcases List.mem_append.mp hj with hold | hnew
        · exact hs.1 c cont hc j hold
        · rw [List.mem_singleton] at hnew
          subst hnew
          exact ha j rfl
      · exact fun K hnn => hs.2 K c cont hc hnn

/-- The function `NewContainer` keeps the two properties, also when it panics, when
the imports it is given have been allocated. -/
theorem NewContainer_ok (opts : Option ContainerOpts) (s : State)
    (hvalid : (Op.newContainer opts).valid s) (hs : StateOk s.containers) :
    (NewContainer opts s).All (fun s1 => StateOk s1.containers) := by
  have h0 : StateOk (s.containers ++ [newContainer]) := by
    have hlook : ∀ (i : Nat) (conti : Container), (s.containers ++ [newContainer])[i]? = some conti →
        s.containers[i]? = some conti ∨ conti = newContainer := by
      intro i conti hi
      by_cases hlt : i < s.containers.length
      · rw [List.getElem?_append_left hlt] at hi
        exact Or.inl hi
      · rw [List.getElem?_append_right (by omega)] at hi
        right
        cases hidx : i - s.containers.length with
        | zero =>
          rw [hidx] at hi
          simp only [List.getElem?_cons_zero, Option.some.injEq] at hi
          exact hi.symm
        | succ m =>
          rw [hidx] at hi
          simp at hi
    constructor
    · intro i conti hi j hj
      rcases hlook i conti hi with h1 | rfl
      · exact hs.1 i conti h1 j hj
      · simp [newContainer] at hj
    · intro K i conti hi hnn
      rcases hlook i conti hi with h1 | rfl
      · exact hs.2 K i conti h1 hnn
      · simp [newContainer, Value.isNil] at hnn
  unfold NewContainer
  cases opts with
  | none => exact h0
  | some o =>
    dsimp only
    have h1 := forEach_all_mem (fun s1 => StateOk s1.containers)
      (appendImport s.containers.length) o.Imports
      (fun a ha s1 hs1 => appendImport_ok _ a s1
        (fun i hi => hvalid i (by rw [← hi]; exact ha)) hs1)
      { s with containers := s.containers ++ [newContainer] } h0
    simp only [newContainer] at h1
    split
    · rename_i heq; rw [heq] at h1; exact h1
    · trivial
    · rename_i u s1 heq
      rw [heq] at h1
      have h2 := forEach_all (fun s2 => StateOk s2.containers)
        (fun p => Provide s.containers.length (.str p.Name) p.Factory)
        (fun a s2 hs2 => Provide_ok _ _ _ s2 hs2) o.ByName s1 h1
      split
      · rename_i heq; rw [heq] at h2; exact h2
      · trivial
      · rename_i u2 s2 heq2
        rw [heq2] at h2
        have h3 := forEach_all (fun s3 => StateOk s3.containers)
          (fun p => Provide s.containers.length p.Provide p.Factory)
          (fun a s3 hs3 => Provide_ok _ _ _ s3 hs3) o.ByInterface s2 h2
        split
        · rename_i heq; rw [heq] at h3; exact h3
        · trivial
        · rename_i u3 s3 heq3
          rw [heq3] at h3
          have h4 := forEach_all (fun s4 => StateOk s4.containers)
            (fun f => ProvideByFactory s.containers.length f)
            (fun a s4 hs4 => ProvideByFactory_ok _ _ s4 hs4) o.ByFactories s3 h3
          split
          · rename_i heq; rw [heq] at h4; exact h4
          · trivial
          · rename_i u4 s4 heq4; rw [heq4] at h4; exact h4

/-- The method `get` keeps the two properties, also when it panics. -/
theorem get_ok (fuel c : Nat) (dep : Value) (s : State) (hs : StateOk s.containers) :
    (get fuel c dep s).All (fun s1 => StateOk s1.containers) := by
  apply get_all c (fun s1 => StateOk s1.containers) _ fuel dep s hs
  refine ⟨fun _ _ h => h, fun _ k _ _ => ⟨fun _ h => h, ?_⟩⟩
  intro s2 v h1 err hs2 hset
  rcases SetInstance_cases _ _ _ _ _ _ hset with ⟨rfl, _, _⟩ | ⟨o, hown, rfl, _⟩
  · exact hs2
  · have hag := ownerAgrees_aux s2.containers k (s2.containers.length + 1) c
    unfold findOwner at hown
    simp only [hown, OwnerAgrees] at hag
    obtain ⟨co, hco, hfo, _, _⟩ := hag
    show StateOk (storeAt s2.containers o k v)
    simp only [storeAt, hco]
    apply stateOk_of_set _ hs2
    · exact hs2.1 o co hco
    · intro K hnn
      by_cases hKk : K = k
      · subst hKk
        exact hfo
      · simp only [setKey, hKk, if_false] at hnn
        exact hs2.2 K o co hco hnn

/-- Every operation keeps the two properties. -/
theorem Op.exec_ok (op : Op) (s s1 : State) (hvalid : op.valid s) (h : op.exec s = some s1)
    (hs : StateOk s.containers) : StateOk s1.containers := by
  cases op with
  | newContainer opts => exact Outcome.all_of_state _ _ _ (NewContainer_ok opts s hvalid hs) h
  | provide c dep f => exact Outcome.all_of_state _ _ _ (Provide_ok c dep f s hs) h
  | provideByName c depName f =>
    exact Outcome.all_of_state _ _ _ (Provide_ok c (.str depName) f s hs) h
  | provideByInterface c dep f => exact Outcome.all_of_state _ _ _ (Provide_ok c dep f s hs) h
  | provideByFactory c f => exact Outcome.all_of_state _ _ _ (ProvideByFactory_ok c f s hs) h
  | run c => exact Outcome.all_of_state _ _ _ (Run_ok c s hs) h
  | get fuel c dep => exact Outcome.all_of_state _ _ _ (get_ok fuel c dep s hs) h

/-- In every state that a program reaches, imports point to earlier containers and
instances are held by owners only. -/
theorem Reach.stateOk {s : State} (h : Reach emptyState s) : StateOk s.containers := by
  have hgen : ∀ s0 s1, Reach s0 s1 → StateOk s0.containers → StateOk s1.containers := by
    intro s0 s1 hr
    induction hr with
    | refl => exact fun h0 => h0
    | step s1 s2 op _ hvalid hop ih => exact fun h0 => Op.exec_ok op s1 s2 hvalid hop (ih h0)
  apply hgen emptyState s h
  constructor
  · intro c cont hc
    simp [emptyState] at hc
  · intro K i cont hi
    simp [emptyState] at hi
/-- The state of the scenario is reached by two calls of `NewContainer`. -/
theorem reach_scenarioState : Reach emptyState (scenarioState "V") := by
  refine Reach.step _ _ _ (.newContainer (some loggerOpts))
    (Reach.step _ _ _ (.newContainer (some (clockOpts "V"))) (Reach.refl _) ?_ rfl) ?_ rfl
  · intro i hi
    simp [clockOpts, noOpts] at hi
  · intro i hi
    simp only [loggerOpts, noOpts, List.mem_singleton, Option.some.injEq] at hi
    subst hi
    decide

/-- The state `sharedState` is reached by three calls of `NewContainer`. -/
theorem reach_sharedState : Reach emptyState sharedState := by
  refine Reach.step _ _ _ (.newContainer (some childOpts))
    (Reach.step _ _ _ (.newContainer (some childOpts))
      (Reach.step _ _ _ (.newContainer (some (clockOpts "V"))) (Reach.refl _) ?_ rfl) ?_ rfl)
    ?_ rfl
  · intro i hi
    simp [clockOpts, noOpts] at hi
  · intro i hi
    simp only [childOpts, noOpts, List.mem_singleton, Option.some.injEq] at hi
    subst hi
    decide
  · intro i hi
    simp only [childOpts, noOpts, List.mem_singleton, Option.some.injEq] at hi
    subst hi
    decide

/-- Claim C10: in every state that a program reaches, `SetInstance(K, v)` on a
container `C` returns; it returns an error exactly when no container of the import
closure of `C` (`C` itself and the containers reached along imports) has a
factory for `K`, and then no container has been changed. -/
theorem SetInstance_error_iff (s : State) (hreach : Reach emptyState s) (c : Nat)
    (hc : c < s.containers.length) (k : String) (v : Value) :
    ∃ h1 err, SetInstance s.containers c k v = some (h1, err) ∧
      (err ≠ none ↔ ∀ j cont, InClosure s.containers c j →
        s.containers[j]? = some cont → cont.factories k = none) ∧
      (err ≠ none → h1 = s.containers) :=
  SetInstance_error_iff_wf s.containers hreach.stateOk.1 c hc k v

/-- Witness of `SetInstance_error_iff`: in the scenario, `SetInstance` on C2 for a key
that nobody registers returns the error. -/
theorem SetInstance_error_iff_witness :
    SetInstance (scenarioState "V").containers 1 "app.Nobody" (.scalar clockT "V")
      = some ((scenarioState "V").containers, some "failed to set instance") ∧
    ∃ h1 err, SetInstance (scenarioState "V").containers 1 "app.Nobody" (.scalar clockT "V")
        = some (h1, err) ∧
      (err ≠ none ↔ ∀ j cont, InClosure (scenarioState "V").containers 1 j →
        (scenarioState "V").containers[j]? = some cont → cont.factories "app.Nobody" = none) ∧
      (err ≠ none → h1 = (scenarioState "V").containers) :=
  ⟨rfl, SetInstance_error_iff (scenarioState "V") reach_scenarioState 1 (by decide)
    "app.Nobody" (.scalar clockT "V")⟩

/-- Claim C4, as the code has it: in a state that a program reaches and in which only
`P` registers `K`, a `get(K)` on any container `c1` that returns, followed by
`get(K)` on a container `c2` that has `P` among its imports, gives the same
instance; that instance is in the store of `P` and of no other container, and
the second `get` returns it from the cache check without calling a factory. The
factory of `P` for `K` is called exactly once by the first `get` when that found
no instance and the resolution of the arguments of the factory did not call it. -/
theorem get_shares_parent_instance (n c1 c2 P : Nat) (dep : Value) (K : String)
    (s s1 : State) (v : Value) (cp cont2 : Container) (fnP : Func)
    (hK : getDepName dep = .ok K) (hreach : Reach emptyState s)
    (honly : OnlyOwner s.containers P K)
    (hP : s.containers[P]? = some cp) (hfP : cp.factories K = some fnP)
    (hc2 : s.containers[c2]? = some cont2) (h2P : P ∈ cont2.imports)
    (hget : get (n + 1) c1 dep s = .ret v s1) :
    v.isNil = false ∧ (∀ m, get (m + 1) c2 dep s1 = .ret v s1) ∧
    (∃ cp1, s1.containers[P]? = some cp1 ∧ cp1.instances K = v) ∧
    (∀ i conti, i ≠ P → s1.containers[i]? = some conti → (conti.instances K).isNil = true) ∧
    (∀ inst vals sA, GetInstance s.containers c1 K = some inst → inst.isNil = true →
      resolveArgs (get n c1) fnP.ins s = .ret vals sA →
      sA.calls.count K = s.calls.count K →
      s1.calls.count K = s.calls.count K + 1) :=
  get_shares_parent_instance_inv n c1 c2 P dep K s s1 v cp cont2 fnP hK hreach.stateOk.1
    (hreach.stateOk.2 K) honly hP hfP hc2 h2P hget

/-- Witness of `get_shares_parent_instance`: the two children of `sharedState` resolve
`app.Clock` one after the other. -/
theorem get_shares_parent_instance_witness :
    get 2 1 (.str "app.Clock") sharedState
      = .ret (.scalar clockT "V") (get 2 1 (.str "app.Clock") sharedState).stateD ∧
    get 2 2 (.str "app.Clock") (get 2 1 (.str "app.Clock") sharedState).stateD
      = .ret (.scalar clockT "V") (get 2 1 (.str "app.Clock") sharedState).stateD :=
  ⟨rfl, (get_shares_parent_instance 1 1 2 0 (.str "app.Clock") "app.Clock" sharedState
    (get 2 1 (.str "app.Clock") sharedState).stateD (.scalar clockT "V")
    { imports := [], factories := setKey (fun _ => none) "app.Clock" (some (clockFactory "V")),
      instances := fun _ => Value.nil, timeout := defaultTimeout, running := false }
    { imports := [0], factories := fun _ => none,
      instances := fun _ => Value.nil, timeout := defaultTimeout, running := false }
    (clockFactory "V") rfl reach_sharedState
    (sharedState_onlyOwner "app.Clock") rfl rfl rfl (List.mem_singleton.mpr rfl) rfl).2.1 1⟩

/-! ## Instances stay with owners -/

/-- The state `scenarioAfter` is reached from the scenario by one `get`. -/
theorem reach_scenarioAfter : Reach emptyState (scenarioAfter "V") :=
  Reach.step _ _ _ (.get 3 1 (.str "app.Logger")) reach_scenarioState trivial rfl

/-- Claim C14: in every state that a program reaches through `NewContainer`,
`Provide*`, `Run` and `get`, a container whose instance store holds an instance
for a key has a factory for that key in its own registry. -/
theorem instances_only_in_owners (s : State) (hreach : Reach emptyState s) (i : Nat)
    (cont : Container) (K : String) (hi : s.containers[i]? = some cont)
    (hinst : (cont.instances K).isNil = false) : (cont.factories K).isSome = true :=
  hreach.stateOk.2 K i cont hi hinst

/-- Witness of `instances_only_in_owners`: after the logger of the scenario was
resolved, C1 holds the clock and has the clock factory. -/
theorem instances_only_in_owners_witness :
    ∃ cont, (scenarioAfter "V").containers[0]? = some cont ∧
      (cont.instances "app.Clock").isNil = false ∧
      (cont.factories "app.Clock").isSome = true :=
  ⟨{ imports := [],
     factories := setKey (fun _ => none) "app.Clock" (some (clockFactory "V")),
     instances := setKey (fun _ => Value.nil) "app.Clock" (.scalar clockT "V"),
     timeout := defaultTimeout, running := false }, rfl, rfl,
    instances_only_in_owners (scenarioAfter "V") reach_scenarioAfter 0 _ "app.Clock" rfl rfl⟩

/-! ## The import graph -/

/-- When imports point to earlier containers, the import closure of a container
holds the container and earlier containers only. -/
theorem inClosure_le (h : List Container) (hwf : WellFormed h) (c j : Nat)
    (hcl : InClosure h c j) : j ≤ c := by
  induction hcl with
  | self c => exact Nat.le_refl c
  | step c i j cont hc hi _ ih =>
    have := hwf c cont hc i hi
    omega

/-- Replacing a container by one with the same imports keeps the imports. -/
theorem keepsImports_set (h : List Container) (c : Nat) (cont cont1 : Container)
    (hc : h[c]? = some cont) (himp : cont1.imports = cont.imports) :
    KeepsImports h (h.set c cont1) := by
  intro i conti hi
  by_cases hic : i = c
  · subst hic
    rw [hc] at hi
    cases hi
    have hlt : i < h.length := by
      by_contra hge
      rw [List.getElem?_eq_none (by omega)] at hc
      cases hc
    exact ⟨cont1, List.getElem?_set_self hlt, himp⟩
  · exact ⟨conti, by rw [List.getElem?_set_ne (Ne.symm hic)]; exact hi, rfl⟩

/-- Every list of containers keeps its own imports. -/
theorem keepsImports_refl (h : List Container) : KeepsImports h h :=
  fun _ cont hc => ⟨cont, hc, rfl⟩

/-- Keeping the imports is transitive. -/
theorem keepsImports_trans {h h1 h2 : List Container} (h01 : KeepsImports h h1)
    (h12 : KeepsImports h1 h2) : KeepsImports h h2 := by
  intro c cont hc
  obtain ⟨cont1, hc1, hi1⟩ := h01 c cont hc
  obtain ⟨cont2, hc2, hi2⟩ := h12 c cont1 hc1
  exact ⟨cont2, hc2, hi2.trans hi1⟩

/-- The method `Provide` changes no list of imports. -/
theorem Provide_keepsImports (c : Nat) (dep : Value) (f : FactoryFunc) (s : State) :
    (Provide c dep f s).All (fun s1 => KeepsImports s.containers s1.containers) := by
  unfold Provide
  split
  · exact keepsImports_refl _
  · rename_i cont hc
    split
    · exact keepsImports_refl _
    · split
      · exact keepsImports_refl _
      · split
        · exact keepsImports_refl _
        · rename_i depName _
          split
          · exact keepsImports_refl _
          · show KeepsImports s.containers (s.containers.set c _)
            exact keepsImports_set _ _ cont
              { cont with factories := setKey cont.factories depName f } hc rfl

/-- The method `Run` changes no list of imports. -/
theorem Run_keepsImports (c : Nat) (s : State) :
    (Run c s).All (fun s1 => KeepsImports s.containers s1.containers) := by
  unfold Run
  split
  · exact keepsImports_refl _
  · rename_i cont hc
    split
    · exact keepsImports_refl _
    · show KeepsImports s.containers (s.containers.set c _)
      exact keepsImports_set _ _ cont { cont with running := true } hc rfl

/-- The method `get` changes no list of imports. -/
theorem get_keepsImports (fuel c : Nat) (dep : Value) (s : State) :
    (get fuel c dep s).All (fun s1 => KeepsImports s.containers s1.containers) := by
  apply get_all c (fun s1 => KeepsImports s.containers s1.containers) _ fuel dep s
    (keepsImports_refl _)
  refine ⟨fun _ _ hs => hs, fun _ k _ _ => ⟨fun _ hs => hs, ?_⟩⟩
  intro s2 v h1 err hs hset
  rcases SetInstance_cases _ _ _ _ _ _ hset with ⟨rfl, _, _⟩ | ⟨o1, _, rfl, _⟩
  · exact hs
  · apply keepsImports_trans hs
    unfold storeAt
    split
    · exact keepsImports_refl _
    · rename_i co hco
      exact keepsImports_set _ _ co { co with instances := setKey co.instances k v } hco rfl

/-- A step on container `c` that leaves the other containers as they are keeps the
property that the containers before `c` are those of `h`. -/
theorem earlier_kept_of_set (h : List Container) (s : State) (c : Nat) (cont1 : Container)
    (hlen : h.length ≤ c) (hs : ∀ i, i < h.length → s.containers[i]? = h[i]?) :
    ∀ i, i < h.length → (s.containers.set c cont1)[i]? = h[i]? := by
  intro i hi
  rw [List.getElem?_set_ne (by omega)]
  exact hs i hi

/-- The method `Provide` on a container allocated after those of `h` leaves the
containers of `h` as they are. -/
theorem Provide_keeps_earlier (h : List Container) (c : Nat) (hlen : h.length ≤ c) (dep : Value)
    (f : FactoryFunc) (s : State) (hs : ∀ i, i < h.length → s.containers[i]? = h[i]?) :
    (Provide c dep f s).All (fun s1 => ∀ i, i < h.length → s1.containers[i]? = h[i]?) := by
  unfold Provide
  split
  · exact hs
  · split
    · exact hs
    · split
      · exact hs
      · split
        · exact hs
        · split
          · exact hs
          · exact earlier_kept_of_set h s c _ hlen hs

/-- The method `ProvideByFactory` on a container allocated after those of `h` leaves
the containers of `h` as they are. -/
theorem ProvideByFactory_keeps_earlier (h : List Container) (c : Nat) (hlen : h.length ≤ c)
    (f : FactoryFunc) (s : State) (hs : ∀ i, i < h.length → s.containers[i]? = h[i]?) :
    (ProvideByFactory c f s).All (fun s1 => ∀ i, i < h.length → s1.containers[i]? = h[i]?) := by
  unfold ProvideByFactory
  split
  · exact hs
  · exact Provide_keeps_earlier h c hlen _ f s hs

/-- The body of the loop over the imports of a container allocated after those of `h`
leaves the containers of `h` as they are. -/
theorem appendImport_keeps_earlier (h : List Container) (c : Nat) (hlen : h.length ≤ c)
    (a : Option Nat) (s : State) (hs : ∀ i, i < h.length → s.containers[i]? = h[i]?) :
    (appendImport c a s).All (fun s1 => ∀ i, i < h.length → s1.containers[i]? = h[i]?) := by
  unfold appendImport
  split
  · exact hs
  · split
    · exact hs
    · exact earlier_kept_of_set h s c _ hlen hs

/-- The function `NewContainer` leaves the containers that exist as they are. -/
theorem NewContainer_keeps_earlier (opts : Option ContainerOpts) (s : State) :
    (NewContainer opts s).All
      (fun s1 => ∀ i, i < s.containers.length → s1.containers[i]? = s.containers[i]?) := by
  have h0 : ∀ i, i < s.containers.length →
      (s.containers ++ [newContainer])[i]? = s.containers[i]? :=
    fun i hi => List.getElem?_append_left hi
  unfold NewContainer
  cases opts with
  | none => exact h0
  | some o =>
    dsimp only
    have h1 := forEach_all
      (fun s1 => ∀ i, i < s.containers.length → s1.containers[i]? = s.containers[i]?)
      (appendImport s.containers.length)
      (fun a s1 hs1 => appendImport_keeps_earlier s.containers _ (Nat.le_refl _) a s1 hs1) o.Imports
      { s with containers := s.containers ++ [newContainer] } h0
    simp only [newContainer] at h1
    split
    · rename_i heq; rw [heq] at h1; exact h1
    · trivial
    · rename_i u s1 heq
      rw [heq] at h1
      have h2 := forEach_all
        (fun s2 => ∀ i, i < s.containers.length → s2.containers[i]? = s.containers[i]?)
        (fun p => Provide s.containers.length (.str p.Name) p.Factory)
        (fun a s2 hs2 => Provide_keeps_earlier s.containers _ (Nat.le_refl _) _ _ s2 hs2) o.ByName s1 h1
      split
      · rename_i heq; rw [heq] at h2; exact h2
      · trivial
      · rename_i u2 s2 heq2
        rw [heq2] at h2
        have h3 := forEach_all
          (fun s3 => ∀ i, i < s.containers.length → s3.containers[i]? = s.containers[i]?)
          (fun p => Provide s.containers.length p.Provide p.Factory)
          (fun a s3 hs3 => Provide_keeps_earlier s.containers _ (Nat.le_refl _) _ _ s3 hs3)
          o.ByInterface s2 h2
        split
        · rename_i heq; rw [heq] at h3; exact h3
        · trivial
        · rename_i u3 s3 heq3
          rw [heq3] at h3
          have h4 := forEach_all
            (fun s4 => ∀ i, i < s.containers.length → s4.containers[i]? = s.containers[i]?)
            (fun f => ProvideByFactory s.containers.length f)
            (fun a s4 hs4 => ProvideByFactory_keeps_earlier s.containers _ (Nat.le_refl _) _ s4 hs4)
            o.ByFactories s3 h3
          split
          · rename_i heq; rw [heq] at h4; exact h4
          · trivial
          · rename_i u4 s4 heq4; rw [heq4] at h4; exact h4

/-- Containers that are left as they are keep their imports. -/
theorem keepsImports_of_earlier (h h1 : List Container)
    (hp : ∀ i, i < h.length → h1[i]? = h[i]?) : KeepsImports h h1 := by
  intro c cont hc
  have hlt : c < h.length := by
    by_contra hge
    rw [List.getElem?_eq_none (by omega)] at hc
    cases hc
  exact ⟨cont, by rw [hp c hlt]; exact hc, rfl⟩

/-- An outcome with a state has the properties of all outcomes, also under a
consequence. -/
theorem Outcome.all_mono {α : Type} (Q Q1 : State → Prop) (o : Outcome α)
    (hq : ∀ s, Q s → Q1 s) (ho : o.All Q) : o.All Q1 := by
  cases o with
  | diverge => trivial
  | panic msg s1 => exact hq s1 ho
  | ret a s1 => exact hq s1 ho

/-- No operation changes the imports of a container that exists. -/
theorem Op.exec_keepsImports (op : Op) (s s1 : State) (h : op.exec s = some s1) :
    KeepsImports s.containers s1.containers := by
  cases op with
  | newContainer opts =>
    exact Outcome.all_of_state _ _ _
      (Outcome.all_mono _ _ _ (fun s2 hs2 => keepsImports_of_earlier _ _ hs2)
        (NewContainer_keeps_earlier opts s)) h
  | provide c dep f => exact Outcome.all_of_state _ _ _ (Provide_keepsImports c dep f s) h
  | provideByName c depName f =>
    exact Outcome.all_of_state _ _ _ (Provide_keepsImports c (.str depName) f s) h
  | provideByInterface c dep f =>
    exact Outcome.all_of_state _ _ _ (Provide_keepsImports c dep f s) h
  | provideByFactory c f =>
    have hpf : (ProvideByFactory c f s).All
        (fun s2 => KeepsImports s.containers s2.containers) := by
      unfold ProvideByFactory
      split
      · exact keepsImports_refl _
      · exact Provide_keepsImports _ _ _ _
    exact Outcome.all_of_state _ _ _ hpf h
  | run c => exact Outcome.all_of_state _ _ _ (Run_keepsImports c s) h
  | get fuel c dep => exact Outcome.all_of_state _ _ _ (get_keepsImports fuel c dep s) h

/-- No sequence of operations changes the imports of a container that exists. -/
theorem Reach.keepsImports {s s1 : State} (h : Reach s s1) :
    KeepsImports s.containers s1.containers := by
  induction h with
  | refl => exact keepsImports_refl _
  | step s1 s2 op _ _ hop ih => exact keepsImports_trans ih (Op.exec_keepsImports op s1 s2 hop)

/-- The three searches return on containers whose imports point to earlier
containers. -/
theorem searches_return_wf (h : List Container) (hwf : WellFormed h) (c : Nat)
    (hc : c < h.length) (k : String) :
    (∃ inst, GetInstance h c k = some inst) ∧ (∃ f, GetFactory h c k = some f) ∧
    ∀ v, ∃ h1 err, SetInstance h c k v = some (h1, err) := by
  have hag := ownerAgrees_aux h k (h.length + 1) c
  have hret := findOwnerAux_returns h hwf k (h.length + 1) c (by omega) hc
  refine ⟨GetInstanceAux_returns h hwf k (h.length + 1) c (by omega) hc, ?_, ?_⟩
  · cases ho : findOwnerAux (h.length + 1) h c k with
    | none => exact absurd ho hret
    | some x =>
      cases x with
      | none =>
        simp only [ho, OwnerAgrees] at hag
        exact ⟨_, hag.1⟩
      | some o =>
        simp only [ho, OwnerAgrees] at hag
        obtain ⟨cont, _, _, hrf, _⟩ := hag
        exact ⟨_, hrf⟩
  · intro v
    cases ho : findOwnerAux (h.length + 1) h c k with
    | none => exact absurd ho hret
    | some x =>
      cases x with
      | none =>
        simp only [ho, OwnerAgrees] at hag
        exact ⟨_, _, hag.2 v⟩
      | some o =>
        simp only [ho, OwnerAgrees] at hag
        obtain ⟨cont, _, _, _, hrs⟩ := hag
        exact ⟨_, _, hrs v⟩

/-- Claim C19: in every state that a program reaches, every import of a container
was allocated before the container, so no container is in the import closure of
one of its imports (the import graph has no cycle); the imports of a container
that exists are the same in every state reached later; and `GetInstance`,
`GetFactory` and `SetInstance` return for every container and every key. -/
theorem import_graph_acyclic (s : State) (hreach : Reach emptyState s) :
    (∀ (c : Nat) (cont : Container) (i : Nat), s.containers[c]? = some cont →
      i ∈ cont.imports → i < c ∧ ¬ InClosure s.containers i c) ∧
    (∀ s1, Reach s s1 → ∀ (c : Nat) (cont : Container), s.containers[c]? = some cont →
      ∃ cont1 : Container, s1.containers[c]? = some cont1 ∧ cont1.imports = cont.imports) ∧
    (∀ c k, c < s.containers.length →
      (∃ inst, GetInstance s.containers c k = some inst) ∧
      (∃ f, GetFactory s.containers c k = some f) ∧
      ∀ v, ∃ h1 err, SetInstance s.containers c k v = some (h1, err)) := by
  have hwf := hreach.stateOk.1
  refine ⟨?_, fun s1 hr => hr.keepsImports, fun c k hc => searches_return_wf _ hwf c hc k⟩
  intro c cont i hc hi
  have hic := hwf c cont hc i hi
  refine ⟨hic, fun hcl => ?_⟩
  have := inClosure_le _ hwf i c hcl
  omega

/-- Witness of `import_graph_acyclic`: in the scenario, the searches for the clock on
C2 return. -/
theorem import_graph_acyclic_witness :
    (∃ inst, GetInstance (scenarioAfter "V").containers 1 "app.Clock" = some inst) ∧
    (∃ f, GetFactory (scenarioAfter "V").containers 1 "app.Clock" = some f) ∧
    ∀ v, ∃ h1 err, SetInstance (scenarioAfter "V").containers 1 "app.Clock" v = some (h1, err) :=
  (import_graph_acyclic (scenarioAfter "V") reach_scenarioAfter).2.2 1 "app.Clock" (by decide)
/-! ## Names and type keys -/

/-- Every key that `getFullDepPath` gives contains a dot. -/
theorem dot_mem_getFullDepPath (t : GoType) : '.' ∈ (getFullDepPath t).data := by
  simp [getFullDepPath, String.data_append]

/-- Every key that `getFactoryReturnDepName` gives contains a dot. -/
theorem dot_mem_factory_key (f : FactoryFunc) (k : String)
    (hk : getFactoryReturnDepName f = .ok k) : '.' ∈ k.data := by
  unfold getFactoryReturnDepName at hk
  split at hk
  · cases hk
  · split at hk
    · cases hk
    · simp only [Except.ok.injEq] at hk
      rw [← hk]
      exact dot_mem_getFullDepPath _

/-- The method `Provide` with a name without a dot panics and changes nothing. -/
theorem Provide_dotless_panics (name : String) (hname : '.' ∉ name.data) (f : FactoryFunc)
    (c : Nat) (s : State) : ∃ msg, Provide c (.str name) f s = .panic msg s := by
  unfold Provide
  split
  · exact ⟨_, rfl⟩
  · split
    · exact ⟨_, rfl⟩
    · split
      · exact ⟨_, rfl⟩
      · rename_i u hchk
        exfalso
        unfold checkFactory at hchk
        cases hgf : getFactoryReturnDepName f with
        | error e => simp [hgf] at hchk
        | ok got =>
          simp only [hgf, getDepName] at hchk
          split at hchk
          · cases hchk
          · rename_i hne
            simp only [bne_iff_ne, ne_eq, not_not] at hne
            subst hne
            exact hname (dot_mem_factory_key f got hgf)

/-- Claim C20: every key derived from a type, and so every key that
`getFactoryReturnDepName` gives, contains the character `.`; for every name
without `.` and every factory, `Provide` and `ProvideByName` panic and leave the
state as it is, with the message of the return-type check when the container is
not running and the factory has a result; and a `Provide` by name that returns
was given the key of the first result type of its factory as the name. -/
theorem name_without_dot_is_refused :
    (∀ t : GoType, '.' ∈ (getFullDepPath t).data) ∧
    (∀ (f : FactoryFunc) (k : String), getFactoryReturnDepName f = .ok k → '.' ∈ k.data) ∧
    (∀ (name : String) (f : FactoryFunc) (c : Nat) (s : State), '.' ∉ name.data →
      (∃ msg, Provide c (.str name) f s = .panic msg s) ∧
      (∃ msg, ProvideByName c name f s = .panic msg s) ∧
      (∀ (cont : Container) (k : String), s.containers[c]? = some cont →
        cont.running = false → getFactoryReturnDepName f = .ok k →
        Provide c (.str name) f s
          = .panic ("wrong return type in factory for \"" ++ name ++ "\" dependency, got \""
              ++ k ++ "\"") s)) ∧
    (∀ (name : String) (f : FactoryFunc) (c : Nat) (s s1 : State),
      Provide c (.str name) f s = .ret () s1 → getFactoryReturnDepName f = .ok name) := by
  refine ⟨dot_mem_getFullDepPath, dot_mem_factory_key, ?_, ?_⟩
  · intro name f c s hname
    refine ⟨Provide_dotless_panics name hname f c s, Provide_dotless_panics name hname f c s, ?_⟩
    intro cont k hc hrun hk
    have hne : k ≠ name := by
      intro h
      subst h
      exact hname (dot_mem_factory_key f k hk)
    simp [Provide, hc, hrun, checkFactory, hk, getDepName, hne, wrongReturnType]
  · intro name f c s s1 hp
    obtain ⟨_, K, _, _, _, hd, _, hk, _, _⟩ := Provide_ret c (.str name) f s s1 hp
    simp only [getDepName, Except.ok.injEq] at hd
    rw [hd]
    exact hk

/-- Witness of `name_without_dot_is_refused`: the name `clock` for the clock factory
on a fresh container. -/
theorem name_without_dot_is_refused_witness :
    Provide 0 (.str "clock") (some (clockFactory "V")) freshState
      = .panic ("wrong return type in factory for \"" ++ "clock" ++ "\" dependency, got \""
          ++ "app.Clock" ++ "\"") freshState :=
  (name_without_dot_is_refused.2.2.1 "clock" (some (clockFactory "V")) 0 freshState
    (by decide)).2.2 newContainer "app.Clock" rfl rfl rfl

/-! ## Two imports that register the same key -/

/-- The state `twoOwnersState` is reached by operations of the package. -/
theorem reach_twoOwnersState : Reach emptyState twoOwnersState := by
  refine Reach.step _ _ _ (.get 2 1 (.str "app.Clock"))
    (Reach.step _ _ _ (.newContainer (some { noOpts with Imports := [some 0, some 1] }))
      (Reach.step _ _ _ (.newContainer (some (clockOpts "two")))
        (Reach.step _ _ _ (.newContainer (some (clockOpts "one"))) (Reach.refl _) ?_ rfl)
        ?_ rfl) ?_ rfl) trivial rfl
  · intro i hi
    simp [clockOpts, noOpts] at hi
  · intro i hi
    simp [clockOpts, noOpts] at hi
  · intro i hi
    simp only [noOpts, List.mem_cons, Option.some.injEq, List.mem_singleton, List.not_mem_nil,
      or_false] at hi
    rcases hi with rfl | rfl <;> decide

/-- Claim C18 fails on the code: when the first and the second import of a container
both register `app.Clock` and only the second holds an instance, `GetInstance`
on the container returns the instance of the second import, while `GetFactory`
takes the factory of the first import and `SetInstance` writes into the first
import. So `get` on the container returns `"two"` now, and `"one"` once the
first import has resolved the key itself. -/
theorem GetInstance_disagrees_with_owner :
    twoOwnersState.containers.map (fun ct => (ct.factories "app.Clock").isSome)
      = [true, true, false] ∧
    twoOwnersState.containers.map (fun ct => ct.imports) = [[], [], [0, 1]] ∧
    twoOwnersState.containers.map (fun ct => ct.instances "app.Clock")
      = [.nil, .scalar clockT "two", .nil] ∧
    GetInstance twoOwnersState.containers 2 "app.Clock" = some (.scalar clockT "two") ∧
    findOwner twoOwnersState.containers 2 "app.Clock" = some (some 0) ∧
    GetFactory twoOwnersState.containers 2 "app.Clock" = some (some (clockFactory "one")) ∧
    (SetInstance twoOwnersState.containers 2 "app.Clock" (.scalar clockT "new")).map
        (fun r => (r.1.map (fun ct => ct.instances "app.Clock"), r.2))
      = some ([.scalar clockT "new", .scalar clockT "two", .nil], none) ∧
    get 2 2 (.str "app.Clock") twoOwnersState = .ret (.scalar clockT "two") twoOwnersState ∧
    get 2 2 (.str "app.Clock") (get 2 0 (.str "app.Clock") twoOwnersState).stateD
      = .ret (.scalar clockT "one") (get 2 0 (.str "app.Clock") twoOwnersState).stateD := by
  refine ⟨rfl, rfl, rfl, rfl, rfl, rfl, rfl, rfl, rfl⟩

/-! ## Factories that take each other's result -/

/-- The argument loop does not return when the resolution of one parameter does not
return in any state that has a property which `get` keeps. -/
theorem resolveArgs_blocked (Q : State → Prop) (getF : Value → State → Outcome Value)
    (hall : ∀ d s, Q s → (getF d s).All Q) (t : GoType)
    (hblock : ∀ s, Q s → ∀ v s1, getF (.str (getFullDepPath t)) s ≠ .ret v s1)
    (pre post : List GoType) (s : State) (hs : Q s) (vals : List Value) (s1 : State) :
    resolveArgs getF (pre ++ t :: post) s ≠ .ret vals s1 := by
  induction pre generalizing s vals s1 with
  | nil =>
    simp only [List.nil_append, resolveArgs]
    cases hg : getF (.str (getFullDepPath t)) s with
    | diverge => simp
    | panic msg s2 => simp
    | ret v s2 => exact absurd hg (hblock s hs v s2)
  | cons a rest ih =>
    simp only [List.cons_append, resolveArgs]
    have ha := hall (.str (getFullDepPath a)) s hs
    cases hg : getF (.str (getFullDepPath a)) s with
    | diverge => simp
    | panic msg s2 => simp
    | ret v s2 =>
      rw [hg] at ha
      dsimp only
      cases hr : resolveArgs getF (rest ++ t :: post) s2 with
      | diverge => simp
      | panic msg s3 => simp
      | ret vals2 s3 => exact absurd hr (ih s2 ha vals2 s3)

/-- A `callFunc` whose argument loop does not return gives the outcome of the loop. -/
theorem callFunc_of_args_not_ret (Q : State → Prop) (getF : Value → State → Outcome Value)
    (hall : ∀ d s, Q s → (getF d s).All Q) (fn : Func) (k : String) (s : State) (hs : Q s)
    (hnr : ∀ vals s1, resolveArgs getF fn.ins s ≠ .ret vals s1) :
    (callFunc getF (some fn) k s).All Q ∧ ∀ r s1, callFunc getF (some fn) k s ≠ .ret r s1 := by
  have h1 := resolveArgs_all Q getF hall fn.ins s hs
  simp only [callFunc]
  cases hr : resolveArgs getF fn.ins s with
  | diverge => exact ⟨trivial, fun _ _ => by simp⟩
  | panic msg s1 =>
    rw [hr] at h1
    exact ⟨h1, fun _ _ => by simp⟩
  | ret vals s1 => exact absurd hr (hnr vals s1)

/-- With two factories that take each other's result and no instance for either key,
every `get` on the container keeps the stores of both keys and calls neither
factory, and a `get` of one of the two keys does not return. -/
theorem get_param_cycle (c : Nat) (K L : String) (s : State) (fK fL : Func)
    (iK iL : Value) (tK tL : GoType) (preK postK preL postL : List GoType)
    (hiK : GetInstance s.containers c K = some iK) (hnK : iK.isNil = true)
    (hiL : GetInstance s.containers c L = some iL) (hnL : iL.isNil = true)
    (hfK : GetFactory s.containers c K = some (some fK))
    (hfL : GetFactory s.containers c L = some (some fL))
    (hinK : fK.ins = preK ++ tL :: postK) (htL : getFullDepPath tL = L)
    (hinL : fL.ins = preL ++ tK :: postL) (htK : getFullDepPath tK = K)
    (fuel : Nat) (d : Value) (s1 : State)
    (hs1 : ColRel K none s.containers s1.containers ∧ ColRel L none s.containers s1.containers ∧
      s1.calls.count K = s.calls.count K ∧ s1.calls.count L = s.calls.count L) :
    (get fuel c d s1).All (fun s2 =>
      ColRel K none s.containers s2.containers ∧ ColRel L none s.containers s2.containers ∧
      s2.calls.count K = s.calls.count K ∧ s2.calls.count L = s.calls.count L) ∧
    (∀ k, getDepName d = .ok k → k = K ∨ k = L → ∀ v s2, get fuel c d s1 ≠ .ret v s2) := by
  induction fuel generalizing d s1 with
  | zero => exact ⟨trivial, fun _ _ _ _ _ => by simp [get]⟩
  | succ n ih =>
    have hall : ∀ d2 s2, (ColRel K none s.containers s2.containers ∧
        ColRel L none s.containers s2.containers ∧
        s2.calls.count K = s.calls.count K ∧ s2.calls.count L = s.calls.count L) →
        (get n c d2 s2).All (fun s3 =>
          ColRel K none s.containers s3.containers ∧ ColRel L none s.containers s3.containers ∧
          s3.calls.count K = s.calls.count K ∧ s3.calls.count L = s.calls.count L) :=
      fun d2 s2 h2 => (ih d2 s2 h2).1
    simp only [get]
    cases hd : getDepName d with
    | error e => exact ⟨hs1, fun _ _ _ _ _ => by simp⟩
    | ok k =>
      dsimp only
      cases hi : GetInstance s1.containers c k with
      | none => exact ⟨trivial, fun _ _ _ _ _ => by simp⟩
      | some inst =>
        dsimp only
        by_cases hnil : inst.isNil = true
        · simp only [hnil, if_true]
          cases hf : GetFactory s1.containers c k with
          | none => exact ⟨trivial, fun _ _ _ _ _ => by simp⟩
          | some ff =>
            cases ff with
            | none => exact ⟨hs1, fun _ _ _ _ _ => by simp⟩
            | some fn =>
              dsimp only
              by_cases hk : k = K ∨ k = L
              · -- one of the two keys: the argument loop does not return
                have hnr : ∀ vals s2, resolveArgs (get n c) fn.ins s1 ≠ .ret vals s2 := by
                  rcases hk with rfl | rfl
                  · rw [GetFactory_colRel hs1.1, hfK] at hf
                    simp only [Option.some.injEq] at hf
                    subst hf
                    rw [hinK]
                    intro vals s2
                    apply resolveArgs_blocked _ (get n c) hall tL _ preK postK s1 hs1
                    intro s3 h3 v s4
                    exact (ih (.str (getFullDepPath tL)) s3 h3).2 L (by simp [getDepName, htL])
                      (Or.inr rfl) v s4
                  · rw [GetFactory_colRel hs1.2.1, hfL] at hf
                    simp only [Option.some.injEq] at hf
                    subst hf
                    rw [hinL]
                    intro vals s2
                    apply resolveArgs_blocked _ (get n c) hall tK _ preL postL s1 hs1
                    intro s3 h3 v s4
                    exact (ih (.str (getFullDepPath tK)) s3 h3).2 K (by simp [getDepName, htK])
                      (Or.inl rfl) v s4
                obtain ⟨hcall, hcnr⟩ := callFunc_of_args_not_ret _ (get n c) hall fn k s1 hs1 hnr
                cases hc : callFunc (get n c) (some fn) k s1 with
                | diverge => exact ⟨trivial, fun _ _ _ _ _ => by simp⟩
                | panic msg s2 =>
                  rw [hc] at hcall
                  exact ⟨hcall, fun _ _ _ _ _ => by simp⟩
                | ret r s2 => exact absurd hc (hcnr r s2)
              · -- another key: as for every `get`
                refine ⟨?_, fun k2 hk2 hor => ?_⟩
                · have hkK : k ≠ K := fun h => hk (Or.inl h)
                  have hkL : k ≠ L := fun h => hk (Or.inr h)
                  have h1 := callFunc_all _ (get n c) hall k (fun _ _ h => h)
                    (fun s2 h2 => ⟨h2.1, h2.2.1, by
                      rw [List.count_append, h2.2.2.1]; simp [List.count_cons, hkK], by
                      rw [List.count_append, h2.2.2.2]; simp [List.count_cons, hkL]⟩)
                    (some fn) s1 hs1
                  cases hc : callFunc (get n c) (some fn) k s1 with
                  | diverge => trivial
                  | panic msg s2 => rw [hc] at h1; exact h1
                  | ret fCallRes s2 =>
                    rw [hc] at h1
                    simp only [Outcome.All] at h1
                    cases fCallRes with
                    | nil => exact h1
                    | cons r0 rest =>
                      dsimp only
                      cases hset : SetInstance s2.containers c k r0.Interface with
                      | none => trivial
                      | some p =>
                        obtain ⟨h1c, err⟩ := p
                        have h2 : ColRel K none s.containers h1c ∧
                            ColRel L none s.containers h1c ∧
                            s2.calls.count K = s.calls.count K ∧
                            s2.calls.count L = s.calls.count L := by
                          rcases SetInstance_cases _ _ _ _ _ _ hset with
                            ⟨rfl, _, _⟩ | ⟨o1, _, rfl, _⟩
                          · exact h1
                          · exact ⟨h1.1.trans (ColRel.storeAt_other K _ _ o1 k _ hkK),
                              h1.2.1.trans (ColRel.storeAt_other L _ _ o1 k _ hkL), h1.2.2⟩
                        cases err with
                        | some e => exact h2
                        | none =>
                          dsimp only
                          have h3 := injectFields_all _ (get n c) hall (fun _ _ h => h) n r0
                            { s2 with containers := h1c } h2
                          cases hinj : injectFields n (get n c) r0
                              { s2 with containers := h1c } with
                          | diverge => trivial
                          | panic msg s3 => rw [hinj] at h3; exact h3
                          | ret u s3 => rw [hinj] at h3; exact h3
                · simp only [Except.ok.injEq] at hk2
                  subst hk2
                  exact absurd hor hk
        · simp only [hnil]
          refine ⟨hs1, fun k2 hk2 hor => ?_⟩
          simp only [Except.ok.injEq] at hk2
          subst hk2
          exfalso
          rcases hor with rfl | rfl
          · rw [GetInstance_colRel hs1.1, hiK] at hi
            simp only [Option.some.injEq] at hi
            subst hi
            exact hnil hnK
          · rw [GetInstance_colRel hs1.2.1, hiL] at hi
            simp only [Option.some.injEq] at hi
            subst hi
            exact hnil hnL

/-- The marker and the name of a key are the same request to `get`. -/
theorem get_of_key (fuel c : Nat) (dep : Value) (K : String) (s : State)
    (hK : getDepName dep = .ok K) : get fuel c dep s = get fuel c (.str K) s := by
  cases fuel with
  | zero => rfl
  | succ n =>
    have h2 : getDepName (.str K) = .ok K := rfl
    simp only [get, hK, h2]

/-- Claim C17, amended: when the factory for `K` has a parameter whose key is `L`,
the factory for `L` has a parameter whose key is `K`, and the instance search of
the container finds no instance for either key, then for every bound on the
depth of the recursion `get(K)` returns no instance; when it panics (in the
resolution of a parameter that comes before the one of the cycle), no container
has a changed store for `K` or `L` and neither factory has been called; and the
same holds of the state in which a `get` of any key on the container returns or
panics: the factories for `K` and `L` are never called and no instance for `K`
or `L` is stored. -/
theorem get_param_cycle_never_returns (c : Nat) (K L : String) (s : State) (fK fL : Func)
    (iK iL : Value) (tK tL : GoType) (preK postK preL postL : List GoType) (dep : Value)
    (hdep : getDepName dep = .ok K)
    (hiK : GetInstance s.containers c K = some iK) (hnK : iK.isNil = true)
    (hiL : GetInstance s.containers c L = some iL) (hnL : iL.isNil = true)
    (hfK : GetFactory s.containers c K = some (some fK))
    (hfL : GetFactory s.containers c L = some (some fL))
    (hinK : fK.ins = preK ++ tL :: postK) (htL : getFullDepPath tL = L)
    (hinL : fL.ins = preL ++ tK :: postL) (htK : getFullDepPath tK = K) (fuel : Nat) :
    (∀ v s1, get fuel c dep s ≠ .ret v s1) ∧
    (∀ msg s1, get fuel c dep s = .panic msg s1 →
      ColRel K none s.containers s1.containers ∧ ColRel L none s.containers s1.containers ∧
      s1.calls.count K = s.calls.count K ∧ s1.calls.count L = s.calls.count L) ∧
    (∀ d : Value, (get fuel c d s).All (fun s1 =>
      ColRel K none s.containers s1.containers ∧ ColRel L none s.containers s1.containers ∧
      s1.calls.count K = s.calls.count K ∧ s1.calls.count L = s.calls.count L)) := by
  have hall := fun d : Value => get_param_cycle c K L s fK fL iK iL tK tL preK postK preL postL
    hiK hnK hiL hnL hfK hfL hinK htL hinL htK fuel d s
    ⟨ColRel.refl _ _ _, ColRel.refl _ _ _, rfl, rfl⟩
  refine ⟨(hall dep).2 K hdep (Or.inl rfl), fun msg s1 hp => ?_, fun d => (hall d).1⟩
  have h1 := (hall dep).1
  rw [hp] at h1
  exact h1

/-- Witness of `get_param_cycle_never_returns`: the container with the factories
`func(x X, n *N) *M` and `func(m *M) *N`, where `get("app.M")` panics in the
resolution of the first parameter. -/
theorem get_param_cycle_never_returns_witness :
    getDepName (.str "app.M") = .ok "app.M" ∧
    GetInstance paramCycleAfterXState.containers 0 "app.M" = some .nil ∧
    GetInstance paramCycleAfterXState.containers 0 "app.N" = some .nil ∧
    GetFactory paramCycleAfterXState.containers 0 "app.M" = some (some newMofX) ∧
    GetFactory paramCycleAfterXState.containers 0 "app.N" = some (some newN) ∧
    newMofX.ins = [xT] ++ nPtrT :: [] ∧ getFullDepPath nPtrT = "app.N" ∧
    newN.ins = [] ++ mPtrT :: [] ∧ getFullDepPath mPtrT = "app.M" ∧
    (∀ v s1, get 5 0 (.str "app.M") paramCycleAfterXState ≠ .ret v s1) ∧
    (∀ v s1, get 5 0 (.str "app.N") paramCycleAfterXState ≠ .ret v s1) :=
  ⟨rfl, rfl, rfl, rfl, rfl, rfl, rfl, rfl, rfl,
    (get_param_cycle_never_returns 0 "app.M" "app.N" paramCycleAfterXState newMofX newN
      .nil .nil mPtrT nPtrT [xT] [] [] [] (.str "app.M") rfl rfl rfl rfl rfl rfl rfl rfl rfl rfl
      rfl 5).1,
    (get_param_cycle_never_returns 0 "app.N" "app.M" paramCycleAfterXState newN newMofX
      .nil .nil nPtrT mPtrT [] [] [xT] [] (.str "app.N") rfl rfl rfl rfl rfl rfl rfl rfl rfl rfl
      rfl 5).1⟩

/-- Claim C17 fails where it says that `get(K)` never terminates and reports no
resolution error: with the factories `func(x X, n *N) *M` and `func(m *M) *N` and
no instance for `app.M` or `app.N`, the two factories take each other's result,
but nobody registers `app.X`, and `get("app.M")` panics with the not-provided
message for `app.X`, the first parameter, in the state in which it started. -/
theorem get_param_cycle_reports_missing :
    GetFactory paramCycleAfterXState.containers 0 "app.M" = some (some newMofX) ∧
    GetFactory paramCycleAfterXState.containers 0 "app.N" = some (some newN) ∧
    newMofX.ins.map getFullDepPath = ["app.X", "app.N"] ∧
    newN.ins.map getFullDepPath = ["app.M"] ∧
    GetInstance paramCycleAfterXState.containers 0 "app.M" = some .nil ∧
    GetInstance paramCycleAfterXState.containers 0 "app.N" = some .nil ∧
    get 2 0 (.str "app.M") paramCycleAfterXState
      = .panic "\"app.X\" dependency not provided" paramCycleAfterXState ∧
    get 9 0 (.str "app.M") paramCycleAfterXState
      = .panic "\"app.X\" dependency not provided" paramCycleAfterXState := by
  refine ⟨rfl, rfl, rfl, rfl, rfl, rfl, rfl, rfl⟩

/-! ## The not-provided report -/

/-- The not-provided message names its key. -/
theorem notProvided_injective (a b : String) (h : notProvided a = notProvided b) : a = b := by
  unfold notProvided at h
  have h1 := congrArg String.data h
  simp only [String.data_append] at h1
  exact String.ext (List.append_cancel_left (List.append_cancel_right h1))

/-- An instance that the instance search finds is held by a container of the import
closure. -/
theorem GetInstanceAux_some_closure (h : List Container) (K : String) (fuel c : Nat) (x : Value)
    (hg : GetInstanceAux fuel h c K = some x) (hx : x.isNil = false) :
    ∃ j cont, InClosure h c j ∧ h[j]? = some cont ∧ cont.instances K = x := by
  induction fuel generalizing c with
  | zero => simp [GetInstanceAux] at hg
  | succ n ih =>
    simp only [GetInstanceAux] at hg
    cases hc : h[c]? with
    | none => simp [hc] at hg
    | some cont =>
      simp only [hc] at hg
      split at hg
      · simp only [Option.some.injEq] at hg
        exact ⟨c, cont, .self c, hc, hg⟩
      · split at hg
        · simp only [Option.some.injEq] at hg
          subst hg
          simp [Value.isNil] at hx
        · obtain ⟨i, hi, hgi⟩ := firstInstance_some _ _ _ hg hx
          obtain ⟨j, cj, hcl, hj, hv⟩ := ih i hgi
          exact ⟨j, cj, .step c i j cont hc hi hcl, hj, hv⟩

/-- A store of `SetInstance` changes the result of no factory search. -/
theorem SetInstance_keeps_factories (h : List Container) (c : Nat) (k : String) (v : Value)
    (h1 : List Container) (err : Option String) (hset : SetInstance h c k v = some (h1, err))
    (c2 : Nat) (k2 : String) : GetFactory h1 c2 k2 = GetFactory h c2 k2 := by
  rcases SetInstance_cases _ _ _ _ _ _ hset with ⟨rfl, _, _⟩ | ⟨o, _, rfl, _⟩
  · rfl
  · exact GetFactory_colRel (ColRel.storeAt_ex k h o k v) k2 c2

/-- Every `get` keeps the results of the factory searches, and the log of calls only
grows. -/
theorem closed_factories_calls (c : Nat) (s : State) (N : Nat) :
    Closed c (fun s1 => (∀ k2, GetFactory s1.containers c k2 = GetFactory s.containers c k2) ∧
      N ≤ s1.calls.length) := by
  refine ⟨fun s1 objs h1 => h1, fun s0 k _ _ => ⟨fun s1 h1 => ⟨h1.1, ?_⟩,
    fun s1 v h1 err hs1 hset => ⟨fun k2 => ?_, hs1.2⟩⟩⟩
  · simp only [List.length_append, List.length_singleton]
    exact Nat.le_succ_of_le h1.2
  · show GetFactory h1 c k2 = _
    rw [SetInstance_keeps_factories _ _ _ _ _ _ hset c k2]
    exact hs1.1 k2

/-- The message of the checks of `Call` is a fixed message. -/
theorem callCheck_libMsg (fn : Func) (args : List Value) (e : String)
    (h : callCheck fn args = some e) : LibMsg e := by
  unfold callCheck at h
  split at h
  · cases h
    decide
  · split at h
    · cases h
      decide
    · cases h

/-- A `callFunc` that panics does so in the resolution of the arguments, in the
checks of `Call` with a fixed message, or after the call of the factory has been
entered in the log. -/
theorem callFunc_panic (getF : Value → State → Outcome Value) (fn : Func) (k : String)
    (s s1 : State) (msg : String) (hc : callFunc getF (some fn) k s = .panic msg s1) :
    resolveArgs getF fn.ins s = .panic msg s1 ∨
    (∃ vals, resolveArgs getF fn.ins s = .ret vals s1 ∧ LibMsg msg) ∨
    ∃ vals sA, resolveArgs getF fn.ins s = .ret vals sA ∧ s1.calls = sA.calls ++ [k] := by
  simp only [callFunc] at hc
  cases hr : resolveArgs getF fn.ins s with
  | diverge => simp [hr] at hc
  | panic m s2 =>
    simp only [hr, Outcome.panic.injEq] at hc
    obtain ⟨rfl, rfl⟩ := hc
    exact Or.inl rfl
  | ret vals sA =>
    simp only [hr] at hc
    cases hck : callCheck fn vals with
    | some e =>
      simp only [hck, Outcome.panic.injEq] at hc
      obtain ⟨rfl, rfl⟩ := hc
      exact Or.inr (Or.inl ⟨vals, rfl, callCheck_libMsg fn vals _ hck⟩)
    | none =>
      refine Or.inr (Or.inr ⟨vals, sA, rfl, ?_⟩)
      simp only [hck] at hc
      cases hcall : reflectCall fn vals sA.objs with
      | error m =>
        simp only [hcall, Outcome.panic.injEq] at hc
        rw [← hc.2]
      | ok p =>
        obtain ⟨res, objs1⟩ := p
        simp only [hcall] at hc
        split at hc
        · simp only [Outcome.panic.injEq] at hc
          rw [← hc.2]
        · simp at hc

/-- A panic of the argument loop in a state whose log has not grown is a panic of one
of the resolutions, when these keep the factory searches and let the log grow
only. -/
theorem resolveArgs_panic_before_call (c : Nat) (s : State) (P : String → Prop)
    (getF : Value → State → Outcome Value)
    (hall : ∀ N d s1, ((∀ k2, GetFactory s1.containers c k2 = GetFactory s.containers c k2) ∧
      N ≤ s1.calls.length) → (getF d s1).All (fun s2 =>
        (∀ k2, GetFactory s2.containers c k2 = GetFactory s.containers c k2) ∧
        N ≤ s2.calls.length))
    (hnp : ∀ k s1 s2 msg, (∀ k2, GetFactory s1.containers c k2 = GetFactory s.containers c k2) →
      getF (.str k) s1 = .panic msg s2 → s2.calls.length ≤ s1.calls.length → P msg)
    (l : List GoType) (s1 s2 : State) (msg : String)
    (hfr : ∀ k2, GetFactory s1.containers c k2 = GetFactory s.containers c k2)
    (hr : resolveArgs getF l s1 = .panic msg s2) (hlen : s2.calls.length ≤ s1.calls.length) :
    P msg := by
  induction l generalizing s1 with
  | nil => simp [resolveArgs] at hr
  | cons a rest ih =>
    simp only [resolveArgs] at hr
    have ha := hall s1.calls.length (.str (getFullDepPath a)) s1 ⟨hfr, le_refl _⟩
    cases hg : getF (.str (getFullDepPath a)) s1 with
    | diverge => simp [hg] at hr
    | panic m s3 =>
      simp only [hg, Outcome.panic.injEq] at hr
      obtain ⟨rfl, rfl⟩ := hr
      exact hnp _ s1 _ _ hfr hg hlen
    | ret v s3 =>
      rw [hg] at ha
      simp only [hg] at hr
      cases hrest : resolveArgs getF rest s3 with
      | diverge => simp [hrest] at hr
      | ret vals s4 => simp [hrest] at hr
      | panic m s4 =>
        simp only [hrest, Outcome.panic.injEq] at hr
        obtain ⟨rfl, rfl⟩ := hr
        exact ih s3 ha.1 hrest (le_trans hlen ha.2)

/-- A panic of `get` in a state whose log of calls has not grown is the not-provided
report for a key that has no factory in the searches of the container, or a
fixed message of the checks of `Call`. -/
theorem get_panic_before_call (c : Nat) (s : State) (fuel : Nat) (k : String) (s1 s2 : State)
    (msg : String)
    (hfr : ∀ k2, GetFactory s1.containers c k2 = GetFactory s.containers c k2)
    (hget : get fuel c (.str k) s1 = .panic msg s2)
    (hlen : s2.calls.length ≤ s1.calls.length) :
    (∃ L, msg = notProvided L ∧ GetFactory s.containers c L = some none) ∨ LibMsg msg := by
  induction fuel generalizing k s1 s2 msg with
  | zero => simp [get] at hget
  | succ n ih =>
    have hall : ∀ N d s3,
        ((∀ k2, GetFactory s3.containers c k2 = GetFactory s.containers c k2) ∧
          N ≤ s3.calls.length) → (get n c d s3).All (fun s4 =>
            (∀ k2, GetFactory s4.containers c k2 = GetFactory s.containers c k2) ∧
            N ≤ s4.calls.length) :=
      fun N d s3 h3 => get_all c _ (closed_factories_calls c s N) n d s3 h3
    simp only [get, getDepName] at hget
    cases hi : GetInstance s1.containers c k with
    | none => simp [hi] at hget
    | some inst =>
      simp only [hi] at hget
      by_cases hnil : inst.isNil = true
      · simp only [hnil, if_true] at hget
        cases hf : GetFactory s1.containers c k with
        | none => simp [hf] at hget
        | some ff =>
          cases ff with
          | none =>
            simp only [hf, Outcome.panic.injEq] at hget
            exact Or.inl ⟨k, hget.1.symm, by rw [← hfr k]; exact hf⟩
          | some fn =>
            simp only [hf] at hget
            have hA := resolveArgs_all _ (get n c) (hall s1.calls.length) fn.ins s1
              ⟨hfr, le_refl _⟩
            cases hc : callFunc (get n c) (some fn) k s1 with
            | diverge => simp [hc] at hget
            | panic m s3 =>
              simp only [hc, Outcome.panic.injEq] at hget
              obtain ⟨rfl, rfl⟩ := hget
              rcases callFunc_panic _ _ _ _ _ _ hc with hr | ⟨vals, _, hlib⟩ | ⟨vals, sA, hr, hcalls⟩
              · exact resolveArgs_panic_before_call c s _ (get n c) hall
                  (fun k3 s3 s4 m3 h3 hg3 hl3 => ih k3 s3 s4 m3 h3 hg3 hl3)
                  fn.ins s1 _ _ hfr hr hlen
              · exact Or.inr hlib
              · exfalso
                rw [hr] at hA
                have h5 := hA.2
                rw [hcalls, List.length_append, List.length_singleton] at hlen
                omega
            | ret fCallRes sC =>
              exfalso
              obtain ⟨vals, sA, res, hargs, hcallr, hcont, hcalls, hres⟩ :=
                callFunc_ret _ _ _ _ _ _ hc
              rw [hargs] at hA
              have hC : (∀ k2, GetFactory sC.containers c k2 = GetFactory s.containers c k2) ∧
                  s1.calls.length + 1 ≤ sC.calls.length := by
                refine ⟨fun k2 => by rw [hcont]; exact hA.1 k2, ?_⟩
                rw [hcalls, List.length_append, List.length_singleton]
                exact Nat.succ_le_succ hA.2
              simp only [hc] at hget
              cases fCallRes with
              | nil =>
                simp only [Outcome.panic.injEq] at hget
                obtain ⟨_, rfl⟩ := hget
                have := hC.2
                omega
              | cons r0 rest =>
                simp only [] at hget
                cases hset : SetInstance sC.containers c k r0.Interface with
                | none => simp [hset] at hget
                | some p =>
                  obtain ⟨h1, err⟩ := p
                  cases err with
                  | some e =>
                    simp only [hset, Outcome.panic.injEq] at hget
                    obtain ⟨_, rfl⟩ := hget
                    have := hC.2
                    simp only at hlen
                    omega
                  | none =>
                    simp only [hset] at hget
                    have h3 := injectFields_all _ (get n c) (hall (s1.calls.length + 1))
                      (fun _ _ h => h) n r0 { sC with containers := h1 }
                      ⟨fun k2 => by
                        show GetFactory h1 c k2 = _
                        rw [SetInstance_keeps_factories _ _ _ _ _ _ hset c k2]
                        exact hC.1 k2, hC.2⟩
                    cases hinj : injectFields n (get n c) r0 { sC with containers := h1 } with
                    | diverge => simp [hinj] at hget
                    | ret u s3 => simp [hinj] at hget
                    | panic m s3 =>
                      rw [hinj] at h3
                      simp only [hinj, Outcome.panic.injEq] at hget
                      obtain ⟨_, rfl⟩ := hget
                      have := h3.2
                      omega
      · simp [hnil] at hget

/-- In a state with well-formed imports, the factory search finds no factory exactly
when no container of the import closure registers the key. -/
theorem GetFactory_none_iff_closure (h : List Container) (hwf : WellFormed h) (c : Nat)
    (hc : c < h.length) (K : String) :
    GetFactory h c K = some none ↔
      ∀ j cont, InClosure h c j → h[j]? = some cont → cont.factories K = none := by
  have hag := ownerAgrees_aux h K (h.length + 1) c
  have hret := findOwnerAux_returns h hwf K (h.length + 1) c (Nat.lt_succ_of_lt hc) hc
  unfold GetFactory
  cases ho : findOwnerAux (h.length + 1) h c K with
  | none => exact absurd ho hret
  | some oo =>
    rw [ho] at hag
    cases oo with
    | none =>
      simp only [OwnerAgrees] at hag
      exact ⟨fun _ j cont hcl hj => findOwnerAux_none_closure h K _ c ho j hcl cont hj,
        fun _ => hag.1⟩
    | some o =>
      simp only [OwnerAgrees] at hag
      obtain ⟨cont, hco, hsome, hrf, _⟩ := hag
      constructor
      · intro hg
        rw [hrf] at hg
        simp only [Option.some.injEq] at hg
        rw [hg] at hsome
        simp at hsome
      · intro hno
        have := hno o cont (findOwnerAux_some_closure h K _ c o ho) hco
        rw [this] at hsome
        simp at hsome

/-! ## A factory that returns an error -/

/-- `SetInstance` writes into the owner that the search finds. -/
theorem SetInstance_of_owner (h : List Container) (c o : Nat) (k : String) (v : Value)
    (ho : findOwner h c k = some (some o)) :
    SetInstance h c k v = some (storeAt h o k v, none) := by
  have hag := ownerAgrees_aux h k (h.length + 1) c
  unfold findOwner at ho
  rw [ho] at hag
  simp only [OwnerAgrees] at hag
  obtain ⟨_, _, _, _, hrs⟩ := hag
  exact hrs v

/-- A `get` that returns leaves the instance it returns where the instance search of
the container finds it. -/
theorem get_ret_cached (n c : Nat) (k : String) (s s1 : State) (v : Value)
    (hget : get (n + 1) c (.str k) s = .ret v s1) :
    GetInstance s1.containers c k = some v ∧ v.isNil = false := by
  cases hi : GetInstance s.containers c k with
  | none => simp [get, getDepName, hi] at hget
  | some inst =>
    cases hnil : inst.isNil with
    | true =>
      obtain ⟨_, _, _, _, _, _, _, _, _, _, hv, hg, _⟩ :=
        get_miss n c (.str k) k s s1 v rfl inst hi hnil hget
      exact ⟨hg, hv⟩
    | false =>
      rw [get_cached n c (.str k) k s inst rfl hi hnil] at hget
      simp only [Outcome.ret.injEq] at hget
      obtain ⟨rfl, rfl⟩ := hget
      exact ⟨hi, hnil⟩

/-- The steps of `get` for a key without instance whose factory has no parameters
and returns one result, which is not of the type `error`: the factory is called,
the result is stored in the owner of the key, and the fields of the result are
visited. -/
theorem get_noargs_factory (N c o : Nat) (K : String) (s : State) (fn : Func) (inst : Value)
    (tOut : GoType) (v : Value) (objs1 : ObjHeap)
    (hi : GetInstance s.containers c K = some inst) (hnil : inst.isNil = true)
    (hf : GetFactory s.containers c K = some (some fn))
    (ho : findOwner s.containers c K = some (some o))
    (hins : fn.ins = []) (houts : fn.outs = [tOut])
    (hcall : fn.call [] s.objs = .ok ([v], objs1)) (hconf : conforms v tOut = true)
    (hnoerr : tOut.TypeString ≠ "error") :
    get (N + 1) c (.str K) s =
      match injectFields N (get N c) { typ := tOut, val := v, loc := none, ro := false }
          { containers := storeAt s.containers o K v, objs := objs1,
            calls := s.calls ++ [K] } with
      | .panic msg s2 => .panic msg s2
      | .diverge => .diverge
      | .ret _ s2 => .ret v s2 := by
  have hr : reflectCall fn [] s.objs = .ok ([v], objs1) := by
    simp [reflectCall, callCheck, hins, hcall, houts, hconf]
  have hc : callFunc (get N c) (some fn) K s
      = .ret [{ typ := tOut, val := v, loc := none, ro := false }]
          { containers := s.containers, objs := objs1, calls := s.calls ++ [K] } := by
    simp [callFunc, callCheck, hins, resolveArgs, hr, houts, firstError, hnoerr]
  simp only [get, getDepName, hi, hnil, if_true, hf, hc, RValue.Interface,
    SetInstance_of_owner _ c o K v ho]

/-- The struct that `injectFields` visits for a result that is a pointer to a struct
in the object heap, of a pointer type or of an interface type. -/
theorem injectTarget_pointer (objs : ObjHeap) (tOut tS : GoType) (pp pn : String)
    (pm : List String) (a : Nat) (cell : Value) (ro : Bool)
    (hout : tOut = .ptr pp pn pm tS ∨ tOut.Kind = Kind.Interface)
    (hS : tS.Kind = Kind.Struct) (ha : objs[a]? = some cell) :
    injectTarget objs (RValue.mk tOut (.pointer (.ptr pp pn pm tS) (some a)) none ro)
      = .ok (some (RValue.mk tS cell (some (a, [])) ro)) := by
  rcases hout with rfl | hk
  · simp [injectTarget, RValue.Kind, GoType.Kind, RValue.Elem, ha]
    exact hS
  · cases tOut with
    | iface p n m =>
      simp [injectTarget, RValue.Kind, GoType.Kind, RValue.Elem, Value.TypeOf, ha]
    | struct p n m => simp [GoType.Kind] at hk
    | other p n m => simp [GoType.Kind] at hk
    | ptr p n m e => simp [GoType.Kind] at hk

/-- The loop of `injectFields` for a field tagged `inject` that is exported, in an
addressable struct: the field is set in the object heap to what `get` of the key
of its type returns. -/
theorem injectField_inject (getF : Value → State → Outcome Value)
    (nested : RValue → State → Outcome Unit) (tT : GoType) (cur : Value) (a : Nat)
    (p : List Nat) (i : Nat) (tF : GoType) (old d : Value) (dt : GoType) (s sD : State)
    (cell cell1 : Value)
    (hget : getF (.str (getFullDepPath tF)) s = .ret d sD)
    (hdt : d.TypeOf = some dt) (hassign : assignableTo dt tF = true)
    (ha : sD.objs[a]? = some cell) (hset : setPath cell (p ++ [i]) d = some cell1) :
    injectField getF nested { typ := tT, val := cur, loc := some (a, p), ro := false } i
        (.mk true INJECT tF old) s
      = .ret () { sD with objs := sD.objs.set a cell1 } := by
  have hne : ¬ (INJECT = NESTED) := by decide
  simp [injectField, StructField.tag, StructField.typ, StructField.exported, hget, setField,
    hdt, hassign, ha, hset, hne]

/-- The text of an unnamed pointer type is not the text `error`. -/
theorem star_ne_error (x : String) : "*" ++ x ≠ "error" := by
  intro h
  have h1 := congrArg String.data h
  simp only [String.data_append] at h1
  simp at h1

/-- Overwriting the last cell of the object heap. -/
theorem set_concat_length {α : Type} (l : List α) (x z : α) :
    (l ++ [x]).set l.length z = l ++ [z] := by
  induction l with
  | nil => rfl
  | cons a t ih => simp only [List.cons_append, List.length_cons, List.set_cons_succ, ih]

/-- The last of two cells appended to the object heap. -/
theorem getElem?_two_second {α : Type} (l : List α) (x y : α) :
    (l ++ [x] ++ [y])[l.length + 1]? = some y := by
  induction l with
  | nil => rfl
  | cons a t ih => simpa using ih

/-- The first of two cells appended to the object heap, after the second has been
overwritten. -/
theorem getElem?_two_first {α : Type} (l : List α) (x y z : α) :
    ((l ++ [x] ++ [y]).set (l.length + 1) z)[l.length]? = some x := by
  induction l with
  | nil => rfl
  | cons a t ih => simpa using ih

/-- Two cells appended to the object heap, both overwritten. -/
theorem set_two_cells {α : Type} (l : List α) (x y x1 y1 : α) :
    ((l ++ [x] ++ [y]).set (l.length + 1) y1).set l.length x1 = l ++ [x1, y1] := by
  induction l with
  | nil => rfl
  | cons a t ih => simp

/-- The instance search after the store of a first instance in the owner. -/
theorem GetInstance_storeAt_owner (h : List Container) (c o : Nat) (K : String) (inst v : Value)
    (ho : findOwner h c K = some (some o)) (hi : GetInstance h c K = some inst)
    (hnil : inst.isNil = true) (hv : v.isNil = false) :
    GetInstance (storeAt h o K v) c K = some v := by
  have hag := ownerAgrees_aux h K (h.length + 1) c
  unfold findOwner at ho
  rw [ho] at hag
  simp only [OwnerAgrees] at hag
  obtain ⟨co, hco, _, _, _⟩ := hag
  have hl := storeAt_lookup h o K v co hco
  have hval : ({ co with instances := setKey co.instances K v } : Container).instances K = v := by
    simp [setKey]
  have := GetInstance_after_store (ColRel.storeAt_ex K h o K v) ho inst hi hnil _ hl
    (by rw [hval]; exact hv)
  rw [this, hval]

/-! ## Nested fields -/

/-- The loop of `injectFields` for a field tagged `nested` in an addressable struct:
the field, read from the object heap, is visited in turn. -/
theorem injectField_nested (getF : Value → State → Outcome Value)
    (nested : RValue → State → Outcome Unit) (tT : GoType) (cur : Value) (a : Nat)
    (p : List Nat) (i : Nat) (tF : GoType) (inner curF : Value) (s : State) (cell : Value)
    (ha : s.objs[a]? = some cell) (hget : getPath cell (p ++ [i]) = some curF) :
    injectField getF nested { typ := tT, val := cur, loc := some (a, p), ro := false } i
        (.mk true NESTED tF inner) s
      = nested { typ := tF, val := curF, loc := some (a, p ++ [i]), ro := false } s := by
  have hne : ¬ (NESTED = INJECT) := by decide
  simp [injectField, StructField.tag, StructField.typ, StructField.exported, RValue.Field,
    ha, hget, hne]

/-- Claim C13 fails on the code for a struct returned by value: with the factory
`func() Wrap`, where the field `Inner` of `Wrap` is tagged `nested` and the field
`Clock` of `Inner` is tagged `inject`, and a registered factory for `app.Clock`,
`get("app.Wrap")` resolves `app.Clock` and then panics in `Set`, because a field
of a struct that was returned by value is not addressable; no instance is
returned, and the store is left with the struct whose inner field was not set,
which a later `get("app.Wrap")` returns. With the factory `func() *Wrap` for the
same struct, `get("app.Wrap")` returns the pointer and the field inside the
nested struct holds the clock. -/
theorem get_by_value_nested_panics :
    GetFactory (holderState newWrapByValue).containers 0 "app.Wrap"
      = some (some newWrapByValue) ∧
    get 2 0 (.str "app.Clock") (holderState newWrapByValue)
      = .ret (.scalar clockT "V") (get 2 0 (.str "app.Clock") (holderState newWrapByValue)).stateD ∧
    get 3 0 (.str "app.Wrap") (holderState newWrapByValue)
      = .panic "reflect: reflect.Value.Set using unaddressable value"
          (get 3 0 (.str "app.Wrap") (holderState newWrapByValue)).stateD ∧
    get 9 0 (.str "app.Wrap") (holderState newWrapByValue)
      = .panic "reflect: reflect.Value.Set using unaddressable value"
          (get 3 0 (.str "app.Wrap") (holderState newWrapByValue)).stateD ∧
    (get 3 0 (.str "app.Wrap") (holderState newWrapByValue)).stateD.calls
      = ["app.Wrap", "app.Clock"] ∧
    get 3 0 (.str "app.Wrap") (get 3 0 (.str "app.Wrap") (holderState newWrapByValue)).stateD
      = .ret (.struct wrapT [.mk true NESTED innerT
            (.struct innerT [.mk true INJECT clockT (.scalar clockT "0")])])
          (get 3 0 (.str "app.Wrap") (holderState newWrapByValue)).stateD ∧
    get 3 0 (.str "app.Wrap") (holderState newWrapPtr)
      = .ret (.pointer (.ptr "" "" [] wrapT) (some 0))
          (get 3 0 (.str "app.Wrap") (holderState newWrapPtr)).stateD ∧
    (get 3 0 (.str "app.Wrap") (holderState newWrapPtr)).stateD.objs
      = [.struct wrapT [.mk true NESTED innerT
          (.struct innerT [.mk true INJECT clockT (.scalar clockT "V")])]] := by
  refine ⟨rfl, rfl, rfl, rfl, rfl, rfl, rfl, rfl⟩

/-! ## Two structs that inject each other -/

/-- The loop body does nothing for a field that is tagged neither `inject` nor
`nested`. -/
theorem injectField_untagged (getF : Value → State → Outcome Value)
    (nested : RValue → State → Outcome Unit) (v : RValue) (i : Nat) (g : StructField)
    (s : State) (h1 : g.tag ≠ INJECT) (h2 : g.tag ≠ NESTED) :
    injectField getF nested v i g s = .ret () s := by
  simp [injectField, h1, h2]

/-- The loop over fields none of which is tagged `inject` or `nested` does nothing. -/
theorem fieldsLoop_untagged (getF : Value → State → Outcome Value)
    (nested : RValue → State → Outcome Unit) (v : RValue) (fs : List StructField)
    (h : ∀ g ∈ fs, g.tag ≠ INJECT ∧ g.tag ≠ NESTED) (i : Nat) (s : State) :
    fieldsLoop (injectField getF nested v) i fs s = .ret () s := by
  induction fs generalizing i with
  | nil => rfl
  | cons g rest ih =>
    have hg := h g (List.mem_cons_self _ _)
    simp only [fieldsLoop, injectField_untagged getF nested v i g s hg.1 hg.2]
    exact ih (fun g2 hg2 => h g2 (List.mem_cons_of_mem _ hg2)) (i + 1)

/-- The loop passes over leading fields that are tagged neither `inject` nor
`nested`. -/
theorem fieldsLoop_skip (getF : Value → State → Outcome Value)
    (nested : RValue → State → Outcome Unit) (v : RValue) (pre rest : List StructField)
    (h : ∀ g ∈ pre, g.tag ≠ INJECT ∧ g.tag ≠ NESTED) (i : Nat) (s : State) :
    fieldsLoop (injectField getF nested v) i (pre ++ rest) s
      = fieldsLoop (injectField getF nested v) (i + pre.length) rest s := by
  induction pre generalizing i with
  | nil => rfl
  | cons g tl ih =>
    have hg := h g (List.mem_cons_self _ _)
    simp only [List.cons_append, fieldsLoop, injectField_untagged getF nested v i g s hg.1 hg.2,
      List.length_cons]
    show fieldsLoop (injectField getF nested v) (i + 1) (tl ++ rest) s = _
    rw [ih (fun g2 hg2 => h g2 (List.mem_cons_of_mem _ hg2)) (i + 1)]
    congr 1
    omega

/-- Overwriting the content of the field after the fields `pre` of a struct. -/
theorem setPath_field (t : GoType) (pre post : List StructField) (e : Bool) (tag : String)
    (ty : GoType) (old new : Value) :
    setPath (.struct t (pre ++ .mk e tag ty old :: post)) [pre.length] new
      = some (.struct t (pre ++ .mk e tag ty new :: post)) := by
  have h1 : (pre ++ StructField.mk e tag ty old :: post)[pre.length]?
      = some (.mk e tag ty old) := by
    induction pre with
    | nil => simp
    | cons a tl ih => simpa using ih
  have h2 : (pre ++ StructField.mk e tag ty old :: post).set pre.length (.mk e tag ty new)
      = pre ++ .mk e tag ty new :: post := by
    induction pre with
    | nil => rfl
    | cons a tl ih => simp
  simp only [setPath, h1, h2]

/-- The steps of `get` for a key without instance whose factory has no parameters
and returns a pointer to a new struct with an exported field tagged `inject`
and no other field tagged `inject` or `nested`: the result is stored, the key of
the type of the field is resolved, and the field is set to the instance
resolved. -/
theorem get_single_inject (N c o : Nat) (K : String) (s sD : State) (fn : Func) (inst : Value)
    (tS tF dt : GoType) (pm : List String) (pre post : List StructField) (old d : Value)
    (hi : GetInstance s.containers c K = some inst) (hnil : inst.isNil = true)
    (hf : GetFactory s.containers c K = some (some fn))
    (ho : findOwner s.containers c K = some (some o))
    (hS : tS.Kind = Kind.Struct)
    (hpre : ∀ g ∈ pre, g.tag ≠ INJECT ∧ g.tag ≠ NESTED)
    (hpost : ∀ g ∈ post, g.tag ≠ INJECT ∧ g.tag ≠ NESTED)
    (hins : fn.ins = []) (houts : fn.outs = [.ptr "" "" pm tS])
    (hcall : fn.call [] s.objs = .ok ([.pointer (.ptr "" "" pm tS) (some s.objs.length)],
      s.objs ++ [.struct tS (pre ++ .mk true INJECT tF old :: post)]))
    (hgetD : get (N + 1) c (.str (getFullDepPath tF))
        { containers := storeAt s.containers o K (.pointer (.ptr "" "" pm tS) (some s.objs.length)),
          objs := s.objs ++ [.struct tS (pre ++ .mk true INJECT tF old :: post)],
          calls := s.calls ++ [K] } = .ret d sD)
    (hframe : sD.objs[s.objs.length]?
      = some (.struct tS (pre ++ .mk true INJECT tF old :: post)))
    (hdt : d.TypeOf = some dt) (hassign : assignableTo dt tF = true) :
    get (N + 2) c (.str K) s = .ret (.pointer (.ptr "" "" pm tS) (some s.objs.length))
      { sD with
        objs := sD.objs.set s.objs.length (.struct tS (pre ++ .mk true INJECT tF d :: post)) } := by
  have hconf : conforms (.pointer (.ptr "" "" pm tS) (some s.objs.length)) (.ptr "" "" pm tS)
      = true := by
    simp [conforms, Value.TypeOf, assignableTo]
  have hnoerr : (GoType.ptr "" "" pm tS).TypeString ≠ "error" := by
    simp only [GoType.TypeString, if_true]
    exact star_ne_error _
  rw [get_noargs_factory (N + 1) c o K s fn inst _ _ _ hi hnil hf ho hins houts hcall hconf hnoerr]
  have htarget := injectTarget_pointer
    (s.objs ++ [.struct tS (pre ++ .mk true INJECT tF old :: post)])
    (.ptr "" "" pm tS) tS "" "" pm s.objs.length
    (.struct tS (pre ++ .mk true INJECT tF old :: post)) false
    (Or.inl rfl) hS (by simp)
  simp only [injectFields, htarget, RValue.fields, hS]
  rw [fieldsLoop_skip _ _ _ pre _ hpre]
  simp only [fieldsLoop]
  rw [injectField_inject (get (N + 1) c) _ tS _ s.objs.length [] (0 + pre.length) tF old d dt _ sD
    (.struct tS (pre ++ .mk true INJECT tF old :: post))
    (.struct tS (pre ++ .mk true INJECT tF d :: post))
    hgetD hdt hassign hframe (by
      simp only [List.nil_append, Nat.zero_add]
      exact setPath_field tS pre post true INJECT tF old d)]
  simp only [fieldsLoop_untagged _ _ _ post hpost]

/-- Claim C16: two distinct keys `KA` and `KB` without instances, whose factories
have no parameters and return pointers to new structs `A` and `B`; `A` has an
exported field tagged `inject` of the type `*B`, `B` has an exported field tagged
`inject` of the type `*A`, and no other field of either is tagged `inject` or
`nested`. Then `get(KA)` returns a pointer `a` to the new `A`; each of the two
factories has been called exactly once (first the one for `KA`, then the one
for `KB`); the field of `A` holds the pointer `b` to the new `B`, the field of
`B` holds `a`; and afterwards `get(KA)` and `get(KB)` return `a` and `b` from the
stores, in the same state. -/
theorem get_mutual_inject (n c oA oB : Nat) (KA KB : String) (s : State) (fnA fnB : Func)
    (iA iB : Value) (tSA tSB : GoType) (pmA pmB : List String)
    (preA postA preB postB : List StructField) (oldA oldB : Value)
    (hSA : tSA.Kind = Kind.Struct) (hSB : tSB.Kind = Kind.Struct)
    (hKA : getFullDepPath (.ptr "" "" pmA tSA) = KA)
    (hKB : getFullDepPath (.ptr "" "" pmB tSB) = KB)
    (hne : KA ≠ KB)
    (hpreA : ∀ g ∈ preA, g.tag ≠ INJECT ∧ g.tag ≠ NESTED)
    (hpostA : ∀ g ∈ postA, g.tag ≠ INJECT ∧ g.tag ≠ NESTED)
    (hpreB : ∀ g ∈ preB, g.tag ≠ INJECT ∧ g.tag ≠ NESTED)
    (hpostB : ∀ g ∈ postB, g.tag ≠ INJECT ∧ g.tag ≠ NESTED)
    (hiA : GetInstance s.containers c KA = some iA) (hnA : iA.isNil = true)
    (hiB : GetInstance s.containers c KB = some iB) (hnB : iB.isNil = true)
    (hfA : GetFactory s.containers c KA = some (some fnA))
    (hoA : findOwner s.containers c KA = some (some oA))
    (hfB : GetFactory s.containers c KB = some (some fnB))
    (hoB : findOwner s.containers c KB = some (some oB))
    (hinsA : fnA.ins = []) (houtsA : fnA.outs = [.ptr "" "" pmA tSA])
    (hcallA : ∀ objs, fnA.call [] objs
      = .ok ([.pointer (.ptr "" "" pmA tSA) (some objs.length)],
          objs ++ [.struct tSA (preA ++ .mk true INJECT (.ptr "" "" pmB tSB) oldB :: postA)]))
    (hinsB : fnB.ins = []) (houtsB : fnB.outs = [.ptr "" "" pmB tSB])
    (hcallB : ∀ objs, fnB.call [] objs
      = .ok ([.pointer (.ptr "" "" pmB tSB) (some objs.length)],
          objs ++ [.struct tSB (preB ++ .mk true INJECT (.ptr "" "" pmA tSA) oldA :: postB)])) :
    get (n + 3) c (.str KA) s
      = .ret (.pointer (.ptr "" "" pmA tSA) (some s.objs.length))
        { containers := storeAt (storeAt s.containers oA KA
              (.pointer (.ptr "" "" pmA tSA) (some s.objs.length))) oB KB
              (.pointer (.ptr "" "" pmB tSB) (some (s.objs.length + 1))),
          objs := s.objs ++
            [.struct tSA (preA ++ .mk true INJECT (.ptr "" "" pmB tSB)
                (.pointer (.ptr "" "" pmB tSB) (some (s.objs.length + 1))) :: postA),
              .struct tSB (preB ++ .mk true INJECT (.ptr "" "" pmA tSA)
                (.pointer (.ptr "" "" pmA tSA) (some s.objs.length)) :: postB)],
          calls := s.calls ++ [KA, KB] } ∧
    (∀ m, get (m + 1) c (.str KA)
        (get (n + 3) c (.str KA) s).stateD
      = .ret (.pointer (.ptr "" "" pmA tSA) (some s.objs.length))
          (get (n + 3) c (.str KA) s).stateD) ∧
    (∀ m, get (m + 1) c (.str KB)
        (get (n + 3) c (.str KA) s).stateD
      = .ret (.pointer (.ptr "" "" pmB tSB) (some (s.objs.length + 1)))
          (get (n + 3) c (.str KA) s).stateD) := by
  -- the state after the instance for `KA` has been stored
  have hrelB : ColRel KB none s.containers (storeAt s.containers oA KA
      (.pointer (.ptr "" "" pmA tSA) (some s.objs.length))) :=
    ColRel.storeAt_other KB none _ oA KA _ hne
  have hiB1 := (GetInstance_colRel hrelB c).trans hiB
  have hfB1 := (GetFactory_colRel hrelB KB c).trans hfB
  have hoB1 := (findOwner_colRel hrelB KB c).trans hoB
  have hiA1 := GetInstance_storeAt_owner s.containers c oA KA iA
    (.pointer (.ptr "" "" pmA tSA) (some s.objs.length)) hoA hiA hnA rfl
  -- the inner `get(KA)` finds the instance
  have hrelA : ColRel KA none (storeAt s.containers oA KA
      (.pointer (.ptr "" "" pmA tSA) (some s.objs.length)))
      (storeAt (storeAt s.containers oA KA
        (.pointer (.ptr "" "" pmA tSA) (some s.objs.length))) oB KB
        (.pointer (.ptr "" "" pmB tSB) (some (s.objs.length + 1)))) :=
    ColRel.storeAt_other KA none _ oB KB _ (Ne.symm hne)
  have hiA2 := (GetInstance_colRel hrelA c).trans hiA1
  have hlen : (s.objs ++ [Value.struct tSA
      (preA ++ .mk true INJECT (.ptr "" "" pmB tSB) oldB :: postA)]).length
      = s.objs.length + 1 := by simp
  -- the `get(KB)` made for the field of `A`
  have hB := get_single_inject n c oB KB
    { containers := storeAt s.containers oA KA
        (.pointer (.ptr "" "" pmA tSA) (some s.objs.length)),
      objs := s.objs ++ [.struct tSA
        (preA ++ .mk true INJECT (.ptr "" "" pmB tSB) oldB :: postA)],
      calls := s.calls ++ [KA] }
    { containers := storeAt (storeAt s.containers oA KA
        (.pointer (.ptr "" "" pmA tSA) (some s.objs.length))) oB KB
        (.pointer (.ptr "" "" pmB tSB) (some (s.objs.length + 1))),
      objs := s.objs ++ [.struct tSA
          (preA ++ .mk true INJECT (.ptr "" "" pmB tSB) oldB :: postA)] ++
        [.struct tSB (preB ++ .mk true INJECT (.ptr "" "" pmA tSA) oldA :: postB)],
      calls := s.calls ++ [KA] ++ [KB] }
    fnB iB tSB (.ptr "" "" pmA tSA) (.ptr "" "" pmA tSA) pmB preB postB oldA
    (.pointer (.ptr "" "" pmA tSA) (some s.objs.length))
    hiB1 hnB hfB1 hoB1 hSB hpreB hpostB hinsB houtsB (hcallB _)
    (by
      simp only [hlen]
      rw [hKA]
      exact get_cached n c (.str KA) KA _ _ rfl hiA2 rfl)
    (by simp only [hlen]; exact getElem?_two_second _ _ _)
    rfl (by simp [assignableTo])
  simp only [hlen] at hB
  -- the outer `get(KA)`
  have hA := get_single_inject (n + 1) c oA KA s _ fnA iA tSA (.ptr "" "" pmB tSB)
    (.ptr "" "" pmB tSB) pmA preA postA oldB
    (.pointer (.ptr "" "" pmB tSB) (some (s.objs.length + 1)))
    hiA hnA hfA hoA hSA hpreA hpostA hinsA houtsA (hcallA _)
    (by rw [hKB]; exact hB)
    (getElem?_two_first _ _ _ _)
    rfl (by simp [assignableTo])
  simp only [set_two_cells] at hA
  simp only [List.append_assoc, List.singleton_append] at hA
  have hcached := get_ret_cached (n + 2) c KA s _ _ hA
  have hcachedB := get_ret_cached (n + 1) c KB _ _ _ hB
  refine ⟨hA, fun m => ?_, fun m => ?_⟩
  · rw [hA]
    exact get_cached m c (.str KA) KA _ _ rfl hcached.1 hcached.2
  · rw [hA]
    exact get_cached m c (.str KB) KB _ _ rfl hcachedB.1 hcachedB.2

/-- Witness of `get_mutual_inject`: the factories `newA` and `newB` in a container
imported by the container on which `app.A` is resolved. -/
theorem get_mutual_inject_witness :
    get 3 1 (.str "app.A") mutualState
      = .ret (.pointer (.ptr "" "" [] aT) (some 0))
        { containers := storeAt (storeAt mutualState.containers 0 "app.A"
              (.pointer (.ptr "" "" [] aT) (some 0))) 0 "app.B"
              (.pointer (.ptr "" "" [] bT) (some 1)),
          objs := [.struct aT [.mk true INJECT (.ptr "" "" [] bT)
                (.pointer (.ptr "" "" [] bT) (some 1))],
              .struct bT [.mk true INJECT (.ptr "" "" [] aT)
                (.pointer (.ptr "" "" [] aT) (some 0))]],
          calls := ["app.A", "app.B"] } :=
  (get_mutual_inject 0 1 0 0 "app.A" "app.B" mutualState newA newB .nil .nil aT bT [] []
    [] [] [] [] (.pointer (.ptr "" "" [] aT) none) (.pointer (.ptr "" "" [] bT) none)
    rfl rfl rfl rfl (by decide)
    (fun _ h => absurd h (List.not_mem_nil _)) (fun _ h => absurd h (List.not_mem_nil _))
    (fun _ h => absurd h (List.not_mem_nil _)) (fun _ h => absurd h (List.not_mem_nil _))
    rfl rfl rfl rfl rfl rfl rfl rfl rfl rfl (fun _ => rfl)
    rfl rfl (fun _ => rfl)).1

/-! ## A field inside a nested struct -/

/-- The field after the fields `pre`. -/
theorem getElem?_after {α : Type} (pre post : List α) (x : α) :
    (pre ++ x :: post)[pre.length]? = some x := by
  induction pre with
  | nil => simp
  | cons a tl ih => simpa using ih

/-- Overwriting the field after the fields `pre`. -/
theorem set_after {α : Type} (pre post : List α) (x y : α) :
    (pre ++ x :: post).set pre.length y = pre ++ y :: post := by
  induction pre with
  | nil => rfl
  | cons a tl ih => simp

/-- Overwriting the top-level injected field of a holder. -/
theorem holderCell_set_top (tS tN tD : GoType) (pre0 mid0 post0 pre1 post1 : List StructField)
    (x y d : Value) :
    setPath (holderCell tS tN tD pre0 mid0 post0 pre1 post1 x y) [pre0.length] d
      = some (holderCell tS tN tD pre0 mid0 post0 pre1 post1 d y) :=
  setPath_field tS pre0 _ true INJECT tD x d

/-- The outer fields of a holder, regrouped around the nested field. -/
theorem holderCell_eq (tS tN tD : GoType) (pre0 mid0 post0 pre1 post1 : List StructField)
    (x y : Value) :
    holderCell tS tN tD pre0 mid0 post0 pre1 post1 x y
      = .struct tS ((pre0 ++ .mk true INJECT tD x :: mid0) ++
          .mk true NESTED tN (.struct tN (pre1 ++ .mk true INJECT tD y :: post1)) :: post0) := by
  simp [holderCell]

/-- The index of the nested field of a holder. -/
theorem holderCell_nested_index (tD : GoType) (pre0 mid0 : List StructField) (x : Value) :
    pre0.length + 1 + mid0.length = (pre0 ++ StructField.mk true INJECT tD x :: mid0).length := by
  simp only [List.length_append, List.length_cons]
  omega

/-- Reading the nested field of a holder. -/
theorem holderCell_get_nested (tS tN tD : GoType) (pre0 mid0 post0 pre1 post1 : List StructField)
    (x y : Value) :
    getPath (holderCell tS tN tD pre0 mid0 post0 pre1 post1 x y)
        [pre0.length + 1 + mid0.length]
      = some (.struct tN (pre1 ++ .mk true INJECT tD y :: post1)) := by
  rw [holderCell_eq, holderCell_nested_index tD pre0 mid0 x]
  simp only [getPath, getElem?_after, StructField.val]

/-- Overwriting the injected field of the nested struct of a holder. -/
theorem holderCell_set_inner (tS tN tD : GoType) (pre0 mid0 post0 pre1 post1 : List StructField)
    (x y d : Value) :
    setPath (holderCell tS tN tD pre0 mid0 post0 pre1 post1 x y)
        [pre0.length + 1 + mid0.length, pre1.length] d
      = some (holderCell tS tN tD pre0 mid0 post0 pre1 post1 x d) := by
  rw [holderCell_eq, holderCell_eq, holderCell_nested_index tD pre0 mid0 x]
  simp only [setPath, getElem?_after, set_after]

/-- One step of `injectFields`. -/
theorem injectFields_succ (fuel : Nat) (getF : Value → State → Outcome Value) (v : RValue)
    (s : State) :
    injectFields (fuel + 1) getF v s =
      match injectTarget s.objs v with
      | .error msg => .panic msg s
      | .ok none => .ret () s
      | .ok (some target) =>
        match target.fields with
        | .error msg => .panic msg s
        | .ok fs => fieldsLoop (injectField getF (injectFields fuel getF) target) 0 fs s := rfl

/-- The visit of an addressable struct with an exported field tagged `inject` and no
other field tagged `inject` or `nested`, when the key of the type of the field
is resolved without a change of state: the field is set. -/
theorem injectFields_struct_inject (getF : Value → State → Outcome Value) (m : Nat)
    (tN tD dt : GoType) (pre1 post1 : List StructField) (old1 d : Value) (a : Nat)
    (p : List Nat) (s1 : State) (cell cellF : Value)
    (hN : tN.Kind = Kind.Struct)
    (hpre1 : ∀ g ∈ pre1, g.tag ≠ INJECT ∧ g.tag ≠ NESTED)
    (hpost1 : ∀ g ∈ post1, g.tag ≠ INJECT ∧ g.tag ≠ NESTED)
    (hget : getF (.str (getFullDepPath tD)) s1 = .ret d s1)
    (hdt : d.TypeOf = some dt) (hassign : assignableTo dt tD = true)
    (ha : s1.objs[a]? = some cell) (hset : setPath cell (p ++ [pre1.length]) d = some cellF) :
    injectFields (m + 1) getF
        (RValue.mk tN (.struct tN (pre1 ++ .mk true INJECT tD old1 :: post1)) (some (a, p)) false)
        s1
      = .ret () { s1 with objs := s1.objs.set a cellF } := by
  rw [injectFields_succ]
  simp only [injectTarget, RValue.Kind, hN, RValue.fields]
  rw [fieldsLoop_skip _ _ _ pre1 _ hpre1]
  simp only [fieldsLoop]
  rw [injectField_inject getF _ tN _ a p (0 + pre1.length) tD old1 d dt s1 s1 cell cellF
    hget hdt hassign ha (by rw [Nat.zero_add]; exact hset)]
  simp only [fieldsLoop_untagged _ _ _ post1 hpost1]

/-- Field injection through a pointer, at the top level and in a nested struct: a key
`K` without instance whose factory has no parameters
and returns a pointer to a new struct, as a pointer or boxed in an interface
type (other than `error`) that the pointer type implements. The struct has an
exported field tagged `inject` of type `T` and an exported field tagged `nested`
of a struct type that has an exported field tagged `inject` of type `T`; no other
field of the two structs is tagged `inject` or `nested`. When `get` of the key of
`T`, called after the result has been stored, returns `d` and has left the new
struct alone, then `get(K)` returns the pointer, and in the struct it points to
both the top-level field and the field inside the nested struct hold `d`, which
is what `get` of the key of `T` returns from then on. -/
theorem get_nested_inject (n c o : Nat) (K : String) (s sD : State) (fn : Func) (inst : Value)
    (tOut tS tN tD dt : GoType) (pm : List String)
    (pre0 mid0 post0 pre1 post1 : List StructField) (old0 old1 d : Value)
    (hi : GetInstance s.containers c K = some inst) (hnil : inst.isNil = true)
    (hf : GetFactory s.containers c K = some (some fn))
    (ho : findOwner s.containers c K = some (some o))
    (hS : tS.Kind = Kind.Struct) (hN : tN.Kind = Kind.Struct)
    (hpre0 : ∀ g ∈ pre0, g.tag ≠ INJECT ∧ g.tag ≠ NESTED)
    (hmid0 : ∀ g ∈ mid0, g.tag ≠ INJECT ∧ g.tag ≠ NESTED)
    (hpost0 : ∀ g ∈ post0, g.tag ≠ INJECT ∧ g.tag ≠ NESTED)
    (hpre1 : ∀ g ∈ pre1, g.tag ≠ INJECT ∧ g.tag ≠ NESTED)
    (hpost1 : ∀ g ∈ post1, g.tag ≠ INJECT ∧ g.tag ≠ NESTED)
    (hout : tOut = .ptr "" "" pm tS ∨ tOut.Kind = Kind.Interface)
    (hconf : assignableTo (.ptr "" "" pm tS) tOut = true)
    (hnoerr : tOut.TypeString ≠ "error")
    (hins : fn.ins = []) (houts : fn.outs = [tOut])
    (hcall : fn.call [] s.objs = .ok ([.pointer (.ptr "" "" pm tS) (some s.objs.length)],
      s.objs ++ [holderCell tS tN tD pre0 mid0 post0 pre1 post1 old0 old1]))
    (hgetD : get (n + 2) c (.str (getFullDepPath tD))
        { containers := storeAt s.containers o K (.pointer (.ptr "" "" pm tS) (some s.objs.length)),
          objs := s.objs ++ [holderCell tS tN tD pre0 mid0 post0 pre1 post1 old0 old1],
          calls := s.calls ++ [K] } = .ret d sD)
    (hframe : sD.objs[s.objs.length]?
      = some (holderCell tS tN tD pre0 mid0 post0 pre1 post1 old0 old1))
    (hdt : d.TypeOf = some dt) (hassign : assignableTo dt tD = true) :
    get (n + 3) c (.str K) s = .ret (.pointer (.ptr "" "" pm tS) (some s.objs.length))
      (State.mk sD.containers
        (sD.objs.set s.objs.length (holderCell tS tN tD pre0 mid0 post0 pre1 post1 d d))
        sD.calls) ∧
    ∀ m, get (m + 1) c (.str (getFullDepPath tD))
        (State.mk sD.containers
          (sD.objs.set s.objs.length (holderCell tS tN tD pre0 mid0 post0 pre1 post1 d d))
          sD.calls)
      = .ret d
        (State.mk sD.containers
          (sD.objs.set s.objs.length (holderCell tS tN tD pre0 mid0 post0 pre1 post1 d d))
          sD.calls) := by
  have hcachedD := get_ret_cached (n + 1) c (getFullDepPath tD) _ sD d hgetD
  have hcached : ∀ (m : Nat) (objs1 : ObjHeap),
      get (m + 1) c (.str (getFullDepPath tD)) { sD with objs := objs1 }
        = .ret d { sD with objs := objs1 } :=
    fun m objs1 => get_cached m c (.str (getFullDepPath tD)) _ { sD with objs := objs1 } d rfl
      hcachedD.1 hcachedD.2
  refine ⟨?_, fun m => hcached m _⟩
  have hconf1 : conforms (.pointer (.ptr "" "" pm tS) (some s.objs.length)) tOut = true := by
    simp only [conforms, Value.TypeOf]
    exact hconf
  rw [get_noargs_factory (n + 2) c o K s fn inst _ _ _ hi hnil hf ho hins houts hcall hconf1
    hnoerr]
  have htarget := injectTarget_pointer
    (s.objs ++ [holderCell tS tN tD pre0 mid0 post0 pre1 post1 old0 old1])
    tOut tS "" "" pm s.objs.length (holderCell tS tN tD pre0 mid0 post0 pre1 post1 old0 old1)
    false hout hS (by simp)
  have hlt : s.objs.length < sD.objs.length := (List.getElem?_eq_some_iff.1 hframe).1
  have hmid : (sD.objs.set s.objs.length
      (holderCell tS tN tD pre0 mid0 post0 pre1 post1 d old1))[s.objs.length]?
      = some (holderCell tS tN tD pre0 mid0 post0 pre1 post1 d old1) := by
    rw [List.getElem?_set_self hlt]
  have hfields : RValue.fields (RValue.mk tS
      (holderCell tS tN tD pre0 mid0 post0 pre1 post1 old0 old1)
      (some (s.objs.length, [])) false)
      = .ok (pre0 ++ .mk true INJECT tD old0 :: (mid0 ++
          .mk true NESTED tN (.struct tN (pre1 ++ .mk true INJECT tD old1 :: post1))
            :: post0)) := by
    simp only [RValue.fields, hS, holderCell]
  rw [injectFields_succ]
  simp only [htarget, hfields]
  -- the fields before the top-level field, and the top-level field
  rw [fieldsLoop_skip _ _ _ pre0 _ hpre0]
  simp only [fieldsLoop]
  rw [injectField_inject (get (n + 2) c) _ tS _ s.objs.length [] (0 + pre0.length) tD old0 d dt
    _ sD (holderCell tS tN tD pre0 mid0 post0 pre1 post1 old0 old1)
    (holderCell tS tN tD pre0 mid0 post0 pre1 post1 d old1)
    hgetD hdt hassign hframe (by
      simp only [List.nil_append, Nat.zero_add]
      exact holderCell_set_top tS tN tD pre0 mid0 post0 pre1 post1 old0 old1 d)]
  simp only []
  -- the fields between, and the nested field
  rw [fieldsLoop_skip _ _ _ mid0 _ hmid0]
  simp only [fieldsLoop]
  rw [injectField_nested (get (n + 2) c) _ tS _ s.objs.length [] (0 + pre0.length + 1 + mid0.length)
    tN _ (.struct tN (pre1 ++ .mk true INJECT tD old1 :: post1)) _
    (holderCell tS tN tD pre0 mid0 post0 pre1 post1 d old1)
    hmid (by
      simp only [List.nil_append, Nat.zero_add]
      exact holderCell_get_nested tS tN tD pre0 mid0 post0 pre1 post1 d old1)]
  -- inside the nested struct
  rw [injectFields_struct_inject (get (n + 2) c) n tN tD dt pre1 post1 old1 d s.objs.length
    ([] ++ [0 + pre0.length + 1 + mid0.length])
    (State.mk sD.containers
      (sD.objs.set s.objs.length (holderCell tS tN tD pre0 mid0 post0 pre1 post1 d old1))
      sD.calls)
    (holderCell tS tN tD pre0 mid0 post0 pre1 post1 d old1)
    (holderCell tS tN tD pre0 mid0 post0 pre1 post1 d d)
    hN hpre1 hpost1 (hcached (n + 1) _) hdt hassign hmid (by
      simp only [List.nil_append, List.singleton_append, Nat.zero_add]
      exact holderCell_set_inner tS tN tD pre0 mid0 post0 pre1 post1 d old1 d)]
  simp only [fieldsLoop_untagged _ _ _ post0 hpost0, List.set_set]

/-- The statement `get_nested_inject` for the factory `func() *Holder` and the factory
`func() Service` that returns a `*Holder`, each in a container that also has the
clock factory. -/
theorem get_nested_inject_witness :
    get 3 0 (.str "app.Holder") (holderState newHolderPtr)
      = .ret (.pointer holderPtrT (some 0))
        { containers := storeAt (storeAt (holderState newHolderPtr).containers 0 "app.Holder"
            (.pointer holderPtrT (some 0))) 0 "app.Clock" (.scalar clockT "V"),
          objs := [injectedHolderCell "V"],
          calls := ["app.Holder", "app.Clock"] } ∧
    get 3 0 (.str "app.Service") (holderState newService)
      = .ret (.pointer holderPtrT (some 0))
        { containers := storeAt (storeAt (holderState newService).containers 0 "app.Service"
            (.pointer holderPtrT (some 0))) 0 "app.Clock" (.scalar clockT "V"),
          objs := [injectedHolderCell "V"],
          calls := ["app.Service", "app.Clock"] } :=
  ⟨(get_nested_inject 0 0 0 "app.Holder" (holderState newHolderPtr)
      { containers := storeAt (storeAt (holderState newHolderPtr).containers 0 "app.Holder"
          (.pointer holderPtrT (some 0))) 0 "app.Clock" (.scalar clockT "V"),
        objs := [newHolderCell],
        calls := ["app.Holder", "app.Clock"] }
      newHolderPtr .nil holderPtrT holderT innerT clockT clockT ["Serve"] [] [] [] [] []
      (.scalar clockT "0") (.scalar clockT "0") (.scalar clockT "V")
      rfl rfl rfl rfl rfl rfl
      (fun _ h => absurd h (List.not_mem_nil _)) (fun _ h => absurd h (List.not_mem_nil _))
      (fun _ h => absurd h (List.not_mem_nil _)) (fun _ h => absurd h (List.not_mem_nil _))
      (fun _ h => absurd h (List.not_mem_nil _))
      (Or.inl rfl) rfl (by decide) rfl rfl rfl rfl rfl rfl rfl).1,
    (get_nested_inject 0 0 0 "app.Service" (holderState newService)
      { containers := storeAt (storeAt (holderState newService).containers 0 "app.Service"
          (.pointer holderPtrT (some 0))) 0 "app.Clock" (.scalar clockT "V"),
        objs := [newHolderCell],
        calls := ["app.Service", "app.Clock"] }
      newService .nil serviceT holderT innerT clockT clockT ["Serve"] [] [] [] [] []
      (.scalar clockT "0") (.scalar clockT "0") (.scalar clockT "V")
      rfl rfl rfl rfl rfl rfl
      (fun _ h => absurd h (List.not_mem_nil _)) (fun _ h => absurd h (List.not_mem_nil _))
      (fun _ h => absurd h (List.not_mem_nil _)) (fun _ h => absurd h (List.not_mem_nil _))
      (fun _ h => absurd h (List.not_mem_nil _))
      (Or.inr rfl) rfl (by decide) rfl rfl rfl rfl rfl rfl rfl).1⟩

/-! ## Where the message of a panic comes from -/

/-- The not-provided message starts with a quotation mark. -/
theorem notProvided_head (K : String) : (notProvided K).data.head? = some '"' := by
  simp [notProvided, String.data_append]

/-- The not-provided message ends with the letter `d`. -/
theorem notProvided_last (K : String) : (notProvided K).data.getLast? = some 'd' := by
  simp only [notProvided, String.data_append]
  rw [List.getLast?_append_of_ne_nil _ (by decide)]
  rfl

/-- The returned-error message ends with a quotation mark. -/
theorem returnedError_last (k cause : String) :
    (returnedError k cause).data.getLast? = some '"' := by
  simp only [returnedError, String.data_append]
  rw [List.getLast?_append_of_ne_nil _ (by decide)]
  rfl

/-- The returned-error message is never a not-provided message. -/
theorem returnedError_ne_notProvided (k cause K : String) :
    returnedError k cause ≠ notProvided K := by
  intro h
  have h1 := returnedError_last k cause
  rw [h, notProvided_last] at h1
  simp at h1

/-- A message that does not start with a quotation mark is no not-provided message. -/
theorem LibMsg.ne_notProvided {m : String} (hm : LibMsg m) (K : String) : m ≠ notProvided K := by
  intro h
  apply hm
  rw [h]
  exact notProvided_head K

/-- The error of `getDepName` is a fixed message. -/
theorem getDepName_error (d : Value) (e : String) (h : getDepName d = .error e) : LibMsg e := by
  unfold getDepName at h
  split at h <;> first | (cases h; done) | (cases h; decide)

/-- The error of `Elem` is a fixed message. -/
theorem RValue.Elem_error (objs : ObjHeap) (v : RValue) (e : String)
    (h : v.Elem objs = .error e) : LibMsg e := by
  unfold RValue.Elem at h
  repeat' split at h
  all_goals first | (cases h; done) | (cases h; decide)

/-- The error of the head of `injectFields` is a fixed message. -/
theorem injectTarget_error (objs : ObjHeap) (v : RValue) (e : String)
    (h : injectTarget objs v = .error e) : LibMsg e := by
  unfold injectTarget at h
  split at h
  · split at h
    · rename_i e1 he
      cases h
      exact RValue.Elem_error _ _ _ he
    · cases h
      decide
    · split at h
      · rename_i e1 he
        cases h
        exact RValue.Elem_error _ _ _ he
      · cases h
        decide
      · cases h
  · split at h
    · rename_i e1 he
      cases h
      exact RValue.Elem_error _ _ _ he
    · cases h
    · split at h <;> cases h
  · cases h
  · cases h

/-- The error of `NumField` is a fixed message. -/
theorem RValue.fields_error (v : RValue) (e : String) (h : v.fields = .error e) : LibMsg e := by
  unfold RValue.fields at h
  repeat' split at h
  all_goals first | (cases h; done) | (cases h; decide)

/-- The error of `Field` is a fixed message. -/
theorem RValue.Field_error (objs : ObjHeap) (v : RValue) (i : Nat) (f : StructField) (e : String)
    (h : v.Field objs i f = .error e) : LibMsg e := by
  unfold RValue.Field at h
  repeat' split at h
  all_goals first | (cases h; done) | (cases h; decide)

/-- The error of `Set` is a fixed message. -/
theorem setField_error (objs : ObjHeap) (v : RValue) (i : Nat) (f : StructField) (dep : Value)
    (e : String) (h : setField objs v i f dep = .error e) : LibMsg e := by
  unfold setField at h
  repeat' split at h
  all_goals first | (cases h; done) | (cases h; decide)

/-- The error of `Call` is a fixed message or the panic of the body of the function. -/
theorem reflectCall_error (fn : Func) (args : List Value) (objs : ObjHeap) (e : String)
    (h : reflectCall fn args objs = .error e) :
    LibMsg e ∨ fn.call args objs = .error e := by
  unfold reflectCall at h
  split at h
  · rename_i e1 hck
    cases h
    exact Or.inl (callCheck_libMsg fn args _ hck)
  · split at h
    · rename_i e1 he
      cases h
      exact Or.inr he
    · split at h
      · cases h
      · cases h
        exact Or.inl (by decide)

/-- The argument loop panics with a message of one of the resolutions. -/
theorem resolveArgs_msg (Q : State → Prop) (P : String → Prop)
    (getF : Value → State → Outcome Value)
    (hall : ∀ d s, Q s → (getF d s).All Q) (hmsg : ∀ d s, Q s → (getF d s).Msg P)
    (l : List GoType) (s : State) (hs : Q s) : (resolveArgs getF l s).Msg P := by
  induction l generalizing s with
  | nil => trivial
  | cons t rest ih =>
    have h1 := hall (.str (getFullDepPath t)) s hs
    have h2 := hmsg (.str (getFullDepPath t)) s hs
    simp only [resolveArgs]
    cases hg : getF (.str (getFullDepPath t)) s with
    | diverge => trivial
    | panic msg s1 => rw [hg] at h2; exact h2
    | ret fDep s1 =>
      rw [hg] at h1
      have h3 := ih s1 h1
      dsimp only
      cases hr : resolveArgs getF rest s1 with
      | diverge => trivial
      | panic msg s2 => rw [hr] at h3; exact h3
      | ret vals s2 => trivial

/-- The method `callFunc` panics with a message of the resolution of an argument,
with the error of `Call`, or with the returned-error message. -/
theorem callFunc_msg (Q : State → Prop) (P : String → Prop)
    (getF : Value → State → Outcome Value)
    (hall : ∀ d s, Q s → (getF d s).All Q) (hmsg : ∀ d s, Q s → (getF d s).Msg P)
    (k : String) (fn : Func)
    (hrc : ∀ vals objs e, reflectCall fn vals objs = .error e → P e)
    (hre : ∀ cause, P (returnedError k cause))
    (s : State) (hs : Q s) : (callFunc getF (some fn) k s).Msg P := by
  have h1 := resolveArgs_msg Q P getF hall hmsg fn.ins s hs
  simp only [callFunc]
  cases hr : resolveArgs getF fn.ins s with
  | diverge => trivial
  | panic msg s1 => rw [hr] at h1; exact h1
  | ret vals s1 =>
    dsimp only
    cases hck : callCheck fn vals with
    | some e =>
      have : reflectCall fn vals s1.objs = .error e := by simp only [reflectCall, hck]
      exact hrc _ _ _ this
    | none =>
      dsimp only
      cases hc : reflectCall fn vals s1.objs with
      | error e => exact hrc _ _ _ hc
      | ok p =>
        obtain ⟨res, objs1⟩ := p
        dsimp only
        split
        · exact hre _
        · trivial

/-- The body of the loop of `injectFields` panics with a message of `get`, of the
visit of the nested field, or with a fixed message of package `reflect`. -/
theorem injectField_msg (Q : State → Prop) (P : String → Prop)
    (getF : Value → State → Outcome Value) (nested : RValue → State → Outcome Unit)
    (hall : ∀ d s, Q s → (getF d s).All Q) (hmsg : ∀ d s, Q s → (getF d s).Msg P)
    (hnest : ∀ v s, Q s → (nested v s).Msg P)
    (hlib : ∀ m, LibMsg m → P m)
    (hobjs : ∀ (s : State) (objs : ObjHeap), Q s → Q { s with objs := objs })
    (v : RValue) (i : Nat) (f : StructField) (s : State) (hs : Q s) :
    (injectField getF nested v i f s).Msg P := by
  have key : ∀ o : Outcome Unit, o.All Q → o.Msg P →
      (match o with
        | .panic msg s1 => Outcome.panic msg s1
        | .diverge => Outcome.diverge
        | .ret _ s1 =>
          if f.tag = NESTED then
            match v.Field s1.objs i f with
            | .error msg => Outcome.panic msg s1
            | .ok fv => nested fv s1
          else Outcome.ret () s1).Msg P := by
    intro o ho hm
    cases o with
    | diverge => trivial
    | panic msg s1 => exact hm
    | ret u s1 =>
      simp only [Outcome.All] at ho
      dsimp only
      split
      · split
        · rename_i e he
          exact hlib _ (RValue.Field_error _ _ _ _ _ he)
        · exact hnest _ s1 ho
      · trivial
  unfold injectField
  have h1 := hall (.str (getFullDepPath f.typ)) s hs
  have h2 := hmsg (.str (getFullDepPath f.typ)) s hs
  apply key
  · split
    · cases hg : getF (.str (getFullDepPath f.typ)) s with
      | diverge => trivial
      | panic msg s1 => rw [hg] at h1; exact h1
      | ret dep s1 =>
        rw [hg] at h1
        dsimp only
        split
        · exact h1
        · exact hobjs _ _ h1
    · exact hs
  · split
    · cases hg : getF (.str (getFullDepPath f.typ)) s with
      | diverge => trivial
      | panic msg s1 => rw [hg] at h2; exact h2
      | ret dep s1 =>
        dsimp only
        split
        · rename_i e he
          exact hlib _ (setField_error _ _ _ _ _ _ he)
        · trivial
    · trivial

/-- The loop of `injectFields` panics with a message of its body. -/
theorem fieldsLoop_msg (Q : State → Prop) (P : String → Prop)
    (body : Nat → StructField → State → Outcome Unit)
    (hball : ∀ i f s, Q s → (body i f s).All Q) (hbmsg : ∀ i f s, Q s → (body i f s).Msg P)
    (i : Nat) (fs : List StructField) (s : State) (hs : Q s) :
    (fieldsLoop body i fs s).Msg P := by
  induction fs generalizing i s with
  | nil => trivial
  | cons f rest ih =>
    have h1 := hball i f s hs
    have h2 := hbmsg i f s hs
    simp only [fieldsLoop]
    cases hb : body i f s with
    | diverge => trivial
    | panic msg s1 => rw [hb] at h2; exact h2
    | ret u s1 => rw [hb] at h1; exact ih (i + 1) s1 h1

/-- The method `injectFields` panics with a message of `get` or with a fixed message
of package `reflect`. -/
theorem injectFields_msg (Q : State → Prop) (P : String → Prop)
    (getF : Value → State → Outcome Value)
    (hall : ∀ d s, Q s → (getF d s).All Q) (hmsg : ∀ d s, Q s → (getF d s).Msg P)
    (hlib : ∀ m, LibMsg m → P m)
    (hobjs : ∀ (s : State) (objs : ObjHeap), Q s → Q { s with objs := objs })
    (fuel : Nat) (v : RValue) (s : State) (hs : Q s) :
    (injectFields fuel getF v s).Msg P := by
  induction fuel generalizing v s with
  | zero => trivial
  | succ n ih =>
    rw [injectFields_succ]
    cases ht : injectTarget s.objs v with
    | error e => exact hlib _ (injectTarget_error _ _ _ ht)
    | ok t =>
      cases t with
      | none => trivial
      | some target =>
        dsimp only
        cases hfs : target.fields with
        | error e => exact hlib _ (RValue.fields_error _ _ hfs)
        | ok fs =>
          exact fieldsLoop_msg Q P _
            (fun i f s1 h1 => injectField_all Q getF _ hall
              (fun v1 s2 h2 => injectFields_all Q getF hall hobjs n v1 s2 h2) hobjs _ i f s1 h1)
            (fun i f s1 h1 => injectField_msg Q P getF _ hall hmsg
              (fun v1 s2 h2 => ih v1 s2 h2) hlib hobjs _ i f s1 h1)
            0 fs s hs

/-- Where the message of a panic of `get` comes from: it is a fixed message of
package `reflect`, of the runtime or of `SetInstance`, the not-provided message
for a key without factory, a returned-error message, or the message of a panic
of the body of a registered factory. -/
theorem get_msg (c : Nat) (s0 : State) (P : String → Prop)
    (hlib : ∀ m, LibMsg m → P m)
    (hnp : ∀ L, GetFactory s0.containers c L = some none → P (notProvided L))
    (hre : ∀ k cause, P (returnedError k cause))
    (hfac : ∀ k fn args objs e, GetFactory s0.containers c k = some (some fn) →
      fn.call args objs = .error e → P e)
    (fuel : Nat) (d : Value) (s : State)
    (hs : (∀ k2, GetFactory s.containers c k2 = GetFactory s0.containers c k2) ∧
      0 ≤ s.calls.length) :
    (get fuel c d s).Msg P := by
  induction fuel generalizing d s with
  | zero => trivial
  | succ n ih =>
    have hQ := closed_factories_calls c s0 0
    have hall : ∀ d2 s2, ((∀ k2, GetFactory s2.containers c k2 = GetFactory s0.containers c k2) ∧
        0 ≤ s2.calls.length) → (get n c d2 s2).All (fun s3 =>
          (∀ k2, GetFactory s3.containers c k2 = GetFactory s0.containers c k2) ∧
          0 ≤ s3.calls.length) :=
      fun d2 s2 h2 => get_all c _ hQ n d2 s2 h2
    simp only [get]
    cases hd : getDepName d with
    | error e => exact hlib _ (getDepName_error _ _ hd)
    | ok k =>
      dsimp only
      cases hi : GetInstance s.containers c k with
      | none => trivial
      | some inst =>
        dsimp only
        by_cases hnil : inst.isNil = true
        · simp only [hnil, if_true]
          cases hf : GetFactory s.containers c k with
          | none => trivial
          | some ff =>
            cases ff with
            | none => exact hnp k (by rw [← hs.1 k]; exact hf)
            | some fn =>
              dsimp only
              have hf0 : GetFactory s0.containers c k = some (some fn) := by
                rw [← hs.1 k]; exact hf
              obtain ⟨hcall, hset⟩ := hQ.2 s k hs ⟨inst, hi, hnil⟩
              have h1 := callFunc_all _ (get n c) hall k hQ.1 hcall (some fn) s hs
              have h2 := callFunc_msg _ P (get n c) hall (fun d2 s2 h2 => ih d2 s2 h2) k fn
                (fun vals objs e he => by
                  rcases reflectCall_error fn vals objs e he with hl | hc
                  · exact hlib e hl
                  · exact hfac k fn vals objs e hf0 hc)
                (hre k) s hs
              cases hc : callFunc (get n c) (some fn) k s with
              | diverge => trivial
              | panic msg s1 => rw [hc] at h2; exact h2
              | ret fCallRes s1 =>
                rw [hc] at h1
                simp only [Outcome.All] at h1
                cases fCallRes with
                | nil => exact hlib _ (by decide)
                | cons r0 rest =>
                  dsimp only
                  cases hs1 : SetInstance s1.containers c k r0.Interface with
                  | none => trivial
                  | some p =>
                    obtain ⟨h1c, err⟩ := p
                    have h3 := hset s1 _ h1c err h1 hs1
                    cases err with
                    | some e =>
                      rcases SetInstance_cases _ _ _ _ _ _ hs1 with ⟨_, he, _⟩ | ⟨_, _, _, he⟩
                      · simp only [Option.some.injEq] at he
                        rw [he]
                        exact hlib _ (by decide)
                      · cases he
                    | none =>
                      dsimp only
                      have h4 := injectFields_msg _ P (get n c) hall
                        (fun d2 s2 h2 => ih d2 s2 h2) hlib hQ.1 n r0
                        { s1 with containers := h1c } h3
                      cases hinj : injectFields n (get n c) r0 { s1 with containers := h1c } with
                      | diverge => trivial
                      | panic msg s2 => rw [hinj] at h4; exact h4
                      | ret u s2 => trivial
        · simp only [hnil]
          trivial
/-- Claim C11: in every state reachable from the empty program by `NewContainer`,
`Provide*`, `Run` and `get`, for every container `c` and every key `K`: no
container of the import closure of `c` has a factory for `K` if and only if
`get(K)` on `c` panics with the not-provided message for `K` in the state in which
it started (it fails at once, so it returns no cached instance); and when some
container of the closure has a factory for `K`, a panic of `get(K)` whose text is
the not-provided message for `K` can only come after a factory has been called,
and it does not occur at all unless the body of a registered factory panics with
that very text itself. -/
theorem get_not_provided_iff (s : State) (hreach : Reach emptyState s) (c : Nat)
    (hc : c < s.containers.length) (dep : Value) (K : String)
    (hK : getDepName dep = .ok K) (n : Nat) :
    ((∀ j cont, InClosure s.containers c j → s.containers[j]? = some cont →
        cont.factories K = none) ↔
      get (n + 1) c dep s = .panic (notProvided K) s) ∧
    ((∃ j cont, InClosure s.containers c j ∧ s.containers[j]? = some cont ∧
        (cont.factories K).isSome = true) →
      (∀ s1, get (n + 1) c dep s ≠ .panic (notProvided K) s1 ∨
        s.calls.length < s1.calls.length) ∧
      ((∀ (k : String) (fn : Func) (args : List Value) (objs : ObjHeap),
          GetFactory s.containers c k = some (some fn) →
          fn.call args objs ≠ .error (notProvided K)) →
        ∀ s1, get (n + 1) c dep s ≠ .panic (notProvided K) s1)) := by
  have hok := hreach.stateOk
  have hiff := GetFactory_none_iff_closure s.containers hok.1 c hc K
  have hnp : ∀ s1, get (n + 1) c dep s = .panic (notProvided K) s1 →
      s1.calls.length ≤ s.calls.length → GetFactory s.containers c K = some none := by
    intro s1 hget hlen
    rw [get_of_key (n + 1) c dep K s hK] at hget
    rcases get_panic_before_call c s (n + 1) K s s1 _ (fun _ => rfl) hget hlen with
      ⟨L, hL, hf⟩ | hlib
    · rw [notProvided_injective K L hL]
      exact hf
    · exact absurd rfl (hlib.ne_notProvided K)
  refine ⟨⟨fun hno => ?_, fun hget => hiff.1 (hnp s hget (le_refl _))⟩, ?_⟩
  · have hf := hiff.2 hno
    obtain ⟨⟨inst, hi⟩, _, _⟩ := searches_return_wf s.containers hok.1 c hc K
    have hnil : inst.isNil = true := by
      cases hx : inst.isNil with
      | true => rfl
      | false =>
        exfalso
        obtain ⟨j, cont, hcl, hj, hv⟩ := GetInstanceAux_some_closure _ K _ c inst hi hx
        have hown := hok.2 K j cont hj (by rw [hv]; exact hx)
        rw [hno j cont hcl hj] at hown
        simp at hown
    simp only [get, hK, hi, hnil, if_true, hf]
  · rintro ⟨j, cont, hcl, hj, hsome⟩
    have hreg : GetFactory s.containers c K ≠ some none := by
      intro hf
      have := hiff.1 hf j cont hcl hj
      rw [this] at hsome
      simp at hsome
    refine ⟨fun s1 => ?_, fun hfac s1 hget => ?_⟩
    · by_cases hget : get (n + 1) c dep s = .panic (notProvided K) s1
      · right
        by_contra hlt
        exact hreg (hnp s1 hget (Nat.le_of_not_lt hlt))
      · exact Or.inl hget
    · have hm := get_msg c s (fun m => m ≠ notProvided K)
        (fun m hm => hm.ne_notProvided K)
        (fun L hL hLK => hreg (by rw [← notProvided_injective L K hLK]; exact hL))
        (fun k cause => returnedError_ne_notProvided k cause K)
        (fun k fn args objs e hf he hek => hfac k fn args objs hf (by rw [← hek]; exact he))
        (n + 1) dep s ⟨fun _ => rfl, Nat.zero_le _⟩
      rw [hget] at hm
      exact hm rfl

/-- Witness of `get_not_provided_iff`: the key `app.X`, which nobody registers, on the
second container of the scenario. -/
theorem get_not_provided_iff_witness :
    Reach emptyState (scenarioState "V") ∧ 1 < (scenarioState "V").containers.length ∧
    getDepName (.str "app.X") = .ok "app.X" ∧
    get 1 1 (.str "app.X") (scenarioState "V")
      = .panic "\"app.X\" dependency not provided" (scenarioState "V") ∧
    ∀ j cont, InClosure (scenarioState "V").containers 1 j →
      (scenarioState "V").containers[j]? = some cont → cont.factories "app.X" = none :=
  ⟨reach_scenarioState, by decide, rfl, rfl,
    (get_not_provided_iff (scenarioState "V") reach_scenarioState 1 (by decide)
      (.str "app.X") "app.X" rfl 0).1.2 rfl⟩

/-- The factory search of a container that has a factory for the key takes it. -/
theorem GetFactory_own_factory (h : List Container) (c : Nat) (K : String) (cont : Container)
    (fn : Func) (hc : h[c]? = some cont) (hf : cont.factories K = some fn) :
    GetFactory h c K = some (some fn) := by
  simp [GetFactory, GetFactoryAux, hc, hf]

/-- Claim C3: a child `c` that registers `K` itself, whatever its imports register or
hold for `K`. When the child holds an instance for `K`, `get(K)` on `c` returns
it, in the state in which it started. When the child holds none, the arguments of
the child's own factory are resolved and this factory is called: when the
resolution returns, the call returns results without an error among them, and
the visit of the fields of the first result returns, `get(K)` returns the first
result `v` of this call, the store of the child holds `v` for `K`, and the store
of every other container holds for `K` what it held before. And whatever `get(K)`
on `c` returns is the instance that the child held or the first result of the
call of the child's own factory on the arguments that this `get` resolved. -/
theorem get_prefers_own_factory (n c : Nat) (dep : Value) (K : String) (s : State)
    (cont : Container) (fn : Func)
    (hK : getDepName dep = .ok K) (hc : s.containers[c]? = some cont)
    (hf : cont.factories K = some fn) :
    ((cont.instances K).isNil = false → get (n + 1) c dep s = .ret (cont.instances K) s) ∧
    ((cont.instances K).isNil = true →
      ∀ (vals : List Value) (sA : State) (v : Value) (rest : List Value) (objs1 : ObjHeap)
        (t0 : GoType) (s1 : State),
        resolveArgs (get n c) fn.ins s = .ret vals sA →
        reflectCall fn vals sA.objs = .ok (v :: rest, objs1) →
        firstError (((v :: rest).zip fn.outs).map
          (fun p => ({ typ := p.2, val := p.1, loc := none, ro := false } : RValue))) = none →
        fn.outs.head? = some t0 →
        injectFields n (get n c) (RValue.mk t0 v none false)
          (State.mk (storeAt sA.containers c K v) objs1 (sA.calls ++ [K])) = .ret () s1 →
        get (n + 1) c dep s = .ret v s1 ∧ v.isNil = false ∧
        (∃ cont1, s1.containers[c]? = some cont1 ∧ cont1.instances K = v) ∧
        (∀ i conti, i ≠ c → s.containers[i]? = some conti →
          ∃ conti1, s1.containers[i]? = some conti1 ∧
            conti1.instances K = conti.instances K)) ∧
    (∀ (v : Value) (s1 : State), get (n + 1) c dep s = .ret v s1 →
      (v = cont.instances K ∧ s1 = s) ∨
      ((cont.instances K).isNil = true ∧
        ∃ (vals : List Value) (sA : State) (rest : List Value) (objs1 : ObjHeap),
          resolveArgs (get n c) fn.ins s = .ret vals sA ∧
          reflectCall fn vals sA.objs = .ok (v :: rest, objs1))) := by
  have hfs : (cont.factories K).isSome = true := by simp [hf]
  have hi := GetInstance_own_factory _ c K cont hc hfs
  have hgf := GetFactory_own_factory _ c K cont fn hc hf
  have hown := findOwner_own_factory _ c K cont hc hfs
  -- what a `get` that found no instance and returned has done
  have hback : ∀ (v : Value) (s1 : State), (cont.instances K).isNil = true →
      get (n + 1) c dep s = .ret v s1 →
      v.isNil = false ∧ (∃ cont1, s1.containers[c]? = some cont1 ∧ cont1.instances K = v) ∧
      (∀ i conti, i ≠ c → s.containers[i]? = some conti →
        ∃ conti1, s1.containers[i]? = some conti1 ∧ conti1.instances K = conti.instances K) ∧
      ∃ (vals : List Value) (sA : State) (rest : List Value) (objs1 : ObjHeap),
        resolveArgs (get n c) fn.ins s = .ret vals sA ∧
        reflectCall fn vals sA.objs = .ok (v :: rest, objs1) := by
    intro v s1 hnil hget
    obtain ⟨fn1, o, co1, vals, sA, hgf1, hown1, hrel, hco1, hv1, hv, _, hargs, hcall, _⟩ :=
      get_miss n c dep K s s1 v hK _ hi hnil hget
    rw [hown] at hown1
    simp only [Option.some.injEq] at hown1
    subst hown1
    rw [hgf] at hgf1
    simp only [Option.some.injEq] at hgf1
    subst hgf1
    refine ⟨hv, ⟨co1, hco1, hv1⟩, ?_, ?_⟩
    · intro i conti hic hci
      obtain ⟨conti1, h1, _, _, _, hsame⟩ := hrel.2 i conti hci
      exact ⟨conti1, h1, hsame (by simpa using hic)⟩
    · obtain ⟨rest, objs1, hr⟩ := hcall
      exact ⟨vals, sA, rest, objs1, hargs, hr⟩
  refine ⟨fun hnil => get_cached n c dep K s _ hK hi hnil, ?_, ?_⟩
  · intro hnil vals sA v rest objs1 t0 s1 hr hcall hne ht0 hinj
    have hck : callCheck fn vals = none := by
      unfold reflectCall at hcall
      split at hcall
      · cases hcall
      · assumption
    have hrelA : ColRel K (some c) s.containers sA.containers := by
      have hA := resolveArgs_all _ (get n c)
        (fun d s2 h2 => get_all c _ (closed_outside_owner c K c s.containers hown) n d s2 h2)
        fn.ins s (ColRel.refl _ _ _)
      rw [hr] at hA
      exact hA
    have hownA : findOwner sA.containers c K = some (some c) :=
      (findOwner_colRel hrelA K c).trans hown
    have houts : ∃ outs1, fn.outs = t0 :: outs1 := by
      cases ho : fn.outs with
      | nil => simp [ho] at ht0
      | cons a tl =>
        simp only [ho, List.head?_cons, Option.some.injEq] at ht0
        exact ⟨tl, by rw [ht0]⟩
    obtain ⟨outs1, ho⟩ := houts
    have hget : get (n + 1) c dep s = .ret v s1 := by
      simp only [ho, List.zip_cons_cons, List.map_cons] at hne
      simp only [get, hK, hi, hnil, if_true, hgf, callFunc, hr, hck, hcall, ho,
        List.zip_cons_cons, List.map_cons, hne, RValue.Interface,
        SetInstance_of_owner _ c c K v hownA, hinj]
    obtain ⟨hv, hst, hoth, _⟩ := hback v s1 hnil hget
    exact ⟨hget, hv, hst, hoth⟩
  · intro v s1 hget
    cases hnil : (cont.instances K).isNil with
    | false =>
      rw [get_cached n c dep K s _ hK hi hnil] at hget
      simp only [Outcome.ret.injEq] at hget
      exact Or.inl ⟨hget.1.symm, hget.2.symm⟩
    | true =>
      obtain ⟨_, _, _, hcallmade⟩ := hback v s1 hnil hget
      exact Or.inr ⟨rfl, hcallmade⟩

/-- Witness of `get_prefers_own_factory`: the parent holds the instance `"parent"` for
`app.Clock`, the child holds none, and `get` on the child returns `"child"`, made
by the call of the child's factory; the parent holds `"parent"` as before. -/
theorem get_prefers_own_factory_witness :
    (overrideState.containers[0]?.map (fun p => p.instances "app.Clock"))
      = some (.scalar clockT "parent") ∧
    get 2 1 (.str "app.Clock") overrideState
      = .ret (.scalar clockT "child") (get 2 1 (.str "app.Clock") overrideState).stateD ∧
    ((get 2 1 (.str "app.Clock") overrideState).stateD.containers.map
      (fun p => p.instances "app.Clock"))
      = [.scalar clockT "parent", .scalar clockT "child"] ∧
    (get 2 1 (.str "app.Clock") overrideState).stateD.calls
      = overrideState.calls ++ ["app.Clock"] :=
  ⟨rfl, ((get_prefers_own_factory 1 1 (.str "app.Clock") "app.Clock" overrideState
    { imports := [0], factories := setKey (fun _ => none) "app.Clock" (some (clockFactory "child")),
      instances := fun _ => Value.nil, timeout := defaultTimeout, running := false }
    (clockFactory "child") rfl rfl rfl).2.1 rfl [] overrideState (.scalar clockT "child") []
    overrideState.objs clockT (get 2 1 (.str "app.Clock") overrideState).stateD
    rfl rfl rfl rfl rfl).1, rfl, rfl⟩

end Godepi
